import Mathlib

/-!
# Dispatch: the generic reconciliation controller

A shallow embedding of `pkg/controller/controller.go` and `pkg/log/context.go`.

* Go values that the controller only passes around (entities, loggers, spans,
  contexts) are plain data.
* Code with effects is written in state-passing style over a `World`: the state the
  handlers act on, and the trace of what the controller did (handler invocations, log
  lines, channel sends), in program order.
* Goroutines spawned by `sync` and by the dispatch loop are run at the point where they
  are spawned; the worker pool, the shutdown and the resync pass with its goroutines in
  any order are studied separately, each as a transition system. The method `sync` with
  its goroutines run in place is one execution of the resync pass (`sync_is_execution`).
* Spans are values; finishing and annotating a span leaves no mark in the trace.
* Values are not nil, except where a section says so: `Ptr` has `OnAction` on a context,
  an entity and a logger that may be nil, and the map `servicesEnabled` of the installer
  may be the nil map. The two models of `OnAction` agree on values that are not nil
  (`OnAction_refines`).
* A `time.Duration` is an `int64`: the negation in `defaultSyncFilter` wraps.

Also embedded: `selectServices` of `pkg/dispatchcli/cmd/install.go`, `formatSecretOutput`
of `pkg/dispatchcli/cmd/get_secret.go` and the service injector of
`pkg/functions/injectors/serviceinjector.go`.
-/

set_option autoImplicit false

namespace Dispatch

/-! ## Plain data -/

/-- Go's `time.Duration`: a count of nanoseconds, held in an `int64`; the values of the
type are the integers from -2^63 to 2^63 - 1. -/
abbrev Duration := Int

/-- Go's `time.Time`: an instant, as the nanoseconds that separate it from the zero
`Time` (January 1 of year 1, 00:00 UTC). A `time.Time` holds the whole seconds of this
count in an `int64` and the nanoseconds within the second apart. -/
abbrev Time := Int

/-- The value an `int64` holds when the exact result of an operation is `x`: the integer
from -2^63 to 2^63 - 1 that differs from `x` by a multiple of 2^64. -/
def wrap64 (x : Int) : Int :=
  (x + 9223372036854775808) % 18446744073709551616 - 9223372036854775808

/-- The method `Time.Add` of package `time`. The duration is split into whole seconds
and nanoseconds by Go's truncating division, the nanoseconds are carried into the
seconds, and the sum of the seconds saturates at the bounds of `int64` (`addSec`). -/
def Time.Add (t : Time) (d : Duration) : Time :=
  let dsec := Int.tdiv d 1000000000
  let nsec := t % 1000000000 + Int.tmod d 1000000000
  let dsec1 := if nsec ≥ 1000000000 then dsec + 1 else if nsec < 0 then dsec - 1 else dsec
  let nsec1 :=
    if nsec ≥ 1000000000 then nsec - 1000000000
    else if nsec < 0 then nsec + 1000000000 else nsec
  let sum := t / 1000000000 + dsec1
  let sec :=
    if sum > 9223372036854775807 then 9223372036854775807
    else if sum < -9223372036854775808 then -9223372036854775807 else sum
  sec * 1000000000 + nsec1

/-- Go's `reflect.Type`, identified by the name of the type. -/
abbrev TypeTag := String

/-- A non-nil Go `error`, identified by the text `Error()` returns; `Option GoError`
is the `error` interface, `none` being `nil`. -/
abbrev GoError := String

/-- The type `entitystore.Status`, a string type. -/
abbrev Status := String

/-- Modelled from the spec: `pkg/entity-store` is not among the sources; the status
enumeration of the data model, each constant being its own name. -/
def StatusINITIALIZED : Status := "INITIALIZED"

/-- Modelled from the spec: the status `CREATING` of the entity store. -/
def StatusCREATING : Status := "CREATING"

/-- Modelled from the spec: the status `MISSING` of the entity store. -/
def StatusMISSING : Status := "MISSING"

/-- Modelled from the spec: the status `UPDATING` of the entity store. -/
def StatusUPDATING : Status := "UPDATING"

/-- Modelled from the spec: the status `READY` of the entity store. -/
def StatusREADY : Status := "READY"

/-- Modelled from the spec: the status `DELETING` of the entity store. -/
def StatusDELETING : Status := "DELETING"

/-- Modelled from the spec: the status `ERROR` of the entity store. -/
def StatusERROR : Status := "ERROR"

/-- Modelled from the spec: `entitystore.Entity` is an interface declared outside the
sources; the controller uses the capability set `GetID`, `GetName`, `GetStatus`,
`GetDelete`, `GetModifiedTime` and the runtime type `reflect.TypeOf(e)`. -/
structure Entity where
  TypeOf : TypeTag
  ID : String
  Name : String
  Status : Status
  Delete : Bool
  ModifiedTime : Time
deriving DecidableEq, Repr

/-- The struct `logrus.Entry`: a logger with its data fields. -/
structure Entry where
  Data : List (String × String)
deriving DecidableEq, Repr

/-- The method `(*logrus.Entry).WithField`: a new entry whose data maps `key` to `val`. -/
def Entry.WithField (l : Entry) (key val : String) : Entry :=
  ⟨l.Data.filter (fun p => p.1 != key) ++ [(key, val)]⟩

/-- The value an entry holds for a field. -/
def Entry.field (l : Entry) (key : String) : Option String :=
  l.Data.lookup key

/-- An `opentracing.Span`: its operation name and a serial number telling apart the
spans that different calls start. -/
structure Span where
  operationName : String
  serial : Nat
deriving DecidableEq, Repr

/-! ## Go contexts -/

/-- Keys of context values: the private `logKey{}` of `pkg/log`, the span key of
opentracing, and every other key. -/
inductive Key where
  | logKey
  | activeSpanKey
  | other (name : String)
deriving DecidableEq, Repr

/-- A key together with the value stored under it. A value under `logKey{}` is always a
`*logrus.Entry` (only `WithLogger` can name the key), here one that points to an entry
(`Ptr.Binding` below admits the nil pointer); one under the span key is a span. -/
inductive Binding where
  | logger (l : Entry)
  | span (s : Span)
  | other (name : String) (val : String)
deriving DecidableEq, Repr

/-- The key of a binding. -/
def Binding.key : Binding → Key
  | .logger _ => .logKey
  | .span _ => .activeSpanKey
  | .other n _ => .other n

/-- A `context.Context`, by the way it was derived. The number in `WithCancel` and
`WithDeadline` names the cancel function (and the timer) of that derivation. -/
inductive Context where
  | Background
  | WithValue (parent : Context) (b : Binding)
  | WithCancel (parent : Context) (id : Nat)
  | WithDeadline (parent : Context) (deadline : Time) (id : Nat)
deriving DecidableEq, Repr

/-- The method `ctx.Value(key)`: the innermost binding of the key, `none` for `nil`. -/
def Context.Value : Context → Key → Option Binding
  | .Background, _ => none
  | .WithValue p b, k => if b.key = k then some b else p.Value k
  | .WithCancel p _, k => p.Value k
  | .WithDeadline p _ _, k => p.Value k

/-- The method `ctx.Deadline()`: the earliest deadline on the derivation chain. -/
def Context.Deadline : Context → Option Time
  | .Background => none
  | .WithValue p _ => p.Deadline
  | .WithCancel p _ => p.Deadline
  | .WithDeadline p d _ =>
    match p.Deadline with
    | none => some d
    | some d0 => some (min d0 d)

/-- The method `ctx.Err()` once the cancel functions and timers in `fired` have fired:
a context is done as soon as it or an ancestor is. -/
def Context.Err (fired : List Nat) : Context → Option GoError
  | .Background => none
  | .WithValue p _ => p.Err fired
  | .WithCancel p id =>
    match p.Err fired with
    | some err => some err
    | none => if id ∈ fired then some "context canceled" else none
  | .WithDeadline p _ id =>
    match p.Err fired with
    | some err => some err
    | none => if id ∈ fired then some "context deadline exceeded" else none

/-- The function `opentracing.ContextWithSpan`. -/
def ContextWithSpan (ctx : Context) (span : Span) : Context :=
  .WithValue ctx (.span span)

/-- The function `opentracing.SpanFromContext`. -/
def SpanFromContext (ctx : Context) : Option Span :=
  match ctx.Value .activeSpanKey with
  | some (.span s) => some s
  | _ => none

/-! ## pkg/log/context.go -/

/-- The package variable `stdLog`: an entry of the standard logger, without fields. -/
def stdLog : Entry := ⟨[]⟩

/-- The function `log.WithLogger`. -/
def WithLogger (ctx : Context) (logger : Entry) : Context :=
  .WithValue ctx (.logger logger)

/-- The function `log.GetLogger`. -/
def GetLogger (ctx : Context) : Entry :=
  match ctx.Value .logKey with
  | some (.logger l) => l
  | _ => stdLog

/-- The function `log.WithRequestID`; `newV4` is what `uuid.NewV4().String()` returns
when it is called. -/
def WithRequestID (ctx : Context) (newV4 : String) : Entry × Context :=
  let logger :=
    match ctx.Value .logKey with
    | some (.logger l) => l
    | _ => stdLog.WithField "requestId" newV4
  (logger, WithLogger ctx logger)

/-! ## The world the controller runs in -/

/-- The methods of an `EntityHandler` that act on one entity. -/
inductive Method where
  | Add
  | Update
  | Delete
  | Error
deriving DecidableEq, Repr

/-- Levels of the log lines the controller writes (`Printf` writes at `Info`). -/
inductive Level where
  | Debug
  | Info
  | Warn
  | Error
deriving DecidableEq, Repr

/-- The struct `WatchEvent`. -/
structure WatchEvent where
  Entity : Entity
  Ctx : Context
deriving DecidableEq, Repr

/-- What the controller does that can be observed, in program order. -/
inductive Event where
  /-- A call of `Add`, `Update`, `Delete` or `Error` on the handler of type `handler`. -/
  | call (handler : TypeTag) (method : Method) (ctx : Context) (obj : Entity)
  /-- A call of `Sync` on the handler of type `handler`. -/
  | sync (handler : TypeTag) (ctx : Context) (resyncPeriod : Duration)
  /-- A line written through a logger. -/
  | log (level : Level) (logger : Entry) (msg : String)
  /-- A send on a watcher channel. -/
  | send (chan : Nat) (ev : WatchEvent)
  /-- The statement `go dc.run(dc.done)`. -/
  | goRun
deriving DecidableEq, Repr

/-- The state threaded through the controller: `hstate` is whatever the handlers act on
(entity store, backend), `trace` what has happened so far, `newV4 n` the `n`-th value
that `uuid.NewV4().String()` yields, `minted` and `spans` count the request ids and
spans made so far, `fired` lists the cancel functions and timers that have fired. -/
structure World (σ : Type) where
  hstate : σ
  trace : List Event
  newV4 : Nat → String
  minted : Nat
  spans : Nat
  fired : List Nat

/-- Appends an event to the trace. -/
def World.emit {σ : Type} (w : World σ) (ev : Event) : World σ :=
  { w with trace := w.trace ++ [ev] }

/-- A logging call (`Debugf`, `Infof`, `Warnf`, `Error`, `Printf`) on a logger. -/
def World.logf {σ : Type} (w : World σ) (level : Level) (logger : Entry) (msg : String) :
    World σ :=
  w.emit (.log level logger msg)

/-- Modelled from the spec: `pkg/trace` is not among the sources. `trace.Trace` starts a
span for the task and returns it with a context carrying it. -/
def Trace {σ : Type} (ctx : Context) (operationName : String) (w : World σ) :
    Span × Context × World σ :=
  let span : Span := ⟨operationName, w.spans⟩
  (span, ContextWithSpan ctx span, { w with spans := w.spans + 1 })

/-- A call of `log.WithRequestID` in a world: it draws a fresh uuid exactly when the
context holds no logger. -/
def World.WithRequestID {σ : Type} (w : World σ) (ctx : Context) :
    Entry × Context × World σ :=
  let r := Dispatch.WithRequestID ctx (w.newV4 w.minted)
  (r.1, r.2, if (ctx.Value .logKey).isNone then { w with minted := w.minted + 1 } else w)

/-- The interface `EntityHandler`. Each method may read and change the handler state
and returns an `error`. -/
structure EntityHandler (σ : Type) where
  Type_ : TypeTag
  Add : Context → Entity → σ → Option GoError × σ
  Update : Context → Entity → σ → Option GoError × σ
  Delete : Context → Entity → σ → Option GoError × σ
  Error : Context → Entity → σ → Option GoError × σ
  Sync : Context → Duration → σ → (List Entity × Option GoError) × σ

/-- Selects a method of a handler. -/
def EntityHandler.method {σ : Type} (h : EntityHandler σ) :
    Method → Context → Entity → σ → Option GoError × σ
  | .Add => h.Add
  | .Update => h.Update
  | .Delete => h.Delete
  | .Error => h.Error

/-- A call `h.M(ctx, e)`: runs the method on the handler state and records the call. -/
def World.invoke {σ : Type} (w : World σ) (h : EntityHandler σ) (m : Method)
    (ctx : Context) (e : Entity) : Option GoError × World σ :=
  ((h.method m ctx e w.hstate).1,
    { w with hstate := (h.method m ctx e w.hstate).2,
             trace := w.trace ++ [.call h.Type_ m ctx e] })

/-- A call `h.Sync(ctx, resyncPeriod)`, recorded in the trace. -/
def World.invokeSync {σ : Type} (w : World σ) (h : EntityHandler σ) (ctx : Context)
    (resyncPeriod : Duration) : (List Entity × Option GoError) × World σ :=
  ((h.Sync ctx resyncPeriod w.hstate).1,
    { w with hstate := (h.Sync ctx resyncPeriod w.hstate).2,
             trace := w.trace ++ [.sync h.Type_ ctx resyncPeriod] })

/-! ## pkg/controller/controller.go -/

/-- The constant `defaultWorkers`. -/
def defaultWorkers : Int := 1

/-- The struct `Options`. -/
structure Options where
  ServiceName : String
  ResyncPeriod : Duration
  Workers : Int
deriving DecidableEq, Repr

/-- The struct `DefaultController`: `done` and `watcher` name its two channels,
`entityHandlers` is the map from `reflect.Type` to handler, as a list of entries. -/
structure DefaultController (σ : Type) where
  done : Nat
  watcher : Nat
  options : Options
  entityHandlers : List (TypeTag × EntityHandler σ)

/-- The method `processItem`. -/
def processItem {σ : Type} (dc : DefaultController σ) (ctx : Context) (e : Entity)
    (w : World σ) : Option GoError × World σ :=
  let t := Trace ctx "" w
  let r := t.2.2.WithRequestID t.2.1
  let log := r.1
  let ctx := r.2.1
  let w := r.2.2.logf .Debug log
    ("Processing Item: " ++ e.Name ++ " (" ++ e.ID ++ ") with status " ++ e.Status)
  match dc.entityHandlers.lookup e.TypeOf with
  | none =>
    (some ("trying to process an entity with no entity handler: " ++ e.TypeOf), w)
  | some h =>
    if e.Delete then w.invoke h .Delete ctx e
    else if e.Status = StatusERROR then w.invoke h .Error ctx e
    else if e.Status = StatusINITIALIZED ∨ e.Status = StatusCREATING
        ∨ e.Status = StatusMISSING then w.invoke h .Add ctx e
    else if e.Status = StatusUPDATING then w.invoke h .Update ctx e
    else if e.Status = StatusDELETING then w.invoke h .Delete ctx e
    else if e.Status = StatusREADY then w.invoke h .Update ctx e
    else (some ("invalid status: '" ++ e.Status ++ "'"), w)

/-- The handler invocations recorded in a trace, in order. -/
def calls : List Event → List (TypeTag × Method × Context × Entity)
  | [] => []
  | .call h m c e :: evs => (h, m, c, e) :: calls evs
  | _ :: evs => calls evs

/-- The status table of the data model, as the specification words it: the handler
method each status dispatches to, `none` for a value outside the enumeration. -/
def statusMethod (s : Status) : Option Method :=
  if s = "INITIALIZED" ∨ s = "CREATING" ∨ s = "MISSING" then some .Add
  else if s = "UPDATING" ∨ s = "READY" then some .Update
  else if s = "DELETING" then some .Delete
  else if s = "ERROR" then some .Error
  else none

/-- The context `processItem` hands to the handler method: the caller's context with
the span of the task and the request logger put on top. -/
def handlerCtx {σ : Type} (ctx : Context) (w : World σ) : Context :=
  (Dispatch.WithRequestID (ContextWithSpan ctx ⟨"", w.spans⟩) (w.newV4 w.minted)).2

/-- The world in which `processItem` reaches its handler lookup: span started, request
logger derived, debug line written. -/
def atLookup {σ : Type} (ctx : Context) (e : Entity) (w : World σ) : World σ :=
  ((Trace ctx "" w).2.2.WithRequestID (Trace ctx "" w).2.1).2.2.logf .Debug
    ((Trace ctx "" w).2.2.WithRequestID (Trace ctx "" w).2.1).1
    ("Processing Item: " ++ e.Name ++ " (" ++ e.ID ++ ") with status " ++ e.Status)

/-! ## The worker pool as a transition system

`sync` (line 214) and the dispatch loop of `run` (line 247) each make a semaphore of
their own with `semaphore.NewWeighted(int64(dc.options.Workers))`, acquire one unit
before spawning a goroutine for an entity, and release it when the goroutine ends.
The goroutines run concurrently; the pool records, per semaphore, how many units are
held and how many of the holders are inside a handler method. -/

/-- The struct `semaphore.Weighted`: its size and the weight held. -/
structure Weighted where
  size : Int
  cur : Int
deriving DecidableEq, Repr

/-- The function `semaphore.NewWeighted`. -/
def NewWeighted (n : Int) : Weighted := ⟨n, 0⟩

/-- The two places that take in work. -/
inductive Path where
  | events
  | resync
deriving DecidableEq, Repr

/-- A semaphore of the controller: the path that made it, and the number of its
goroutines that are inside a handler method. -/
structure PoolSem where
  path : Path
  sem : Weighted
  calling : Int
deriving DecidableEq, Repr

/-- The semaphores made so far. -/
abbrev Pool := List PoolSem

/-- The steps of the controller's goroutines that touch the pool. -/
inductive Action where
  /-- The dispatch loop starts and makes its semaphore (line 247). -/
  | startLoop
  /-- A call of `sync` makes its semaphore (line 214). -/
  | startSync
  /-- An `Acquire(ctx, 1)` on semaphore `i` returns nil and the goroutine for the
  entity is spawned (lines 221 to 225, 249 to 253). -/
  | acquire (i : Nat)
  /-- A goroutine of semaphore `i` calls a handler method from `processItem`. -/
  | enter (i : Nat)
  /-- A handler method called by a goroutine of semaphore `i` returns. -/
  | leave (i : Nat)
  /-- A goroutine of semaphore `i` ends: the deferred `Release(1)`. -/
  | release (i : Nat)
deriving DecidableEq, Repr

/-- Changes semaphore `i` of the pool, when it exists and the step is enabled. -/
def Pool.update (p : Pool) (i : Nat) (f : PoolSem → Option PoolSem) : Option Pool :=
  match p[i]? with
  | none => none
  | some s => (f s).map (fun s1 => p.set i s1)

/-- One step of the pool; `none` when the step is not enabled (an `Acquire` with no
free unit does not return, a goroutine cannot leave a handler it is not in). -/
def step (workers : Int) (p : Pool) : Action → Option Pool
  | .startLoop => some (p ++ [⟨.events, NewWeighted workers, 0⟩])
  | .startSync => some (p ++ [⟨.resync, NewWeighted workers, 0⟩])
  | .acquire i => p.update i (fun s =>
      if s.sem.size - s.sem.cur ≥ 1 then
        some { s with sem := { s.sem with cur := s.sem.cur + 1 } }
      else none)
  | .enter i => p.update i (fun s =>
      if s.calling < s.sem.cur then some { s with calling := s.calling + 1 } else none)
  | .leave i => p.update i (fun s =>
      if 0 < s.calling then some { s with calling := s.calling - 1 } else none)
  | .release i => p.update i (fun s =>
      if s.calling < s.sem.cur then
        some { s with sem := { s.sem with cur := s.sem.cur - 1 } }
      else none)

/-- Runs a sequence of steps from a pool. -/
def exec (workers : Int) : List Action → Pool → Option Pool
  | [], p => some p
  | a :: acts, p => (step workers p a).bind (exec workers acts)

/-- The handler invocations in progress, over all semaphores. -/
def inProgress (p : Pool) : Int := (p.map (fun s => s.calling)).sum

/-- What holds of every semaphore of a reachable pool. -/
def PoolSem.Good (workers : Int) (s : PoolSem) : Prop :=
  s.sem.size = workers ∧ 0 ≤ s.calling ∧ s.calling ≤ s.sem.cur ∧ s.sem.cur ≤ max workers 0

/-! ## The resync pass and `Start`

The goroutine that `sync` spawns for an entity is run to its end at the point where it
is spawned, so every `Acquire` finds the semaphore with no unit held. This is one of the
orders in which the goroutines can run; the section on the resync pass with its
goroutines has them all. The calls of `Sync` are made by `sync` itself, one after the
other, in every order of the goroutines. The order in which `range` visits the map of
handlers is left open by Go; the order of the list `entityHandlers` stands for the order
of the pass at hand. -/

/-- The goroutine `sync` spawns for an entity (lines 225 to 232). The annotation of the
span (`span.LogKV`) leaves no mark in the trace. -/
def syncItem {σ : Type} (dc : DefaultController σ) (ctx : Context) (log : Entry)
    (e : Entity) (w : World σ) : World σ :=
  let w1 := w.logf .Debug log
    ("sync: processing entity " ++ e.Name ++ " (" ++ e.Status ++ ")")
  let r := processItem dc ctx e w1
  match r.1 with
  | some err => r.2.logf .Error log err
  | none => r.2

/-- The loop of `sync` over the entities of one handler (lines 220 to 233); `none` when
an `Acquire` never returns. `Acquire(ctx, 1)` returns nil when a unit is free; when the
size of the semaphore is below one it waits for the context to be done and returns its
error. -/
def syncEntities {σ : Type} (dc : DefaultController σ) (sem : Weighted) (ctx : Context)
    (log : Entry) : List Entity → World σ → Option (World σ)
  | [], w => some w
  | e :: es, w =>
    if sem.size - sem.cur ≥ 1 then
      syncEntities dc sem ctx log es (syncItem dc ctx log e w)
    else
      match ctx.Err w.fired with
      | some err => some (w.logf .Info log ("Failed to acquire semaphore: " ++ err))
      | none => none

/-- The loop of `sync` over the handlers (lines 215 to 234): the result of `sync`, or
`none` when an `Acquire` never returns. -/
def syncHandlers {σ : Type} (dc : DefaultController σ) (sem : Weighted) (ctx : Context)
    (log : Entry) : List (EntityHandler σ) → World σ → Option (Option GoError × World σ)
  | [], w => some (none, w)
  | h :: hs, w =>
    let r := w.invokeSync h ctx dc.options.ResyncPeriod
    match r.1.2 with
    | some err => some (some err, r.2)
    | none =>
      match syncEntities dc sem ctx log r.1.1 r.2 with
      | none => none
      | some w1 => syncHandlers dc sem ctx log hs w1

/-- The context of a resync pass (lines 209 and 212). -/
def syncCtx {σ : Type} (w : World σ) : Context :=
  ((Trace .Background "controller sync" w).2.2.WithRequestID
    (Trace .Background "controller sync" w).2.1).2.1

/-- The logger of a resync pass (line 212). -/
def syncLog {σ : Type} (w : World σ) : Entry :=
  ((Trace .Background "controller sync" w).2.2.WithRequestID
    (Trace .Background "controller sync" w).2.1).1

/-- The world in which a resync pass reaches its loop. -/
def syncWorld {σ : Type} (w : World σ) : World σ :=
  ((Trace .Background "controller sync" w).2.2.WithRequestID
    (Trace .Background "controller sync" w).2.1).2.2

/-- The method `sync`: its error result and the world it leaves, `none` when it never
returns. -/
def sync {σ : Type} (dc : DefaultController σ) (w : World σ) :
    Option (Option GoError × World σ) :=
  syncHandlers dc (NewWeighted dc.options.Workers) (syncCtx w) (syncLog w)
    (dc.entityHandlers.map Prod.snd) (syncWorld w)

/-- The method `Start`: the world when it returns, `none` when it never does. The
result of `dc.sync()` is dropped. -/
def Start {σ : Type} (dc : DefaultController σ) (w : World σ) : Option (World σ) :=
  match sync dc w with
  | none => none
  | some r => some (r.2.emit .goRun)

/-- The handlers on which `Sync` was called, in order, by their type. -/
def syncCalls : List Event → List TypeTag
  | [] => []
  | .sync h _ _ :: evs => h :: syncCalls evs
  | _ :: evs => syncCalls evs

/-- The lines logged at error level, in order. -/
def errorLines : List Event → List String
  | [] => []
  | .log .Error _ msg :: evs => msg :: errorLines evs
  | _ :: evs => errorLines evs

/-! ## The entity store and the default resync query -/

namespace entitystore

/-- Modelled from the spec: `pkg/entity-store` is not among the sources. The scope of a
filter condition; the controller compares fields (`FilterScopeField`). -/
inductive FilterScope where
  | FilterScopeField
deriving DecidableEq, Repr

/-- Modelled from the spec: the comparisons of the filter language that the controller
uses, `Before` (`FilterVerbBefore`) and `In` (`FilterVerbIn`). -/
inductive FilterVerb where
  | FilterVerbBefore
  | FilterVerbIn
deriving DecidableEq, Repr

/-- Modelled from the spec: the object of a condition, an instant or a set of statuses
(`Object` is an `interface{}` in the source). -/
inductive FilterObject where
  | time (t : Time)
  | statuses (ss : List Status)
deriving DecidableEq, Repr

/-- Modelled from the spec: the struct `entitystore.FilterStat`, one field comparison. -/
structure FilterStat where
  Scope : FilterScope
  Subject : String
  Verb : FilterVerb
  Object : FilterObject
deriving DecidableEq, Repr

/-- Modelled from the spec: an `entitystore.Filter`, the conjunction of its conditions. -/
abbrev Filter := List FilterStat

/-- Modelled from the spec: `FilterEverything()`, the filter without conditions. -/
def FilterEverything : Filter := []

/-- Modelled from the spec: `Filter.Add`, the filter with the conditions added. -/
def Filter.Add (f : Filter) (stats : List FilterStat) : Filter := f ++ stats

/-- Modelled from the spec: whether an entity satisfies one condition, `ModifiedTime
Before t` being `ModifiedTime < t` and `Status In S` being `Status ∈ S`. A condition of
another shape is satisfied by no entity. -/
def FilterStat.holds (st : FilterStat) (e : Entity) : Bool :=
  match st.Object with
  | .time t =>
    st.Subject == "ModifiedTime" && st.Verb == .FilterVerbBefore && decide (e.ModifiedTime < t)
  | .statuses ss =>
    st.Subject == "Status" && st.Verb == .FilterVerbIn && ss.contains e.Status

/-- Modelled from the spec: whether an entity satisfies a filter, that is every
condition of it. -/
def Filter.satisfiedBy (f : Filter) (e : Entity) : Bool := f.all (fun st => st.holds e)

/-- Modelled from the spec: the struct `entitystore.Options`, of which the controller
sets the filter. -/
structure Options where
  Filter : Filter
deriving DecidableEq, Repr

/-- Modelled from the spec: the interface `entitystore.EntityStore`, of which the
controller calls `ListGlobal`: the entities of a type that the store lists for the
options, or an error. -/
structure EntityStore where
  ListGlobal : Context → Options → TypeTag → Except GoError (List Entity)

/-- Modelled from the spec: a store holding the given entities, whose `ListGlobal`
returns the entities of the type that satisfy the filter. -/
def listStore (entities : List Entity) : EntityStore where
  ListGlobal := fun _ opts ty =>
    .ok (entities.filter (fun e => e.TypeOf == ty && opts.Filter.satisfiedBy e))

end entitystore

/-- The function `defaultSyncFilter`; `timeNow` is what `time.Now()` returns. The
operand `-resyncPeriod` is computed in `int64`. -/
def defaultSyncFilter (timeNow : Time) (resyncPeriod : Duration) : entitystore.Filter :=
  let now := Time.Add timeNow (wrap64 (-resyncPeriod))
  entitystore.FilterEverything.Add [
    { Scope := .FilterScopeField
      Subject := "ModifiedTime"
      Verb := .FilterVerbBefore
      Object := .time now },
    { Scope := .FilterScopeField
      Subject := "Status"
      Verb := .FilterVerbIn
      Object := .statuses [StatusCREATING, StatusUPDATING, StatusDELETING] }]

/-- The function `DefaultSync`; `none` is the nil filter, `timeNow` what `time.Now()`
returns and `serial` the serial number of the span that `trace.Trace` starts. The
result is the pair of the entity list and the error. -/
def DefaultSync (ctx : Context) (store : entitystore.EntityStore) (entityType : TypeTag)
    (resyncPeriod : Duration) (filter : Option entitystore.Filter) (timeNow : Time)
    (serial : Nat) : List Entity × Option GoError :=
  let ctx := ContextWithSpan ctx ⟨"", serial⟩
  let filter :=
    match filter with
    | none => defaultSyncFilter timeNow resyncPeriod
    | some f => f
  let opts : entitystore.Options := { Filter := filter }
  match store.ListGlobal ctx opts entityType with
  | .error err => ([], some err)
  | .ok values => (values, none)

/-! ## The watcher -/

/-- The type `*Watcher`: `none` is the nil pointer, `some none` a pointer to a nil
channel, `some (some ch)` a pointer to the channel `ch`. -/
abbrev WatcherPtr := Option (Option Nat)

/-- The method `OnAction`. The send statement is recorded in the trace. The context, the
entity and the logger in the context are values that are not nil; `Ptr.OnAction` below
is the method on values that may be nil. -/
def OnAction {σ : Type} (w : WatcherPtr) (ctx : Context) (e : Entity) (world : World σ) :
    World σ :=
  let t := Trace ctx "" world
  let span := t.1
  let r := t.2.2.WithRequestID ctx
  let logger := r.1
  match w with
  | some (some ch) =>
    r.2.2.emit (.send ch ⟨e, ContextWithSpan (WithLogger .Background logger) span⟩)
  | _ =>
    r.2.2.logf .Warn logger
      ("nil watcher, skipping entity update: " ++ e.Name ++ " - " ++ e.Status)

/-- The sends recorded in a trace, in order. -/
def sends : List Event → List (Nat × WatchEvent)
  | [] => []
  | .send ch ev :: evs => (ch, ev) :: sends evs
  | _ :: evs => sends evs

/-! ## Construction and registration -/

/-- The function `NewController`; `done` and `watcher` name the two channels that
`make` returns. -/
def NewController {σ : Type} (options : Options) (done watcher : Nat) :
    DefaultController σ :=
  let options :=
    if options.Workers = 0 then { options with Workers := defaultWorkers } else options
  { done := done
    watcher := watcher
    options := options
    entityHandlers := [] }

/-- The method `AddEntityHandler`: the map assignment `dc.entityHandlers[h.Type()] = h`
drops an entry the key had and puts the new one. -/
def AddEntityHandler {σ : Type} (dc : DefaultController σ) (h : EntityHandler σ) :
    DefaultController σ :=
  { dc with
    entityHandlers := (h.Type_, h) :: dc.entityHandlers.filter (fun p => p.1 != h.Type_) }

/-- The method `processItem` picks for an entity once its handler is found (lines 142
to 159): `Delete` when the Delete flag is set, otherwise by the status switch, `none`
in the default branch. -/
def methodOf (e : Entity) : Option Method :=
  if e.Delete then some .Delete
  else if e.Status = StatusERROR then some .Error
  else if e.Status = StatusINITIALIZED ∨ e.Status = StatusCREATING
      ∨ e.Status = StatusMISSING then some .Add
  else if e.Status = StatusUPDATING then some .Update
  else if e.Status = StatusDELETING then some .Delete
  else if e.Status = StatusREADY then some .Update
  else none

/-- The logger `processItem` derives for its task (line 133). -/
def handlerLog {σ : Type} (ctx : Context) (w : World σ) : Entry :=
  (Dispatch.WithRequestID (ContextWithSpan ctx ⟨"", w.spans⟩) (w.newV4 w.minted)).1

/-- The line `processItem` writes at debug level when it is entered (line 135). -/
def processItemLine (e : Entity) : String :=
  "Processing Item: " ++ e.Name ++ " (" ++ e.ID ++ ") with status " ++ e.Status

/-- The lines logged at debug level, in order. On the event path `processItem` is the
only writer at that level, one line a call. -/
def debugLines : List Event → List String
  | [] => []
  | .log .Debug _ msg :: evs => msg :: debugLines evs
  | _ :: evs => debugLines evs

/-- The lines logged at warn level, in order. -/
def warnLines : List Event → List String
  | [] => []
  | .log .Warn _ msg :: evs => msg :: warnLines evs
  | _ :: evs => warnLines evs

/-- The number of times `go dc.run(dc.done)` was executed. -/
def goRuns : List Event → Nat
  | [] => 0
  | .goRun :: evs => goRuns evs + 1
  | _ :: evs => goRuns evs

/-! ## The dispatch loop

The loop of `run` receives the events sent on the watcher channel, acquires a unit of
its semaphore for each and spawns a goroutine. What `sem.Acquire(watchEvent.Ctx, 1)`
returns depends on the goroutines still running and on the moment the context of the
event is cancelled; it is given with the event. As in `sync`, a goroutine is run to its
end at the point where it is spawned. -/

/-- The ways a call `sem.Acquire(watchEvent.Ctx, 1)` can go. -/
inductive Acquired where
  /-- It returns nil: a unit is held. -/
  | ok
  /-- It returns the error of the context, which was done before a unit came free. -/
  | failed (err : GoError)
  /-- It never returns. -/
  | never
deriving DecidableEq, Repr

/-- The goroutine the dispatch loop spawns for an event (lines 253 to 261). -/
def eventItem {σ : Type} (dc : DefaultController σ) (event : WatchEvent) (w : World σ) :
    World σ :=
  let r := w.WithRequestID event.Ctx
  let log := r.1
  let ctx := r.2.1
  let e := event.Entity
  let w1 := r.2.2.logf .Info log ("received event=" ++ e.Status ++ " entity=" ++ e.Name)
  let p := processItem dc ctx e w1
  match p.1 with
  | some err => p.2.logf .Error log err
  | none => p.2

/-- The logger the goroutine of an event derives (line 254). -/
def eventLog {σ : Type} (event : WatchEvent) (w : World σ) : Entry :=
  (w.WithRequestID event.Ctx).1

/-- The context the goroutine of an event passes to `processItem` (line 258). -/
def eventCtx {σ : Type} (event : WatchEvent) (w : World σ) : Context :=
  (w.WithRequestID event.Ctx).2.1

/-- The world in which the goroutine of an event calls `processItem` (line 258). -/
def eventWorld {σ : Type} (event : WatchEvent) (w : World σ) : World σ :=
  (w.WithRequestID event.Ctx).2.2.logf .Info (eventLog event w)
    ("received event=" ++ event.Entity.Status ++ " entity=" ++ event.Entity.Name)

/-- The dispatch loop of `run` (lines 247 to 262) over the events it receives until the
watcher channel is closed, each with the outcome of its `Acquire`; `none` when the loop
never ends. -/
def dispatchLoop {σ : Type} (dc : DefaultController σ) :
    List (WatchEvent × Acquired) → World σ → Option (World σ)
  | [], w => some w
  | (ev, .ok) :: rest, w => dispatchLoop dc rest (eventItem dc ev w)
  | (ev, .failed err) :: _, w =>
    some (w.logf .Warn (GetLogger ev.Ctx) ("Failed to acquire semaphore: " ++ err))
  | (_, .never) :: _, _ => none

/-! ## Shutdown as a transition system

After `Start`, three goroutines run: `run` itself, which waits on `stopChan` (line 277)
and then executes its deferred calls, `close(dc.watcher)` first and
`resyncTicker.Stop()` second; the dispatch loop (lines 246 to 263); and the resync loop
(lines 265 to 275), which calls `sync` for every tick it receives. `Shutdown` (line
116) sends on the unbuffered channel `done` and returns when `run` has received the
value. The moves below are the steps of these goroutines that matter for what begins
after `Shutdown` has returned. -/

/-- Where the goroutines of a started controller stand. `returned`: `run` has received
from `stopChan`, so `Shutdown` has returned. `closed`: the watcher channel is closed.
`halted`: the ticker is stopped. `tick`: a tick waits in the channel of the ticker.
`held`: the dispatch loop has received an event and has not yet spawned its goroutine.
`over`: the dispatch loop has ended. `pass`: the resync loop is inside `sync`, with that
many handler invocations yet to begin. `late` counts the handler invocations begun after
`Shutdown` returned, `lateSpawns` the goroutines the dispatch loop spawned after the
watcher channel was closed, `latePasses` the resync passes begun after the ticker was
stopped. -/
structure Life where
  returned : Bool
  closed : Bool
  halted : Bool
  tick : Bool
  held : Bool
  over : Bool
  pass : Option Nat
  late : Nat
  lateSpawns : Nat
  latePasses : Nat
deriving DecidableEq, Repr

/-- The steps of the goroutines. -/
inductive Move where
  /-- The dispatch loop receives an event from the watcher channel (line 248). -/
  | receive
  /-- The `Acquire` for the event held returns nil and its goroutine is spawned, which
  calls `processItem` and through it a handler method (lines 249 to 261). -/
  | spawn
  /-- The `Acquire` for the event held fails and the loop breaks (lines 249 to 252). -/
  | giveUp
  /-- The `range` over the closed watcher channel ends. -/
  | rangeEnd
  /-- The ticker puts a tick in its channel. -/
  | tick
  /-- The resync loop receives the tick and enters `sync`, a pass that will begin `n`
  handler invocations, calls of `Sync` and goroutines of entities (lines 266 to 270). -/
  | takeTick (n : Nat)
  /-- The pass under way begins its next handler invocation (lines 216, 225 to 228). -/
  | invoke
  /-- The pass under way returns. -/
  | passEnd
  /-- The value sent by `Shutdown` is received by `run`: `Shutdown` returns (lines 116
  and 277). -/
  | shutdown
  /-- The deferred `close(dc.watcher)` runs (line 243). -/
  | closeWatcher
  /-- The deferred `resyncTicker.Stop()` runs (line 241). -/
  | stopTicker
deriving DecidableEq, Repr

/-- The controller when `Start` has returned and `run` has spawned its two loops. -/
def Life.started : Life :=
  { returned := false, closed := false, halted := false, tick := false, held := false,
    over := false, pass := none, late := 0, lateSpawns := 0, latePasses := 0 }

/-- One step; `none` when the move is not enabled. -/
def Life.step (s : Life) : Move → Option Life
  | .receive =>
    if !s.closed && !s.held && !s.over then some { s with held := true } else none
  | .spawn =>
    if s.held then
      some { s with
        held := false
        late := s.late + (if s.returned then 1 else 0)
        lateSpawns := s.lateSpawns + (if s.closed then 1 else 0) }
    else none
  | .giveUp => if s.held then some { s with held := false, over := true } else none
  | .rangeEnd =>
    if s.closed && !s.held && !s.over then some { s with over := true } else none
  | .tick => if !s.halted then some { s with tick := true } else none
  | .takeTick n =>
    if s.tick && s.pass.isNone then
      some { s with
        tick := false
        pass := some n
        latePasses := s.latePasses + (if s.halted then 1 else 0) }
    else none
  | .invoke =>
    match s.pass with
    | some (n + 1) =>
      some { s with pass := some n, late := s.late + (if s.returned then 1 else 0) }
    | _ => none
  | .passEnd =>
    match s.pass with
    | some _ => some { s with pass := none }
    | none => none
  | .shutdown => if !s.returned then some { s with returned := true } else none
  | .closeWatcher =>
    if s.returned && !s.closed then some { s with closed := true } else none
  | .stopTicker =>
    if s.closed && !s.halted then some { s with halted := true } else none

/-- Runs a sequence of moves. -/
def Life.exec : List Move → Life → Option Life
  | [], s => some s
  | m :: ms, s => (s.step m).bind (Life.exec ms)

/-- What holds of every reachable state: before the close no goroutine of the dispatch
loop counts as late and afterwards at most one does, the one of an event held; likewise
for the passes and the tick in the channel of the ticker. -/
def Life.Good (s : Life) : Prop :=
  (if s.closed then s.lateSpawns + (if s.held then 1 else 0) ≤ 1 else s.lateSpawns = 0)
    ∧ (if s.halted then s.latePasses + (if s.tick then 1 else 0) ≤ 1 else s.latePasses = 0)

/-! ## Go strings and maps -/

namespace strings

/-- The function `strings.HasPrefix`. -/
def HasPrefix (s pre : String) : Bool := pre.data.isPrefixOf s.data

/-- The function `strings.TrimPrefix`: `s` without the leading `pre`, `s` itself when it
does not start with `pre`. -/
def TrimPrefix (s pre : String) : String :=
  if HasPrefix s pre then ⟨s.data.drop pre.data.length⟩ else s

end strings

/-- The assignment `m[k] = v` on a Go map with string keys, kept as a list of entries
with one entry a key: the entry of `k`, if any, is replaced. -/
def mapPut {α : Type} (m : List (String × α)) (k : String) (v : α) : List (String × α) :=
  (k, v) :: m.filter (fun p => p.1 != k)

/-! ## pkg/dispatchcli/cmd/install.go: the choice of services -/

/-- The package variable `servicesAvailable`. -/
def servicesAvailable : List String :=
  ["certs", "ingress", "postgres", "api-gateway", "dispatch"]

/-- The package variables `selectServices` works on: the map `servicesEnabled` and the
flags `--service` and `--debug`. The map variable is `none` when it is the nil map and
`some m` when it is an allocated map with the entries `m`. It is declared without an
initialiser (line 33) and no statement of the sources assigns it, so it is the nil map
when `selectServices` is called; the flags are set by the command line. -/
structure InstallVars where
  servicesEnabled : Option (List (String × Bool))
  installServices : List String
  installDebug : Bool

/-- The loop of `selectServices` over `installServices` (lines 365 to 397), from the
entries of the map, which is an allocated map when the loop is reached, and the two mode
flags: the error returned from inside the loop, if any, and the entries at that point. -/
def selectLoop : List String → List (String × Bool) → Bool → Bool →
    Option GoError × List (String × Bool)
  | [], m, _, _ => (none, m)
  | service :: rest, m, whitelistMode, blacklistMode =>
    if strings.HasPrefix service "no-" then
      let name := strings.TrimPrefix service "no-"
      if (m.lookup name).isNone then (some ("unknown service: " ++ name), m)
      else if whitelistMode then
        (some "can either whitelist or blacklist services, not both.", m)
      else selectLoop rest (mapPut m name false) whitelistMode true
    else
      let m1 := if whitelistMode then m else m.map (fun p => (p.1, false))
      if (m1.lookup service).isNone then (some ("unknown service: " ++ service), m1)
      else if blacklistMode then
        (some "can either whitelist or blacklist services, not both.", m1)
      else selectLoop rest (mapPut m1 service true) true blacklistMode

/-- The entries of an allocated map after the first statements of `selectServices`
(lines 350 to 354): every available service and the FaaS backend of the configuration
are enabled. -/
def enableKnown (faasBackend : String) (m : List (String × Bool)) : List (String × Bool) :=
  mapPut (servicesAvailable.foldl (fun m service => mapPut m service true) m)
    faasBackend true

/-- The function `selectServices`; of the configuration it reads
`config.DispatchConfig.FaaSBackend`. The result is `none` when the call panics, and
otherwise the error, the entries of `servicesEnabled` when it returns and what it wrote
to `out`. The first statement (line 351, `servicesAvailable` is not empty) is an
assignment to an entry of `servicesEnabled`: on the nil map it panics with "assignment
to entry in nil map". -/
def selectServices (faasBackend : String) (v : InstallVars) :
    Option (Option GoError × List (String × Bool) × List String) :=
  match v.servicesEnabled with
  | none => none
  | some allocated =>
    let m := enableKnown faasBackend allocated
    match v.installServices with
    | [] => some (none, m, [])
    | first :: _ =>
      if first = "all" then some (none, m, [])
      else
        let r := selectLoop v.installServices m false false
        match r.1 with
        | some err => some (some err, r.2, [])
        | none =>
          some (none, r.2,
            if v.installDebug then
              "\nServices to be installed:\n"
                :: (r.2.filter (fun p => p.2)).map (fun p => "* " ++ p.1 ++ "\n")
            else [])

/-- The function `installService`: the value the map `servicesEnabled` holds for the
service, `false` for a key it lacks and for every key of the nil map. -/
def installService (servicesEnabled : Option (List (String × Bool))) (service : String) :
    Bool :=
  match servicesEnabled with
  | none => false
  | some m => (m.lookup service).getD false

/-- The services `selectServices` knows of: the available ones and the FaaS backend. -/
def knownServices (faasBackend : String) : List String :=
  servicesAvailable ++ [faasBackend]

/-! ## pkg/dispatchcli/cmd/get_secret.go: printing secrets -/

namespace v1

/-- Modelled from the spec: `pkg/api/v1` is not among the sources. A secret as
`get_secret.go` uses it: the `ID`, the `Name`, a pointer that may be nil, and the
values under `Secrets`. -/
structure Secret where
  ID : String
  Name : Option String
  Secrets : List (String × String)
deriving DecidableEq, Repr

end v1

/-- What `formatSecretOutput` writes to `out`: a text, a JSON document that encodes one
secret or a list of secrets, or a table given by its header and rows. -/
inductive Written where
  | text (s : String)
  | jsonOne (secret : v1.Secret)
  | jsonList (secrets : List v1.Secret)
  | table (header : List String) (rows : List (List String))
deriving DecidableEq, Repr

/-- The rows `formatSecretOutput` appends to the table (lines 101 to 103); `none` when
`*secret.Name` dereferences a nil pointer. -/
def secretRows : List v1.Secret → Option (List (List String))
  | [] => some []
  | secret :: rest =>
    match secret.Name, secretRows rest with
    | some name, some rows => some ([secret.ID, name, "<hidden>"] :: rows)
    | _, _ => none

/-- The function `formatSecretOutput`; `getSecretContent` is the flag `--all` and
`json` the field `dispatchConfig.JSON`. The result is what is written and the error,
`none` when the function panics (`secrets[0]` on an empty list, a nil `Name`). -/
def formatSecretOutput (getSecretContent json : Bool) (list : Bool)
    (secrets : List v1.Secret) : Option (List Written × Option GoError) :=
  if getSecretContent || json then
    if list then some ([.jsonList secrets], none)
    else
      match secrets with
      | [] => none
      | first :: _ => some ([.jsonOne first], none)
  else
    match secretRows secrets with
    | none => none
    | some rows =>
      some ([.text "Note: secret values are hidden, please use --all flag to get them\n\n",
        .table ["ID", "Name", "Content"] rows], none)

/-! ## pkg/functions/injectors/serviceinjector.go -/

namespace injectors

/-- Modelled from the spec: the generated models of the service manager are not among
the sources. Of the payload of `GetServiceInstanceByName` the injector reads the `ID`
and the status of the binding. -/
structure ServiceInstance where
  ID : String
  BindingStatus : String
deriving DecidableEq, Repr

/-- The secrets of one binding, name to value. -/
abbrev Secrets := List (String × String)

/-- The map the injector builds, service name to secrets. -/
abbrev Bindings := List (String × Secrets)

/-- The two clients of a `serviceInjector`, by what the injector asks of them:
`GetServiceInstanceByName` of the service manager, for a name and the cookie, and
`getSecrets`, the helper of the package (not among the sources) applied to the secret
client, for a list of secret names. -/
structure serviceInjector where
  GetServiceInstanceByName : String → String → Except GoError ServiceInstance
  getSecrets : List String → Except GoError Secrets

/-- The loop of `getServiceBindings` (lines 38 to 58) from the bindings made so far.
The result is the map, `none` for nil, and the error. The debug lines it writes through
logrus are left out. -/
def bindLoop (i : serviceInjector) (cookie : String) :
    List String → Bindings → Option Bindings × Option GoError
  | [], bindings => (some bindings, none)
  | name :: rest, bindings =>
    match i.GetServiceInstanceByName name cookie with
    | .error err =>
      (none, some ("failed to get service instance " ++ name
        ++ " from service manager: " ++ err))
    | .ok payload =>
      if payload.BindingStatus != StatusREADY then
        (none, some ("failed to get service bindings current status "
          ++ payload.BindingStatus))
      else
        match i.getSecrets [payload.ID] with
        | .error err =>
          (none, some ("failed to get service binding secrets for service instance "
            ++ name ++ ": " ++ err))
        | .ok secrets => bindLoop i cookie rest (mapPut bindings name secrets)

/-- The function `getServiceBindings`. -/
def getServiceBindings (i : serviceInjector) (serviceNames : List String)
    (cookie : String) : Option Bindings × Option GoError :=
  bindLoop i cookie serviceNames []

/-- A value of type `interface{}` that a function context or a function holds. -/
inductive FnValue where
  | bindings (b : Bindings)
  | secrets (s : Secrets)
  | text (s : String)
deriving DecidableEq, Repr

/-- The type `functions.Context`, a map from string to `interface{}`. -/
abbrev FnContext := List (String × FnValue)

/-- An `error` a runnable returns: whether it is an `injectorError`, and its text. -/
structure RunError where
  injector : Bool
  msg : GoError
deriving DecidableEq, Repr

/-- The type `functions.Runnable`: from the context and the input to the output (`none`
is nil) and the error. -/
abbrev Runnable := FnContext → Option FnValue → Option FnValue × Option RunError

/-- What a call of the runnable a middleware returns does: its output and error, the
context map afterwards, and the calls it made of the wrapped runnable, each with its
arguments. -/
structure Ran where
  out : Option FnValue
  err : Option RunError
  ctx : FnContext
  invoked : List (FnContext × Option FnValue)
deriving DecidableEq, Repr

/-- The method `GetMiddleware`, applied to the wrapped runnable `f`, a context and an
input (lines 64 to 76). The error line it writes through logrus is left out. -/
def GetMiddleware (i : serviceInjector) (serviceNames : List String) (cookie : String)
    (f : Runnable) (ctx : FnContext) (input : Option FnValue) : Ran :=
  match getServiceBindings i serviceNames cookie with
  | (_, some err) =>
    { out := none
      err := some ⟨true, "error when retrieving bindings from service manager: " ++ err⟩
      ctx := ctx
      invoked := [] }
  | (bindings, none) =>
    let ctx1 := mapPut ctx "serviceBindings" (.bindings (bindings.getD []))
    let r := f ctx1 input
    match r.2 with
    | some err => { out := none, err := some err, ctx := ctx1, invoked := [(ctx1, input)] }
    | none => { out := r.1, err := none, ctx := ctx1, invoked := [(ctx1, input)] }

end injectors

/-! ## `OnAction` on values that may be nil

The definitions above take every value the controller is handed to be there: a context
is a context, an entity an entity, and the `*logrus.Entry` that a context holds under
`logKey{}` points to an entry. `OnAction` is exported, and `log.WithLogger` is exported
and stores the pointer it is given, the nil pointer included. The definitions of this
section keep what the others leave out: the context and the entity are interface values
that may be nil, and the logger in a context is a pointer that may be nil. -/

namespace Ptr

/-- A key together with the value stored under it; the value under `logKey{}` is a
`*logrus.Entry`, `none` being the nil pointer. -/
inductive Binding where
  | logger (l : Option Entry)
  | span (s : Span)
  | other (name : String) (val : String)
deriving DecidableEq, Repr

/-- The key of a binding. -/
def Binding.key : Binding → Key
  | .logger _ => .logKey
  | .span _ => .activeSpanKey
  | .other n _ => .other n

/-- A non-nil `context.Context`, by the way it was derived. -/
inductive Context where
  | Background
  | WithValue (parent : Context) (b : Binding)
  | WithCancel (parent : Context) (id : Nat)
  | WithDeadline (parent : Context) (deadline : Time) (id : Nat)
deriving DecidableEq, Repr

/-- The method `ctx.Value(key)`: the innermost binding of the key, `none` for the nil
interface value. A binding that holds the nil pointer is not `none`. -/
def Context.Value : Context → Key → Option Binding
  | .Background, _ => none
  | .WithValue p b, k => if b.key = k then some b else p.Value k
  | .WithCancel p _, k => p.Value k
  | .WithDeadline p _ _, k => p.Value k

/-- The function `opentracing.ContextWithSpan`. -/
def ContextWithSpan (ctx : Context) (span : Span) : Context :=
  .WithValue ctx (.span span)

/-- The function `log.WithLogger`: it stores the pointer as it is. -/
def WithLogger (ctx : Context) (logger : Option Entry) : Context :=
  .WithValue ctx (.logger logger)

/-- The function `log.WithRequestID`; `newV4` is what `uuid.NewV4().String()` returns
when it is called. The test `val == nil` of line 39 is on the interface value: it is
false for a value that holds a nil `*logrus.Entry`, which the type assertion of line 42
then returns. -/
def WithRequestID (ctx : Context) (newV4 : String) : Option Entry × Context :=
  let logger :=
    match ctx.Value .logKey with
    | some (.logger l) => l
    | _ => some (stdLog.WithField "requestId" newV4)
  (logger, WithLogger ctx logger)

/-- What a call of `OnAction` does before it ends. -/
inductive Did where
  /-- It writes one line at warn level through the logger and returns. -/
  | warned (logger : Entry) (msg : String)
  /-- It executes the send statement for the event on the channel. -/
  | sent (chan : Nat) (entity : Option Entity) (ctx : Context)
  /-- It panics on a nil value, having written and sent nothing. -/
  | panicked
deriving DecidableEq, Repr

/-- The method `OnAction`; `ctx` and `e` are `none` for nil interface values, `serial`
is the serial number of the span that `trace.Trace` starts and `newV4` what
`uuid.NewV4().String()` returns. A nil context panics at `ctx.Value` (line 37 of
`pkg/log/context.go`) at the latest. On a nil watcher, the arguments `e.GetName()` and
`e.GetStatus()` of line 61 panic for a nil entity, and `logger.Warnf` dereferences the
entry, which panics for the nil pointer. -/
def OnAction (w : WatcherPtr) (ctx : Option Context) (e : Option Entity) (serial : Nat)
    (newV4 : String) : Did :=
  match ctx with
  | none => .panicked
  | some ctx =>
    let span : Span := ⟨"", serial⟩
    let r := WithRequestID ctx newV4
    let logger := r.1
    match w with
    | some (some ch) =>
      .sent ch e (ContextWithSpan (WithLogger .Background logger) span)
    | _ =>
      match e, logger with
      | some e, some logger =>
        .warned logger
          ("nil watcher, skipping entity update: " ++ e.Name ++ " - " ++ e.Status)
      | _, _ => .panicked

/-- A binding of the first model in this one: its logger is a pointer to the entry. -/
def liftBinding : Dispatch.Binding → Binding
  | .logger l => .logger (some l)
  | .span s => .span s
  | .other n v => .other n v

/-- A context of the first model in this one. -/
def lift : Dispatch.Context → Context
  | .Background => .Background
  | .WithValue p b => .WithValue (lift p) (liftBinding b)
  | .WithCancel p id => .WithCancel (lift p) id
  | .WithDeadline p d id => .WithDeadline (lift p) d id

end Ptr

/-! ## The resync pass with its goroutines

`sync` spawns a goroutine for every entity (line 225) and waits for none of them: what
it waits for is a unit of its semaphore (line 221). When `sync` returns, the goroutines
it spawned may have run, may be running or may not have begun. The definitions of this
section take a resync pass as a transition system: the steps of `sync` itself, and the
steps of the goroutines, in any order the semaphore allows. The body of a goroutine
(lines 227 to 231) is one step, the deferred `Release` another. -/

/-- Where a resync pass stands. `rest`: the handlers the loop of line 215 has yet to
visit. `entities`: the entities of the handler at hand for which the loop of line 220
has yet to acquire a unit. `waiting`: the goroutines spawned whose body has not run, by
their entity. `leaving`: the number of goroutines past their body whose deferred
`Release` has not run. `result`: what `sync` returned, `none` while it has not returned.
`listed` and `spawned` keep the history: the entities that the calls of `Sync` returned
so far, and the entities for which a goroutine was spawned so far. -/
structure Pass (σ : Type) where
  world : World σ
  rest : List (EntityHandler σ)
  entities : List Entity
  sem : Weighted
  waiting : List Entity
  leaving : Nat
  result : Option (Option GoError)
  listed : List Entity
  spawned : List Entity

/-- The steps of a resync pass. -/
inductive PassMove where
  /-- The loop over the handlers goes on (line 215): with no handler left `sync`
  returns nil (line 235); otherwise `Sync` is called on the next handler (line 216),
  and `sync` returns its error (line 218) or enters the loop over its entities. -/
  | next
  /-- `Acquire(ctx, 1)` returns nil for the next entity and the goroutine for it is
  spawned (lines 221 and 225). -/
  | spawn
  /-- `Acquire(ctx, 1)` returns the error of the context, `sync` writes it and leaves
  the loop over the entities (lines 221 to 224). -/
  | fail
  /-- The goroutine at place `i` among the waiting ones runs its body (lines 227 to
  231). -/
  | body (i : Nat)
  /-- A goroutine past its body ends: the deferred `Release(1)` (line 226). -/
  | release
deriving DecidableEq, Repr

/-- One step of a resync pass with context `ctx` and logger `log`; `none` when the step
is not enabled. `sync` takes no step once it has returned; `Acquire` returns nil only
when a unit is free and an error only when the context is done. -/
def Pass.step {σ : Type} (dc : DefaultController σ) (ctx : Context) (log : Entry)
    (s : Pass σ) : PassMove → Option (Pass σ)
  | .next =>
    if s.result.isSome || !s.entities.isEmpty then none
    else
      match s.rest with
      | [] => some { s with result := some none }
      | h :: hs =>
        let r := s.world.invokeSync h ctx dc.options.ResyncPeriod
        match r.1.2 with
        | some err => some { s with world := r.2, rest := hs, result := some (some err) }
        | none =>
          some { s with world := r.2, rest := hs, entities := r.1.1,
                        listed := s.listed ++ r.1.1 }
  | .spawn =>
    if s.result.isSome then none
    else
      match s.entities with
      | [] => none
      | e :: es =>
        if s.sem.size - s.sem.cur ≥ 1 then
          some { s with entities := es, sem := { s.sem with cur := s.sem.cur + 1 },
                        waiting := s.waiting ++ [e], spawned := s.spawned ++ [e] }
        else none
  | .fail =>
    if s.result.isSome then none
    else
      match s.entities, ctx.Err s.world.fired with
      | _ :: _, some err =>
        some { s with world := s.world.logf .Info log ("Failed to acquire semaphore: " ++ err),
                      entities := [] }
      | _, _ => none
  | .body i =>
    match s.waiting[i]? with
    | none => none
    | some e =>
      some { s with world := syncItem dc ctx log e s.world,
                    waiting := s.waiting.eraseIdx i, leaving := s.leaving + 1 }
  | .release =>
    if 0 < s.leaving then
      some { s with leaving := s.leaving - 1, sem := { s.sem with cur := s.sem.cur - 1 } }
    else none

/-- Runs a sequence of steps of a resync pass. -/
def Pass.exec {σ : Type} (dc : DefaultController σ) (ctx : Context) (log : Entry) :
    List PassMove → Pass σ → Option (Pass σ)
  | [], s => some s
  | m :: ms, s => (s.step dc ctx log m).bind (Pass.exec dc ctx log ms)

/-- The pass when `sync`, called in world `w`, reaches its loop (line 215): span started,
request logger derived, semaphore made, every registered handler yet to visit. -/
def Pass.start {σ : Type} (dc : DefaultController σ) (w : World σ) : Pass σ where
  world := syncWorld w
  rest := dc.entityHandlers.map Prod.snd
  entities := []
  sem := NewWeighted dc.options.Workers
  waiting := []
  leaving := 0
  result := none
  listed := []
  spawned := []

/-- An execution of `sync` called in world `w`: where the pass stands after the steps,
`none` when one of them is not enabled. -/
def Pass.run {σ : Type} (dc : DefaultController σ) (w : World σ) (ms : List PassMove) :
    Option (Pass σ) :=
  Pass.exec dc (syncCtx w) (syncLog w) ms (Pass.start dc w)

/-- What holds of every pass that an execution of `sync` called in world `w` reaches:
every handler call made since is on an entity for which a goroutine was spawned; the
waiting goroutines were spawned; `Sync` has been called on the handlers `pre`, in this
order, which with the handlers yet to visit are the registered ones; the entities
listed are those spawned and those yet to take; once `sync` has returned no entity is
left to take, and when it returned an error some `Sync` was called. -/
def Pass.Good {σ : Type} (dc : DefaultController σ) (w : World σ) (s : Pass σ) : Prop :=
  (∀ c ∈ calls s.world.trace, c ∈ calls w.trace ∨ c.2.2.2 ∈ s.spawned)
    ∧ (∀ e ∈ s.waiting, e ∈ s.spawned)
    ∧ ∃ pre : List (EntityHandler σ),
        syncCalls s.world.trace = syncCalls w.trace ++ pre.map (fun h => h.Type_)
        ∧ dc.entityHandlers.map Prod.snd = pre ++ s.rest
        ∧ s.spawned ++ s.entities = s.listed
        ∧ (s.result.isSome = true → s.entities = [])
        ∧ (∀ err, s.result = some (some err) → pre ≠ [])

/-! ## Sample values -/

/-- A handler for type `T` over a counter: every method bumps the counter by its own
amount; `Update` and `Error` fail. -/
def sampleHandler : EntityHandler Nat where
  Type_ := "T"
  Add := fun _ _ s => (none, s + 1)
  Update := fun _ _ s => (some "update failed", s + 10)
  Delete := fun _ _ s => (none, s + 100)
  Error := fun _ _ s => (some "still broken", s + 1000)
  Sync := fun _ _ s => (([], none), s)

/-- A controller with `sampleHandler` registered and one worker. -/
def sampleController : DefaultController Nat where
  done := 0
  watcher := 1
  options := ⟨"sample", 1000, 1⟩
  entityHandlers := [("T", sampleHandler)]

/-- An entity of type `T` with the given status and delete flag. -/
def sampleEntity (status : Status) (delete : Bool) : Entity :=
  ⟨"T", "id-1", "fn", status, delete, 0⟩

/-- A world with an empty trace. -/
def sampleWorld : World Nat where
  hstate := 0
  trace := []
  newV4 := fun n => "uuid-" ++ toString n
  minted := 0
  spans := 0
  fired := []

/-- A handler for type `A` whose `Sync` fails. -/
def failingHandler : EntityHandler Nat where
  Type_ := "A"
  Add := fun _ _ s => (none, s)
  Update := fun _ _ s => (none, s)
  Delete := fun _ _ s => (none, s)
  Error := fun _ _ s => (none, s)
  Sync := fun _ _ s => (([], some "store down"), s)

/-- A handler for type `B` whose `Sync` returns one entity in `CREATING`. -/
def listingHandler : EntityHandler Nat where
  Type_ := "B"
  Add := fun _ _ s => (none, s + 1)
  Update := fun _ _ s => (none, s)
  Delete := fun _ _ s => (none, s)
  Error := fun _ _ s => (none, s)
  Sync := fun _ _ s => (([⟨"B", "id-7", "img", "CREATING", false, 0⟩], none), s)

/-- A controller with both handlers, visited in the order `A`, `B`. -/
def failFirstController : DefaultController Nat where
  done := 0
  watcher := 1
  options := ⟨"sample", 1000, 1⟩
  entityHandlers := [("A", failingHandler), ("B", listingHandler)]

/-- The same controller, visited in the order `B`, `A`. -/
def failLastController : DefaultController Nat where
  done := 0
  watcher := 1
  options := ⟨"sample", 1000, 1⟩
  entityHandlers := [("B", listingHandler), ("A", failingHandler)]

/-- An entity of type `T` last modified at instant 0. -/
def staleEntity (status : Status) : Entity :=
  ⟨"T", "id-3", "fn", status, false, 0⟩

/-- A context of a request: under a deadline, cancellable, with a value of its own. -/
def requestCtx : Context :=
  .WithCancel (.WithDeadline (.WithValue .Background (.other "user" "alice")) 9000 1) 2

/-- A second handler for type `T`, whose `Add` fails. -/
def otherHandler : EntityHandler Nat where
  Type_ := "T"
  Add := fun _ _ s => (some "quota exceeded", s + 2)
  Update := fun _ _ s => (none, s + 20)
  Delete := fun _ _ s => (none, s + 200)
  Error := fun _ _ s => (none, s + 2000)
  Sync := fun _ _ s => (([], none), s)

/-- A handler for type `T` whose `Update` fails the first time it is called and
succeeds afterwards; the state counts the calls. -/
def flakyHandler : EntityHandler Nat where
  Type_ := "T"
  Add := fun _ _ s => (none, s + 1)
  Update := fun _ _ s => (if s = 0 then some "backend busy" else none, s + 1)
  Delete := fun _ _ s => (none, s + 1)
  Error := fun _ _ s => (none, s + 1)
  Sync := fun _ _ s => (([], none), s)

/-- A controller with `flakyHandler` registered and one worker. -/
def flakyController : DefaultController Nat where
  done := 0
  watcher := 1
  options := ⟨"sample", 1000, 1⟩
  entityHandlers := [("T", flakyHandler)]

/-- An event for an entity of type `T` in `UPDATING`, as `OnAction` builds it. -/
def updateEvent : WatchEvent :=
  ⟨sampleEntity "UPDATING" false,
    .WithValue (.WithValue .Background (.logger ⟨[("requestId", "r-1")]⟩)) (.span ⟨"", 7⟩)⟩

/-- An event for an entity of type `T` in `CREATING`, on a bare context. -/
def createEvent : WatchEvent :=
  ⟨sampleEntity "CREATING" false, .Background⟩

/-- An event whose context is cancelled by the cancel function 2. -/
def cancelledEvent : WatchEvent :=
  ⟨sampleEntity "READY" false, requestCtx⟩

/-- The clients of the test `TestInjectService`: the service manager returns an
instance with a binding in `READY`, the secret client the two secrets. -/
def testInjector : injectors.serviceInjector where
  GetServiceInstanceByName := fun _ _ => .ok ⟨"service-id", "READY"⟩
  getSecrets := fun _ => .ok [("secret1", "value1"), ("secret2", "value2")]

/-- The wrapped function of the test: it returns the bindings of `testService`. -/
def printServiceFn : injectors.Runnable := fun ctx _ =>
  match ctx.lookup "serviceBindings" with
  | some (.bindings b) => ((b.lookup "testService").map .secrets, none)
  | _ => (none, none)

/-- A wrapped function that returns an output together with an error. -/
def partialFn : injectors.Runnable := fun _ _ =>
  (some (.text "partial"), some ⟨false, "half done"⟩)

/-- Clients whose service manager knows `db` with a binding still in `CREATING`. -/
def pendingInjector : injectors.serviceInjector where
  GetServiceInstanceByName := fun name _ =>
    if name = "db" then .ok ⟨"db-id", "CREATING"⟩ else .ok ⟨"service-id", "READY"⟩
  getSecrets := fun _ => .ok [("secret1", "value1")]

/-- Two secrets with their values. -/
def sampleSecrets : List v1.Secret :=
  [⟨"id-1", some "db-password", [("password", "hunter2")]⟩,
    ⟨"id-2", some "api-key", [("key", "abc123")]⟩]

/-- The same two secrets with other values. -/
def otherSecrets : List v1.Secret :=
  [⟨"id-1", some "db-password", [("password", "correct horse")]⟩,
    ⟨"id-2", some "api-key", [("key", "xyz789")]⟩]

/-! ## Theorems -/

theorem calls_append (xs ys : List Event) : calls (xs ++ ys) = calls xs ++ calls ys := by
  induction xs with
  | nil => rfl
  | cons x xs ih => cases x <;> simp [calls, ih]

theorem processItem_registered {σ : Type} (dc : DefaultController σ) (ctx : Context)
    (e : Entity) (w : World σ) (h : EntityHandler σ)
    (hreg : dc.entityHandlers.lookup e.TypeOf = some h) :
    ∃ w1 : World σ, w1.hstate = w.hstate ∧ calls w1.trace = calls w.trace ∧
      processItem dc ctx e w =
        if e.Delete then w1.invoke h .Delete (handlerCtx ctx w) e
        else if e.Status = StatusERROR then w1.invoke h .Error (handlerCtx ctx w) e
        else if e.Status = StatusINITIALIZED ∨ e.Status = StatusCREATING
            ∨ e.Status = StatusMISSING then w1.invoke h .Add (handlerCtx ctx w) e
        else if e.Status = StatusUPDATING then w1.invoke h .Update (handlerCtx ctx w) e
        else if e.Status = StatusDELETING then w1.invoke h .Delete (handlerCtx ctx w) e
        else if e.Status = StatusREADY then w1.invoke h .Update (handlerCtx ctx w) e
        else (some ("invalid status: '" ++ e.Status ++ "'"), w1) := by
  refine ⟨atLookup ctx e w, ?_, ?_, ?_⟩
  · simp only [atLookup, Trace, World.WithRequestID, World.logf, World.emit]
    split <;> rfl
  · simp only [atLookup, Trace, World.WithRequestID, World.logf, World.emit]
    split <;> simp [calls_append, calls]
  · simp only [processItem, hreg]
    rfl

theorem invoke_fst {σ : Type} (w : World σ) (h : EntityHandler σ) (m : Method)
    (c : Context) (e : Entity) : (w.invoke h m c e).1 = (h.method m c e w.hstate).1 := rfl

theorem invoke_hstate {σ : Type} (w : World σ) (h : EntityHandler σ) (m : Method)
    (c : Context) (e : Entity) :
    (w.invoke h m c e).2.hstate = (h.method m c e w.hstate).2 := rfl

theorem invoke_calls {σ : Type} (w : World σ) (h : EntityHandler σ) (m : Method)
    (c : Context) (e : Entity) :
    calls (w.invoke h m c e).2.trace = calls w.trace ++ [(h.Type_, m, c, e)] := by
  simp [World.invoke, calls_append, calls]

/-- Claim C1. When the entity's type has a registered handler `h` and its Delete flag is
false, `processItem` invokes exactly one handler method, the one the status table gives
for the entity's status (Add for INITIALIZED, CREATING, MISSING; Update for UPDATING,
READY; Delete for DELETING; Error for ERROR), on the handler state it was called in,
and returns that method's error result unchanged. -/
theorem processItem_routes_by_status {σ : Type} (dc : DefaultController σ) (ctx : Context)
    (e : Entity) (w : World σ) (h : EntityHandler σ) (m : Method)
    (hreg : dc.entityHandlers.lookup e.TypeOf = some h)
    (hdel : e.Delete = false)
    (hm : statusMethod e.Status = some m) :
    calls (processItem dc ctx e w).2.trace
        = calls w.trace ++ [(h.Type_, m, handlerCtx ctx w, e)]
      ∧ (processItem dc ctx e w).1 = (h.method m (handlerCtx ctx w) e w.hstate).1
      ∧ (processItem dc ctx e w).2.hstate
        = (h.method m (handlerCtx ctx w) e w.hstate).2 := by
  obtain ⟨w1, hs, hc, heq⟩ := processItem_registered dc ctx e w h hreg
  rw [heq]
  simp only [statusMethod] at hm
  simp only [StatusERROR, StatusINITIALIZED, StatusCREATING, StatusMISSING, StatusUPDATING,
    StatusDELETING, StatusREADY, hdel]
  split_ifs at hm with h1 h2 h3 h4
  · obtain rfl : Method.Add = m := by simpa using hm
    have hne : e.Status ≠ "ERROR" := by
      rcases h1 with h1 | h1 | h1 <;> rw [h1] <;> decide
    simp [hne, h1, invoke_fst, invoke_hstate, invoke_calls, hs, hc]
  · obtain rfl : Method.Update = m := by simpa using hm
    have hne : e.Status ≠ "ERROR" := by
      rcases h2 with h2 | h2 <;> rw [h2] <;> decide
    have hnd : e.Status ≠ "DELETING" := by
      rcases h2 with h2 | h2 <;> rw [h2] <;> decide
    rcases h2 with h2 | h2
    · simp [h2, invoke_fst, invoke_hstate, invoke_calls, hs, hc]
    · simp [h2, invoke_fst, invoke_hstate, invoke_calls, hs, hc]
  · obtain rfl : Method.Delete = m := by simpa using hm
    simp [h3, invoke_fst, invoke_hstate, invoke_calls, hs, hc]
  · obtain rfl : Method.Error = m := by simpa using hm
    simp [h4, invoke_fst, invoke_hstate, invoke_calls, hs, hc]

theorem processItem_routes_by_status_witness :
    sampleController.entityHandlers.lookup (sampleEntity "CREATING" false).TypeOf
        = some sampleHandler
      ∧ (sampleEntity "CREATING" false).Delete = false
      ∧ statusMethod (sampleEntity "CREATING" false).Status = some Method.Add
      ∧ calls (processItem sampleController .Background (sampleEntity "CREATING" false)
            sampleWorld).2.trace
          = calls sampleWorld.trace ++ [(sampleHandler.Type_, Method.Add,
              handlerCtx .Background sampleWorld, sampleEntity "CREATING" false)]
      ∧ (processItem sampleController .Background (sampleEntity "CREATING" false)
            sampleWorld).1
          = (sampleHandler.method .Add (handlerCtx .Background sampleWorld)
              (sampleEntity "CREATING" false) sampleWorld.hstate).1
      ∧ (processItem sampleController .Background (sampleEntity "CREATING" false)
            sampleWorld).2.hstate
          = (sampleHandler.method .Add (handlerCtx .Background sampleWorld)
              (sampleEntity "CREATING" false) sampleWorld.hstate).2 :=
  ⟨rfl, rfl, rfl, processItem_routes_by_status sampleController .Background
    (sampleEntity "CREATING" false) sampleWorld sampleHandler .Add rfl rfl rfl⟩

/-- Claim C2. When the entity's type has a registered handler `h` and its Delete flag is
true, `processItem` invokes `h.Delete` exactly once and no other handler method,
whatever the status (any string), and returns the result of `Delete`. -/
theorem processItem_delete_flag {σ : Type} (dc : DefaultController σ) (ctx : Context)
    (e : Entity) (w : World σ) (h : EntityHandler σ)
    (hreg : dc.entityHandlers.lookup e.TypeOf = some h)
    (hdel : e.Delete = true) :
    calls (processItem dc ctx e w).2.trace
        = calls w.trace ++ [(h.Type_, Method.Delete, handlerCtx ctx w, e)]
      ∧ (processItem dc ctx e w).1 = (h.Delete (handlerCtx ctx w) e w.hstate).1
      ∧ (processItem dc ctx e w).2.hstate = (h.Delete (handlerCtx ctx w) e w.hstate).2 := by
  obtain ⟨w1, hs, hc, heq⟩ := processItem_registered dc ctx e w h hreg
  rw [heq]
  simp [hdel, invoke_fst, invoke_hstate, invoke_calls, hs, hc, EntityHandler.method]

theorem processItem_delete_flag_witness :
    sampleController.entityHandlers.lookup (sampleEntity "READY" true).TypeOf
        = some sampleHandler
      ∧ (sampleEntity "READY" true).Delete = true
      ∧ calls (processItem sampleController .Background (sampleEntity "READY" true)
            sampleWorld).2.trace
          = calls sampleWorld.trace ++ [(sampleHandler.Type_, Method.Delete,
              handlerCtx .Background sampleWorld, sampleEntity "READY" true)]
      ∧ (processItem sampleController .Background (sampleEntity "READY" true)
            sampleWorld).1
          = (sampleHandler.Delete (handlerCtx .Background sampleWorld)
              (sampleEntity "READY" true) sampleWorld.hstate).1
      ∧ (processItem sampleController .Background (sampleEntity "READY" true)
            sampleWorld).2.hstate
          = (sampleHandler.Delete (handlerCtx .Background sampleWorld)
              (sampleEntity "READY" true) sampleWorld.hstate).2 :=
  ⟨rfl, rfl, processItem_delete_flag sampleController .Background
    (sampleEntity "READY" true) sampleWorld sampleHandler rfl rfl⟩

/-- Claim C3. With a registered handler: if the Delete flag is false and the status is
none of the seven enumerated values, `processItem` invokes no handler method (the
handler invocations and the handler state are as before) and returns the error
`invalid status: '<status>'`; and whenever `processItem` returns nil, it has invoked
exactly one handler method. -/
theorem processItem_invalid_status {σ : Type} (dc : DefaultController σ) (ctx : Context)
    (e : Entity) (w : World σ) (h : EntityHandler σ)
    (hreg : dc.entityHandlers.lookup e.TypeOf = some h) :
    (e.Delete = false →
      e.Status ∉ [StatusINITIALIZED, StatusCREATING, StatusMISSING, StatusUPDATING,
        StatusREADY, StatusDELETING, StatusERROR] →
      (processItem dc ctx e w).1 = some ("invalid status: '" ++ e.Status ++ "'")
        ∧ calls (processItem dc ctx e w).2.trace = calls w.trace
        ∧ (processItem dc ctx e w).2.hstate = w.hstate)
    ∧ ((processItem dc ctx e w).1 = none →
        ∃ m : Method, calls (processItem dc ctx e w).2.trace
          = calls w.trace ++ [(h.Type_, m, handlerCtx ctx w, e)]) := by
  obtain ⟨w1, hs, hc, heq⟩ := processItem_registered dc ctx e w h hreg
  rw [heq]
  constructor
  · intro hdel hst
    simp only [List.mem_cons, List.mem_singleton, List.not_mem_nil, or_false, not_or] at hst
    obtain ⟨a1, a2, a3, a4, a5, a6, a7⟩ := hst
    simp [hdel, a1, a2, a3, a4, a5, a6, a7, hs, hc]
  · intro hnil
    split_ifs at hnil ⊢
    all_goals exact ⟨_, by rw [invoke_calls, hc]⟩

theorem processItem_invalid_status_witness :
    sampleController.entityHandlers.lookup "T" = some sampleHandler
      ∧ ((processItem sampleController .Background (sampleEntity "BOGUS" false)
              sampleWorld).1 = some "invalid status: 'BOGUS'"
          ∧ calls (processItem sampleController .Background (sampleEntity "BOGUS" false)
              sampleWorld).2.trace = []
          ∧ (processItem sampleController .Background (sampleEntity "BOGUS" false)
              sampleWorld).2.hstate = 0)
      ∧ ∃ m : Method, calls (processItem sampleController .Background
            (sampleEntity "CREATING" false) sampleWorld).2.trace
          = [("T", m, handlerCtx .Background sampleWorld, sampleEntity "CREATING" false)] :=
  ⟨rfl,
    (processItem_invalid_status sampleController .Background (sampleEntity "BOGUS" false)
      sampleWorld sampleHandler rfl).1 rfl (by decide),
    (processItem_invalid_status sampleController .Background (sampleEntity "CREATING" false)
      sampleWorld sampleHandler rfl).2 rfl⟩

/-- Claim C4. When the entity's type has no registered handler, `processItem` returns a
non-nil error and invokes no handler method (the handler invocations and the handler
state are as before), whether or not the Delete flag is set. -/
theorem processItem_no_handler {σ : Type} (dc : DefaultController σ) (ctx : Context)
    (e : Entity) (w : World σ)
    (hreg : dc.entityHandlers.lookup e.TypeOf = none) :
    (processItem dc ctx e w).1
        = some ("trying to process an entity with no entity handler: " ++ e.TypeOf)
      ∧ calls (processItem dc ctx e w).2.trace = calls w.trace
      ∧ (processItem dc ctx e w).2.hstate = w.hstate := by
  simp only [processItem, hreg, Trace, World.WithRequestID, World.logf, World.emit]
  refine ⟨trivial, ?_, ?_⟩
  · split <;> simp [calls_append, calls]
  · split <;> rfl

theorem processItem_no_handler_witness :
    sampleController.entityHandlers.lookup
        (⟨"U", "id-2", "img", "READY", true, 0⟩ : Entity).TypeOf = none
      ∧ (processItem sampleController .Background ⟨"U", "id-2", "img", "READY", true, 0⟩
            sampleWorld).1
          = some "trying to process an entity with no entity handler: U"
      ∧ calls (processItem sampleController .Background
            ⟨"U", "id-2", "img", "READY", true, 0⟩ sampleWorld).2.trace = []
      ∧ (processItem sampleController .Background ⟨"U", "id-2", "img", "READY", true, 0⟩
            sampleWorld).2.hstate = 0 :=
  ⟨rfl, processItem_no_handler sampleController .Background
    ⟨"U", "id-2", "img", "READY", true, 0⟩ sampleWorld rfl⟩

theorem update_good (workers : Int) (p q : Pool) (i : Nat) (f : PoolSem → Option PoolSem)
    (hf : ∀ s s1, s.Good workers → f s = some s1 → s1.Good workers)
    (hp : ∀ s ∈ p, s.Good workers) (hq : p.update i f = some q) :
    ∀ s ∈ q, s.Good workers := by
  unfold Pool.update at hq
  cases hi : p[i]? with
  | none => simp [hi] at hq
  | some s0 =>
    simp only [hi, Option.map_eq_some'] at hq
    obtain ⟨s1, hs1, rfl⟩ := hq
    intro s hs
    rcases List.mem_or_eq_of_mem_set hs with h | h
    · exact hp s h
    · rw [h]
      exact hf s0 s1 (hp s0 (List.getElem?_mem hi)) hs1

theorem step_good (workers : Int) (p q : Pool) (a : Action)
    (hp : ∀ s ∈ p, s.Good workers) (hq : step workers p a = some q) :
    ∀ s ∈ q, s.Good workers := by
  cases a with
  | startLoop =>
    simp only [step, Option.some.injEq] at hq
    subst hq
    intro s hs
    rcases List.mem_append.mp hs with h | h
    · exact hp s h
    · simp only [List.mem_singleton] at h
      subst h
      simp [PoolSem.Good, NewWeighted]
  | startSync =>
    simp only [step, Option.some.injEq] at hq
    subst hq
    intro s hs
    rcases List.mem_append.mp hs with h | h
    · exact hp s h
    · simp only [List.mem_singleton] at h
      subst h
      simp [PoolSem.Good, NewWeighted]
  | acquire i =>
    refine update_good workers p q i _ ?_ hp hq
    intro s s1 hs h1
    split_ifs at h1 with hc
    simp only [Option.some.injEq] at h1
    subst h1
    obtain ⟨h1, h2, h3, h4⟩ := hs
    refine ⟨h1, h2, ?_, ?_⟩
    · show s.calling ≤ s.sem.cur + 1
      omega
    · show s.sem.cur + 1 ≤ max workers 0
      have : s.sem.cur + 1 ≤ workers := by omega
      exact le_trans this (le_max_left _ _)
  | enter i =>
    refine update_good workers p q i _ ?_ hp hq
    intro s s1 hs h1
    split_ifs at h1 with hc
    simp only [Option.some.injEq] at h1
    subst h1
    obtain ⟨h1, h2, h3, h4⟩ := hs
    refine ⟨h1, ?_, ?_, h4⟩
    · show 0 ≤ s.calling + 1
      omega
    · show s.calling + 1 ≤ s.sem.cur
      omega
  | leave i =>
    refine update_good workers p q i _ ?_ hp hq
    intro s s1 hs h1
    split_ifs at h1 with hc
    simp only [Option.some.injEq] at h1
    subst h1
    obtain ⟨h1, h2, h3, h4⟩ := hs
    refine ⟨h1, ?_, ?_, h4⟩
    · show 0 ≤ s.calling - 1
      omega
    · show s.calling - 1 ≤ s.sem.cur
      omega
  | release i =>
    refine update_good workers p q i _ ?_ hp hq
    intro s s1 hs h1
    split_ifs at h1 with hc
    simp only [Option.some.injEq] at h1
    subst h1
    obtain ⟨h1, h2, h3, h4⟩ := hs
    refine ⟨h1, h2, ?_, ?_⟩
    · show s.calling ≤ s.sem.cur - 1
      omega
    · show s.sem.cur - 1 ≤ max workers 0
      omega

theorem exec_good (workers : Int) (acts : List Action) :
    ∀ p q : Pool, (∀ s ∈ p, s.Good workers) → exec workers acts p = some q →
      ∀ s ∈ q, s.Good workers := by
  induction acts with
  | nil =>
    intro p q hp hq
    simp only [exec, Option.some.injEq] at hq
    subst hq
    exact hp
  | cons a acts ih =>
    intro p q hp hq
    simp only [exec] at hq
    cases hs : step workers p a with
    | none => simp [hs] at hq
    | some p1 =>
      rw [hs] at hq
      exact ih p1 q (step_good workers p p1 a hp hs) hq

/-- Claim C5, refuted as stated. With `Workers = 1`: a resync pass takes in an entity and
its goroutine enters a handler method; the dispatch loop then starts, takes in an event on
its own semaphore, and that goroutine enters a handler method too. Two handler
invocations are in progress, more than `Workers`. -/
theorem pool_total_exceeds_workers :
    exec 1 [.startSync, .acquire 0, .enter 0, .startLoop, .acquire 1, .enter 1] []
        = some [⟨.resync, ⟨1, 1⟩, 1⟩, ⟨.events, ⟨1, 1⟩, 1⟩]
      ∧ inProgress [⟨.resync, ⟨1, 1⟩, 1⟩, ⟨.events, ⟨1, 1⟩, 1⟩] = 2
      ∧ ¬ inProgress [⟨.resync, ⟨1, 1⟩, 1⟩, ⟨.events, ⟨1, 1⟩, 1⟩] ≤ 1 := by
  decide

/-- Claim C5, amended. In every execution, for each semaphore of the controller (that
of the dispatch loop, that of each resync pass), the semaphore has size `Workers` and
the handler invocations in progress among the goroutines it let in number at most
`Workers`, and none when `Workers` is below one. -/
theorem pool_bound_per_semaphore (workers : Int) (acts : List Action) (p : Pool)
    (hexec : exec workers acts [] = some p) :
    ∀ s ∈ p, s.sem.size = workers ∧ 0 ≤ s.calling ∧ s.calling ≤ max workers 0 := by
  intro s hs
  have hgood := exec_good workers acts [] p (by simp) hexec s hs
  exact ⟨hgood.1, hgood.2.1, le_trans hgood.2.2.1 hgood.2.2.2⟩

theorem pool_bound_per_semaphore_witness :
    exec 1 [.startSync, .acquire 0, .enter 0, .startLoop, .acquire 1, .enter 1] []
        = some [⟨.resync, ⟨1, 1⟩, 1⟩, ⟨.events, ⟨1, 1⟩, 1⟩]
      ∧ ∀ s ∈ ([⟨.resync, ⟨1, 1⟩, 1⟩, ⟨.events, ⟨1, 1⟩, 1⟩] : Pool),
          s.sem.size = 1 ∧ 0 ≤ s.calling ∧ s.calling ≤ max 1 0 :=
  ⟨by decide, pool_bound_per_semaphore 1
    [.startSync, .acquire 0, .enter 0, .startLoop, .acquire 1, .enter 1] _ (by decide)⟩

theorem syncCalls_append (xs ys : List Event) :
    syncCalls (xs ++ ys) = syncCalls xs ++ syncCalls ys := by
  induction xs with
  | nil => rfl
  | cons x xs ih => cases x <;> simp [syncCalls, ih]

theorem processItem_syncCalls {σ : Type} (dc : DefaultController σ) (ctx : Context)
    (e : Entity) (w : World σ) :
    syncCalls (processItem dc ctx e w).2.trace = syncCalls w.trace := by
  have hlook : syncCalls (atLookup ctx e w).trace = syncCalls w.trace := by
    simp only [atLookup, Trace, World.WithRequestID, World.logf, World.emit]
    split <;> simp [syncCalls_append, syncCalls]
  cases hreg : dc.entityHandlers.lookup e.TypeOf with
  | none =>
    have h1 : processItem dc ctx e w
        = (some ("trying to process an entity with no entity handler: " ++ e.TypeOf),
            atLookup ctx e w) := by
      simp only [processItem, hreg]
      rfl
    rw [h1]
    exact hlook
  | some h =>
    have h1 : ∀ m c, syncCalls ((atLookup ctx e w).invoke h m c e).2.trace
        = syncCalls w.trace := by
      intro m c
      simp [World.invoke, syncCalls_append, syncCalls, hlook]
    have h2 : processItem dc ctx e w =
        if e.Delete then (atLookup ctx e w).invoke h .Delete (handlerCtx ctx w) e
        else if e.Status = StatusERROR then
          (atLookup ctx e w).invoke h .Error (handlerCtx ctx w) e
        else if e.Status = StatusINITIALIZED ∨ e.Status = StatusCREATING
            ∨ e.Status = StatusMISSING then
          (atLookup ctx e w).invoke h .Add (handlerCtx ctx w) e
        else if e.Status = StatusUPDATING then
          (atLookup ctx e w).invoke h .Update (handlerCtx ctx w) e
        else if e.Status = StatusDELETING then
          (atLookup ctx e w).invoke h .Delete (handlerCtx ctx w) e
        else if e.Status = StatusREADY then
          (atLookup ctx e w).invoke h .Update (handlerCtx ctx w) e
        else (some ("invalid status: '" ++ e.Status ++ "'"), atLookup ctx e w) := by
      simp only [processItem, hreg]
      rfl
    rw [h2]
    split_ifs <;> first | exact h1 _ _ | exact hlook

theorem syncItem_syncCalls {σ : Type} (dc : DefaultController σ) (ctx : Context)
    (log : Entry) (e : Entity) (w : World σ) :
    syncCalls (syncItem dc ctx log e w).trace = syncCalls w.trace := by
  simp only [syncItem]
  split
  · simp [World.logf, World.emit, syncCalls_append, syncCalls, processItem_syncCalls]
  · simp [World.logf, World.emit, syncCalls_append, syncCalls, processItem_syncCalls]

theorem syncEntities_syncCalls {σ : Type} (dc : DefaultController σ) (sem : Weighted)
    (ctx : Context) (log : Entry) (es : List Entity) :
    ∀ w w1 : World σ, syncEntities dc sem ctx log es w = some w1 →
      syncCalls w1.trace = syncCalls w.trace := by
  induction es with
  | nil =>
    intro w w1 h
    simp only [syncEntities, Option.some.injEq] at h
    rw [← h]
  | cons e es ih =>
    intro w w1 h
    simp only [syncEntities] at h
    split_ifs at h with hfree
    · rw [ih _ w1 h, syncItem_syncCalls]
    · cases hdone : ctx.Err w.fired with
      | none => simp [hdone] at h
      | some err =>
        simp only [hdone, Option.some.injEq] at h
        rw [← h]
        simp [World.logf, World.emit, syncCalls_append, syncCalls]

/-- Where a resync pass stands when it returns: with a nil result every handler of the
list was synced; with an error, the handlers up to the one that failed, and no other. -/
theorem syncHandlers_syncCalls {σ : Type} (dc : DefaultController σ) (sem : Weighted)
    (ctx : Context) (log : Entry) (hs : List (EntityHandler σ)) :
    ∀ (w w1 : World σ) (res : Option GoError),
      syncHandlers dc sem ctx log hs w = some (res, w1) →
      (res = none ∧ syncCalls w1.trace = syncCalls w.trace ++ hs.map (fun h => h.Type_))
      ∨ (∃ (err : GoError) (pre post : List (EntityHandler σ)) (h : EntityHandler σ),
          res = some err ∧ hs = pre ++ h :: post
          ∧ syncCalls w1.trace
            = syncCalls w.trace ++ (pre ++ [h]).map (fun h => h.Type_)) := by
  induction hs with
  | nil =>
    intro w w1 res h
    simp only [syncHandlers, Option.some.injEq, Prod.mk.injEq] at h
    left
    simp [← h.1, ← h.2]
  | cons h0 hs ih =>
    intro w w1 res h
    simp only [syncHandlers] at h
    have hsync : syncCalls (w.invokeSync h0 ctx dc.options.ResyncPeriod).2.trace
        = syncCalls w.trace ++ [h0.Type_] := by
      simp [World.invokeSync, syncCalls_append, syncCalls]
    cases herr : (w.invokeSync h0 ctx dc.options.ResyncPeriod).1.2 with
    | some err =>
      simp only [herr, Option.some.injEq, Prod.mk.injEq] at h
      right
      refine ⟨err, [], hs, h0, h.1.symm, rfl, ?_⟩
      rw [← h.2, hsync]
      rfl
    | none =>
      simp only [herr] at h
      cases hent : syncEntities dc sem ctx log
          (w.invokeSync h0 ctx dc.options.ResyncPeriod).1.1
          (w.invokeSync h0 ctx dc.options.ResyncPeriod).2 with
      | none => simp [hent] at h
      | some w2 =>
        simp only [hent] at h
        have h2 := syncEntities_syncCalls dc sem ctx log _ _ w2 hent
        rcases ih w2 w1 res h with ⟨hres, hcalls⟩ | ⟨err, pre, post, h1, hres, hlist, hcalls⟩
        · left
          refine ⟨hres, ?_⟩
          rw [hcalls, h2, hsync]
          simp
        · right
          refine ⟨err, h0 :: pre, post, h1, hres, by rw [hlist]; rfl, ?_⟩
          rw [hcalls, h2, hsync]
          simp

/-- Claim C7, refuted as stated. Handlers `A` and `B` are registered and `Sync` of `A`
fails: `Start` returns after one call of `Sync`, on `A`; `Sync` was never invoked on
`B`, and nothing was logged, the error of `A` included. -/
theorem Start_returns_with_handler_unsynced :
    failFirstController.entityHandlers.map (fun p => p.1) = ["A", "B"]
      ∧ (Start failFirstController sampleWorld).map (fun w => w.trace)
          = some [.sync "A" (syncCtx sampleWorld) 1000, .goRun]
      ∧ (Start failFirstController sampleWorld).map
          (fun w => (syncCalls w.trace, errorLines w.trace)) = some (["A"], []) :=
  ⟨rfl, rfl, rfl⟩

/-- Claim C7, amended. `Start` returns only after the initial resync pass has returned,
and spawns the dispatch loop after it: when the pass returned nil, `Sync` has been
invoked and has completed on every registered handler; when it returned an error,
`Sync` has been invoked on the handlers visited up to and including the one whose
`Sync` failed, and on no handler visited after it. -/
theorem Start_after_sync_pass {σ : Type} (dc : DefaultController σ) (w w2 : World σ)
    (hstart : Start dc w = some w2) :
    ∃ (res : Option GoError) (w1 : World σ),
      sync dc w = some (res, w1) ∧ w2.trace = w1.trace ++ [.goRun]
      ∧ ((res = none
            ∧ syncCalls w1.trace
              = syncCalls w.trace ++ dc.entityHandlers.map (fun p => p.2.Type_))
          ∨ (∃ (err : GoError) (pre post : List (EntityHandler σ)) (h : EntityHandler σ),
              res = some err ∧ dc.entityHandlers.map Prod.snd = pre ++ h :: post
              ∧ syncCalls w1.trace
                = syncCalls w.trace ++ (pre ++ [h]).map (fun h => h.Type_))) := by
  unfold Start at hstart
  cases hsync : sync dc w with
  | none => simp [hsync] at hstart
  | some r =>
    obtain ⟨res, w1⟩ := r
    simp only [hsync, Option.some.injEq] at hstart
    refine ⟨res, w1, rfl, by rw [← hstart]; rfl, ?_⟩
    have hw : syncCalls (syncWorld w).trace = syncCalls w.trace := by
      simp only [syncWorld, Trace, World.WithRequestID]
      split <;> rfl
    unfold sync at hsync
    rcases syncHandlers_syncCalls dc _ _ _ _ _ w1 res hsync with
      ⟨hres, hcalls⟩ | ⟨err, pre, post, h, hres, hlist, hcalls⟩
    · left
      refine ⟨hres, ?_⟩
      rw [hcalls, hw, List.map_map]
      rfl
    · right
      exact ⟨err, pre, post, h, hres, hlist, by rw [hcalls, hw]⟩

theorem Start_after_sync_pass_witness :
    ∃ w2 : World Nat, Start failLastController sampleWorld = some w2
      ∧ ∃ (res : Option GoError) (w1 : World Nat),
        sync failLastController sampleWorld = some (res, w1)
        ∧ w2.trace = w1.trace ++ [.goRun]
        ∧ ((res = none
              ∧ syncCalls w1.trace = syncCalls sampleWorld.trace
                ++ failLastController.entityHandlers.map (fun p => p.2.Type_))
            ∨ (∃ (err : GoError) (pre post : List (EntityHandler Nat))
                (h : EntityHandler Nat),
                res = some err
                ∧ failLastController.entityHandlers.map Prod.snd = pre ++ h :: post
                ∧ syncCalls w1.trace
                  = syncCalls sampleWorld.trace ++ (pre ++ [h]).map (fun h => h.Type_))) :=
  ⟨_, rfl, Start_after_sync_pass failLastController sampleWorld _ rfl⟩

/-- Claim C8, evaluated where it fails. With a resync period of 1000 and the clock at
5000, entities of type `T` last modified at 0 are stale; the default filter rejects the
one in `INITIALIZED` and the one in `MISSING`, and `DefaultSync` with a nil filter on a
store holding them together with one in `CREATING` returns the latter only. -/
theorem defaultSync_skips_initialized_and_missing :
    (staleEntity "INITIALIZED").ModifiedTime < 5000 - 1000
      ∧ (defaultSyncFilter 5000 1000).satisfiedBy (staleEntity "INITIALIZED") = false
      ∧ (defaultSyncFilter 5000 1000).satisfiedBy (staleEntity "MISSING") = false
      ∧ (defaultSyncFilter 5000 1000).satisfiedBy (staleEntity "CREATING") = true
      ∧ DefaultSync .Background
          (entitystore.listStore
            [staleEntity "INITIALIZED", staleEntity "MISSING", staleEntity "CREATING"])
          "T" 1000 none 5000 0
        = ([staleEntity "CREATING"], none) := by
  decide

theorem tmod_gt (a : Int) : -1000000000 < a.tmod 1000000000 := by
  rcases le_total 0 a with h | h
  · have := Int.tmod_nonneg 1000000000 h
    omega
  · have h1 := Int.tdiv_add_tmod (-a) 1000000000
    have h2 := Int.tdiv_add_tmod a 1000000000
    have h3 : (-a).tdiv 1000000000 = -(a.tdiv 1000000000) := Int.neg_tdiv a 1000000000
    have h4 := Int.tmod_lt_of_pos (-a) (show (0 : Int) < 1000000000 by norm_num)
    rw [h3] at h1
    omega

/-- Within 2^62 seconds of the zero time, `Time.Add` of a duration is the exact sum. -/
theorem Time.Add_exact (t d : Int)
    (ht : -4611686018427387904000000000 ≤ t ∧ t ≤ 4611686018427387904000000000)
    (hd : -9223372036854775808 ≤ d ∧ d ≤ 9223372036854775807) :
    (Time.Add t d : Int) = t + d := by
  have h1 := Int.tdiv_add_tmod d 1000000000
  have h2 := Int.tmod_lt_of_pos d (show (0 : Int) < 1000000000 by norm_num)
  have h3 := tmod_gt d
  simp only [Time.Add]
  generalize Int.tdiv d 1000000000 = q at *
  generalize Int.tmod d 1000000000 = r at *
  delta Time Duration
  split_ifs <;> omega

/-- The negation of an `int64` other than the least one is exact. -/
theorem wrap64_neg (d : Int) (hd : -9223372036854775808 < d ∧ d ≤ 9223372036854775807) :
    wrap64 (-d) = -d := by
  simp only [wrap64]
  omega

/-- The instant of the default filter: for a period other than the least `int64` and a
clock reading within 2^62 seconds of the zero time, it is the reading minus the period. -/
theorem Time.Add_neg_exact (t p : Int)
    (ht : -4611686018427387904000000000 ≤ t ∧ t ≤ 4611686018427387904000000000)
    (hp : -9223372036854775808 < p ∧ p ≤ 9223372036854775807) :
    (Time.Add t (wrap64 (-p)) : Int) = t - p := by
  rw [wrap64_neg p hp, Time.Add_exact t (-p) ht ⟨by omega, by omega⟩]
  exact Int.sub_eq_add_neg.symm

/-- Claim C9, refuted as stated. For the resync period `math.MinInt64`, the clock at
5000: the operand `-resyncPeriod` overflows and is `math.MinInt64` again, so the
condition on `ModifiedTime` is Before (current time minus 2^63 ns), not Before (current
time minus the period), which lies 2^63 ns after the current time. An entity in
`CREATING` last modified at 0 is earlier than the current time minus the period, and the
filter rejects it. -/
theorem defaultSyncFilter_wraps_at_least_period :
    wrap64 (-(-9223372036854775808)) = -9223372036854775808
      ∧ defaultSyncFilter 5000 (-9223372036854775808)
        = [⟨.FilterScopeField, "ModifiedTime", .FilterVerbBefore,
              .time (5000 - 9223372036854775808)⟩,
            ⟨.FilterScopeField, "Status", .FilterVerbIn,
              .statuses ["CREATING", "UPDATING", "DELETING"]⟩]
      ∧ (5000 : Int) - 9223372036854775808 < 5000 - (-9223372036854775808)
      ∧ (staleEntity "CREATING").ModifiedTime < 5000 - (-9223372036854775808)
      ∧ (defaultSyncFilter 5000 (-9223372036854775808)).satisfiedBy (staleEntity "CREATING")
        = false := by
  decide

/-- Claim C9, amended. For every resync period of type `int64` other than
`math.MinInt64` and every clock reading within 2^62 seconds of the zero time,
`defaultSyncFilter` is the conjunction of exactly two field conditions, `ModifiedTime`
Before (current time minus the period) and `Status` In {CREATING, UPDATING, DELETING},
so that an entity satisfies it exactly when its modified time is earlier than that
instant and its status is one of the three; and `DefaultSync` called with a nil filter
queries the store with this filter. -/
theorem defaultSyncFilter_is_two_conditions (timeNow : Time) (resyncPeriod : Duration)
    (hperiod : (-9223372036854775808 : Int) < resyncPeriod
      ∧ resyncPeriod ≤ (9223372036854775807 : Int))
    (hnow : (-4611686018427387904000000000 : Int) ≤ timeNow
      ∧ timeNow ≤ (4611686018427387904000000000 : Int)) :
    defaultSyncFilter timeNow resyncPeriod
        = [⟨.FilterScopeField, "ModifiedTime", .FilterVerbBefore,
              .time (timeNow - resyncPeriod)⟩,
            ⟨.FilterScopeField, "Status", .FilterVerbIn,
              .statuses ["CREATING", "UPDATING", "DELETING"]⟩]
      ∧ (∀ e : Entity, (defaultSyncFilter timeNow resyncPeriod).satisfiedBy e = true ↔
          (e.ModifiedTime < timeNow - resyncPeriod
            ∧ e.Status ∈ ["CREATING", "UPDATING", "DELETING"]))
      ∧ (∀ (ctx : Context) (store : entitystore.EntityStore) (entityType : TypeTag)
          (serial : Nat),
          DefaultSync ctx store entityType resyncPeriod none timeNow serial
            = match store.ListGlobal (ContextWithSpan ctx ⟨"", serial⟩)
                { Filter := defaultSyncFilter timeNow resyncPeriod } entityType with
              | .error err => ([], some err)
              | .ok values => (values, none)) := by
  have hinstant : Time.Add timeNow (wrap64 (-resyncPeriod)) = timeNow - resyncPeriod :=
    Time.Add_neg_exact timeNow resyncPeriod hnow hperiod
  have hfilter : defaultSyncFilter timeNow resyncPeriod
      = [⟨.FilterScopeField, "ModifiedTime", .FilterVerbBefore,
            .time (timeNow - resyncPeriod)⟩,
          ⟨.FilterScopeField, "Status", .FilterVerbIn,
            .statuses ["CREATING", "UPDATING", "DELETING"]⟩] := by
    simp only [defaultSyncFilter, entitystore.FilterEverything, entitystore.Filter.Add,
      StatusCREATING, StatusUPDATING, StatusDELETING, List.nil_append, hinstant]
  refine ⟨hfilter, ?_, ?_⟩
  · intro e
    rw [hfilter]
    simp [entitystore.Filter.satisfiedBy, entitystore.FilterStat.holds]
  · intro ctx store entityType serial
    rfl

theorem defaultSyncFilter_is_two_conditions_witness :
    defaultSyncFilter 1700000000000000000 60000000000
        = [⟨.FilterScopeField, "ModifiedTime", .FilterVerbBefore,
              .time (1700000000000000000 - 60000000000)⟩,
            ⟨.FilterScopeField, "Status", .FilterVerbIn,
              .statuses ["CREATING", "UPDATING", "DELETING"]⟩]
      ∧ (staleEntity "UPDATING").ModifiedTime < 1700000000000000000 - 60000000000
      ∧ (defaultSyncFilter 1700000000000000000 60000000000).satisfiedBy
          (staleEntity "UPDATING") = true :=
  ⟨(defaultSyncFilter_is_two_conditions 1700000000000000000 60000000000
      ⟨by decide, by decide⟩ ⟨by decide, by decide⟩).1,
    by decide,
    ((defaultSyncFilter_is_two_conditions 1700000000000000000 60000000000
      ⟨by decide, by decide⟩ ⟨by decide, by decide⟩).2.1 (staleEntity "UPDATING")).2
      ⟨by decide, by decide⟩⟩

theorem sends_append (xs ys : List Event) : sends (xs ++ ys) = sends xs ++ sends ys := by
  induction xs with
  | nil => rfl
  | cons x xs ih => cases x <;> simp [sends, ih]

/-- Claim C10. For a pointer to a channel `ch`, `OnAction` sends exactly one watch event
on `ch`; its entity is `e`, and its context is `Background` with two values on top, the
logger that `log.WithRequestID` returns for the caller's context and the span of the
call. That context is never done whichever cancel functions and timers fire, has no
deadline, and holds no value under any other key. -/
theorem OnAction_sends_fresh_context {σ : Type} (ch : Nat) (ctx : Context) (e : Entity)
    (world : World σ) :
    sends (OnAction (some (some ch)) ctx e world).trace
        = sends world.trace ++ [(ch,
            { Entity := e
              Ctx := .WithValue (.WithValue .Background
                (.logger (WithRequestID ctx (world.newV4 world.minted)).1))
                (.span ⟨"", world.spans⟩) })]
      ∧ (∀ ev ∈ (sends (OnAction (some (some ch)) ctx e world).trace).drop
            (sends world.trace).length,
          ev.2.Entity = e
          ∧ GetLogger ev.2.Ctx = (WithRequestID ctx (world.newV4 world.minted)).1
          ∧ SpanFromContext ev.2.Ctx = some (Trace ctx "" world).1
          ∧ (∀ fired : List Nat, ev.2.Ctx.Err fired = none)
          ∧ ev.2.Ctx.Deadline = none
          ∧ (∀ k : Key, k ≠ .logKey → k ≠ .activeSpanKey → ev.2.Ctx.Value k = none)) := by
  have hsend : sends (OnAction (some (some ch)) ctx e world).trace
      = sends world.trace ++ [(ch,
          { Entity := e
            Ctx := .WithValue (.WithValue .Background
              (.logger (WithRequestID ctx (world.newV4 world.minted)).1))
              (.span ⟨"", world.spans⟩) })] := by
    simp only [OnAction, Trace, World.WithRequestID, World.emit, ContextWithSpan, WithLogger]
    split <;> simp [sends_append, sends]
  refine ⟨hsend, ?_⟩
  intro ev hev
  rw [hsend, List.drop_left] at hev
  simp only [List.mem_singleton] at hev
  subst hev
  refine ⟨rfl, rfl, rfl, fun fired => rfl, rfl, ?_⟩
  intro k hk1 hk2
  simp only [Context.Value, Binding.key]
  rw [if_neg (Ne.symm hk2), if_neg (Ne.symm hk1)]

/-! ### What `processItem` does, in one equation -/

theorem atLookup_trace {σ : Type} (ctx : Context) (e : Entity) (w : World σ) :
    (atLookup ctx e w).trace
      = w.trace ++ [.log .Debug (handlerLog ctx w) (processItemLine e)] := by
  simp only [atLookup, Trace, World.WithRequestID, World.logf, World.emit, handlerLog,
    processItemLine]
  split <;> rfl

theorem atLookup_hstate {σ : Type} (ctx : Context) (e : Entity) (w : World σ) :
    (atLookup ctx e w).hstate = w.hstate := by
  simp only [atLookup, Trace, World.WithRequestID, World.logf, World.emit]
  split <;> rfl

theorem processItem_eq {σ : Type} (dc : DefaultController σ) (ctx : Context) (e : Entity)
    (w : World σ) :
    processItem dc ctx e w =
      match dc.entityHandlers.lookup e.TypeOf with
      | none =>
        (some ("trying to process an entity with no entity handler: " ++ e.TypeOf),
          atLookup ctx e w)
      | some h =>
        match methodOf e with
        | some m => (atLookup ctx e w).invoke h m (handlerCtx ctx w) e
        | none => (some ("invalid status: '" ++ e.Status ++ "'"), atLookup ctx e w) := by
  cases hreg : dc.entityHandlers.lookup e.TypeOf with
  | none =>
    simp only [processItem, hreg]
    rfl
  | some h =>
    have h2 : processItem dc ctx e w =
        if e.Delete then (atLookup ctx e w).invoke h .Delete (handlerCtx ctx w) e
        else if e.Status = StatusERROR then
          (atLookup ctx e w).invoke h .Error (handlerCtx ctx w) e
        else if e.Status = StatusINITIALIZED ∨ e.Status = StatusCREATING
            ∨ e.Status = StatusMISSING then
          (atLookup ctx e w).invoke h .Add (handlerCtx ctx w) e
        else if e.Status = StatusUPDATING then
          (atLookup ctx e w).invoke h .Update (handlerCtx ctx w) e
        else if e.Status = StatusDELETING then
          (atLookup ctx e w).invoke h .Delete (handlerCtx ctx w) e
        else if e.Status = StatusREADY then
          (atLookup ctx e w).invoke h .Update (handlerCtx ctx w) e
        else (some ("invalid status: '" ++ e.Status ++ "'"), atLookup ctx e w) := by
      simp only [processItem, hreg]
      rfl
    rw [h2]
    simp only [methodOf]
    split_ifs <;> rfl

/-- The events `processItem` adds to the trace: its debug line, then the handler call
when there is one. -/
theorem processItem_trace {σ : Type} (dc : DefaultController σ) (ctx : Context)
    (e : Entity) (w : World σ) :
    (processItem dc ctx e w).2.trace
      = w.trace ++ .log .Debug (handlerLog ctx w) (processItemLine e) ::
          (match dc.entityHandlers.lookup e.TypeOf, methodOf e with
            | some h, some m => [.call h.Type_ m (handlerCtx ctx w) e]
            | _, _ => []) := by
  rw [processItem_eq]
  cases dc.entityHandlers.lookup e.TypeOf with
  | none => simp [atLookup_trace]
  | some h =>
    cases methodOf e with
    | none => simp [atLookup_trace]
    | some m => simp [World.invoke, atLookup_trace]

/-- Claim C17. For every `Options` value, the controller `NewController` builds stores
`Workers = 1` when the given `Workers` is 0 and the given `Workers` otherwise, stores
`ServiceName` and `ResyncPeriod` as given, and has an empty handler registry. -/
theorem NewController_options {σ : Type} (options : Options) (done watcher : Nat) :
    (NewController options done watcher : DefaultController σ).options.Workers
        = (if options.Workers = 0 then 1 else options.Workers)
      ∧ (NewController options done watcher : DefaultController σ).options.ServiceName
        = options.ServiceName
      ∧ (NewController options done watcher : DefaultController σ).options.ResyncPeriod
        = options.ResyncPeriod
      ∧ (NewController options done watcher : DefaultController σ).entityHandlers = []
      ∧ ∀ k : TypeTag,
          (NewController options done watcher : DefaultController σ).entityHandlers.lookup k
            = none := by
  refine ⟨?_, ?_, ?_, rfl, fun k => rfl⟩ <;>
    simp only [NewController, defaultWorkers] <;> split <;> rfl

theorem lookup_filter_ne {σ : Type} (k k0 : TypeTag)
    (l : List (TypeTag × EntityHandler σ)) (hk : k ≠ k0) :
    (l.filter (fun p => p.1 != k0)).lookup k = l.lookup k := by
  induction l with
  | nil => rfl
  | cons p l ih =>
    obtain ⟨k1, h1⟩ := p
    by_cases h10 : k1 = k0
    · subst h10
      have hkk : (k == k1) = false := by simpa using hk
      simp [List.filter, List.lookup, hkk, ih]
    · have hne : (k1 != k0) = true := by simpa using h10
      simp only [List.filter, hne, List.lookup]
      cases hkk : (k == k1) with
      | true => rfl
      | false => simpa using ih

theorem count_filter_ne {σ : Type} (k0 : TypeTag) (l : List (TypeTag × EntityHandler σ)) :
    ((l.filter (fun p => p.1 != k0)).map Prod.fst).count k0 = 0 := by
  rw [List.count_eq_zero]
  intro hmem
  obtain ⟨p, hp, hk⟩ := List.mem_map.mp hmem
  have := (List.mem_filter.mp hp).2
  simp [hk] at this

/-- Claim C18. After `AddEntityHandler(h1)` the registry maps the type of `h1` to `h1`
and every other key to what it mapped to before; registering `h2` with the same type
afterwards replaces `h1` (the key is then held once, by `h2`), so `processItem` calls
the method it picks for an entity of that type on `h2` and returns its result. -/
theorem AddEntityHandler_registry {σ : Type} (dc : DefaultController σ)
    (h1 h2 : EntityHandler σ) (hsame : h2.Type_ = h1.Type_) :
    (AddEntityHandler dc h1).entityHandlers.lookup h1.Type_ = some h1
      ∧ (∀ k : TypeTag, k ≠ h1.Type_ →
          (AddEntityHandler dc h1).entityHandlers.lookup k = dc.entityHandlers.lookup k)
      ∧ (AddEntityHandler dc h1).options = dc.options
      ∧ (AddEntityHandler (AddEntityHandler dc h1) h2).entityHandlers.lookup h1.Type_
        = some h2
      ∧ ((AddEntityHandler (AddEntityHandler dc h1) h2).entityHandlers.map Prod.fst).count
          h1.Type_ = 1
      ∧ (∀ (ctx : Context) (e : Entity) (w : World σ) (m : Method),
          e.TypeOf = h1.Type_ → methodOf e = some m →
          calls (processItem (AddEntityHandler (AddEntityHandler dc h1) h2) ctx e w).2.trace
              = calls w.trace ++ [(h2.Type_, m, handlerCtx ctx w, e)]
            ∧ (processItem (AddEntityHandler (AddEntityHandler dc h1) h2) ctx e w).1
              = (h2.method m (handlerCtx ctx w) e w.hstate).1
            ∧ (processItem (AddEntityHandler (AddEntityHandler dc h1) h2) ctx e w).2.hstate
              = (h2.method m (handlerCtx ctx w) e w.hstate).2) := by
  have hl1 : (AddEntityHandler dc h1).entityHandlers.lookup h1.Type_ = some h1 := by
    simp [AddEntityHandler, List.lookup]
  have hl2 : (AddEntityHandler (AddEntityHandler dc h1) h2).entityHandlers.lookup h1.Type_
      = some h2 := by
    simp [AddEntityHandler, List.lookup, hsame]
  refine ⟨hl1, ?_, rfl, hl2, ?_, ?_⟩
  · intro k hk
    have hkk : (k == h1.Type_) = false := by simpa using hk
    simp only [AddEntityHandler, List.lookup, hkk]
    exact lookup_filter_ne k h1.Type_ dc.entityHandlers hk
  · simp only [AddEntityHandler, List.map_cons, hsame, List.count_cons_self]
    rw [count_filter_ne]
  · intro ctx e w m hty hm
    have hreg : (AddEntityHandler (AddEntityHandler dc h1) h2).entityHandlers.lookup e.TypeOf
        = some h2 := by rw [hty]; exact hl2
    rw [processItem_eq]
    simp only [hreg, hm]
    refine ⟨?_, ?_, ?_⟩
    · rw [invoke_calls, atLookup_trace, calls_append]
      simp [calls]
    · rw [invoke_fst, atLookup_hstate]
    · rw [invoke_hstate, atLookup_hstate]

theorem AddEntityHandler_registry_witness :
    otherHandler.Type_ = sampleHandler.Type_
      ∧ (AddEntityHandler (AddEntityHandler sampleController sampleHandler)
            otherHandler).entityHandlers.map Prod.fst = ["T"]
      ∧ calls (processItem (AddEntityHandler (AddEntityHandler sampleController
            sampleHandler) otherHandler) .Background (sampleEntity "CREATING" false)
            sampleWorld).2.trace
          = [("T", Method.Add, handlerCtx .Background sampleWorld,
              sampleEntity "CREATING" false)]
      ∧ (processItem (AddEntityHandler (AddEntityHandler sampleController
            sampleHandler) otherHandler) .Background (sampleEntity "CREATING" false)
            sampleWorld).1 = some "quota exceeded"
      ∧ (processItem (AddEntityHandler (AddEntityHandler sampleController
            sampleHandler) otherHandler) .Background (sampleEntity "CREATING" false)
            sampleWorld).2.hstate = 2 :=
  ⟨rfl, rfl,
    (AddEntityHandler_registry sampleController sampleHandler otherHandler rfl).2.2.2.2.2
      .Background (sampleEntity "CREATING" false) sampleWorld .Add rfl rfl⟩

/-- Claim C19. `processItem` hands the entity on as it got it and writes nothing itself:
every handler call it adds to the trace carries the input entity, every field
unchanged; the handler state after the call is the one the invoked method left, or the
one before when no method was invoked. The controller, registry and options, is an
argument `processItem` reads; its result holds no controller. -/
theorem processItem_frame {σ : Type} (dc : DefaultController σ) (ctx : Context)
    (e : Entity) (w : World σ) :
    (∀ c ∈ (calls (processItem dc ctx e w).2.trace).drop (calls w.trace).length,
        c.2.2.2 = e ∧ c.2.2.2.Status = e.Status ∧ c.2.2.2.Delete = e.Delete
          ∧ c.2.2.2.ModifiedTime = e.ModifiedTime)
      ∧ ((calls (processItem dc ctx e w).2.trace = calls w.trace
            ∧ (processItem dc ctx e w).2.hstate = w.hstate)
          ∨ ∃ (h : EntityHandler σ) (m : Method),
              dc.entityHandlers.lookup e.TypeOf = some h ∧ methodOf e = some m
              ∧ calls (processItem dc ctx e w).2.trace
                = calls w.trace ++ [(h.Type_, m, handlerCtx ctx w, e)]
              ∧ (processItem dc ctx e w).2.hstate
                = (h.method m (handlerCtx ctx w) e w.hstate).2) := by
  have hcalls : calls (processItem dc ctx e w).2.trace
      = calls w.trace ++
          (match dc.entityHandlers.lookup e.TypeOf, methodOf e with
            | some h, some m => [(h.Type_, m, handlerCtx ctx w, e)]
            | _, _ => []) := by
    rw [processItem_trace, calls_append]
    cases dc.entityHandlers.lookup e.TypeOf with
    | none => simp [calls]
    | some h =>
      cases methodOf e with
      | none => simp [calls]
      | some m => simp [calls]
  constructor
  · intro c hc
    rw [hcalls, List.drop_left] at hc
    cases hreg : dc.entityHandlers.lookup e.TypeOf with
    | none => simp [hreg] at hc
    | some h =>
      cases hm : methodOf e with
      | none => simp [hreg, hm] at hc
      | some m =>
        simp only [hreg, hm, List.mem_singleton] at hc
        subst hc
        exact ⟨rfl, rfl, rfl, rfl⟩
  · cases hreg : dc.entityHandlers.lookup e.TypeOf with
    | none =>
      left
      rw [hcalls, processItem_eq]
      simp [hreg, atLookup_hstate]
    | some h =>
      cases hm : methodOf e with
      | none =>
        left
        rw [hcalls, processItem_eq]
        simp [hreg, hm, atLookup_hstate]
      | some m =>
        right
        refine ⟨h, m, rfl, rfl, ?_, ?_⟩
        · rw [hcalls]
          simp [hreg, hm]
        · rw [processItem_eq]
          simp only [hreg, hm]
          rw [invoke_hstate, atLookup_hstate]

/-- Claim C20, evaluated where it fails. With a resync period of 1000 and the clock at
5000, a store holds one stale entity of type `T` in each of the seven statuses. The
status condition of the default filter rejects those in `INITIALIZED`, `MISSING` and
`ERROR`, none of which is `READY`, and `DefaultSync` with a nil filter returns the ones
in `CREATING`, `UPDATING` and `DELETING` only. -/
theorem defaultSync_status_condition_is_not_nonready :
    (defaultSyncFilter 5000 1000).map (fun st => st.Subject) = ["ModifiedTime", "Status"]
      ∧ ["INITIALIZED", "MISSING", "ERROR", "READY"].map
          (fun status => (defaultSyncFilter 5000 1000).map
            (fun st => st.holds (staleEntity status)))
        = [[true, false], [true, false], [true, false], [true, false]]
      ∧ DefaultSync .Background
          (entitystore.listStore
            (["INITIALIZED", "CREATING", "MISSING", "UPDATING", "READY", "DELETING",
              "ERROR"].map staleEntity))
          "T" 1000 none 5000 0
        = (["CREATING", "UPDATING", "DELETING"].map staleEntity, none) := by
  decide

/-! ### The dispatch loop -/

theorem debugLines_append (xs ys : List Event) :
    debugLines (xs ++ ys) = debugLines xs ++ debugLines ys := by
  induction xs with
  | nil => rfl
  | cons x xs ih =>
    cases x with
    | log level logger msg => cases level <;> simp [debugLines, ih]
    | _ => simp [debugLines, ih]

theorem errorLines_append (xs ys : List Event) :
    errorLines (xs ++ ys) = errorLines xs ++ errorLines ys := by
  induction xs with
  | nil => rfl
  | cons x xs ih =>
    cases x with
    | log level logger msg => cases level <;> simp [errorLines, ih]
    | _ => simp [errorLines, ih]

theorem goRuns_append (xs ys : List Event) : goRuns (xs ++ ys) = goRuns xs + goRuns ys := by
  induction xs with
  | nil => simp [goRuns]
  | cons x xs ih => cases x <;> simp [goRuns, ih]; omega

/-- The events the goroutine of an event adds to the trace: the line at info level,
what `processItem` adds, and the error `processItem` returned, if any, at error level. -/
theorem eventItem_trace {σ : Type} (dc : DefaultController σ) (ev : WatchEvent)
    (w : World σ) :
    (eventItem dc ev w).trace
      = (processItem dc (eventCtx ev w) ev.Entity (eventWorld ev w)).2.trace
        ++ (match (processItem dc (eventCtx ev w) ev.Entity (eventWorld ev w)).1 with
            | some err => [.log .Error (eventLog ev w) err]
            | none => []) := by
  have hdef : eventItem dc ev w
      = match (processItem dc (eventCtx ev w) ev.Entity (eventWorld ev w)).1 with
        | some err =>
          (processItem dc (eventCtx ev w) ev.Entity (eventWorld ev w)).2.logf .Error
            (eventLog ev w) err
        | none => (processItem dc (eventCtx ev w) ev.Entity (eventWorld ev w)).2 := rfl
  rw [hdef]
  cases (processItem dc (eventCtx ev w) ev.Entity (eventWorld ev w)).1 with
  | none => simp
  | some err => simp [World.logf, World.emit]

theorem eventWorld_trace {σ : Type} (ev : WatchEvent) (w : World σ) :
    (eventWorld ev w).trace
      = w.trace ++ [.log .Info (eventLog ev w)
          ("received event=" ++ ev.Entity.Status ++ " entity=" ++ ev.Entity.Name)] := by
  simp only [eventWorld, World.WithRequestID, World.logf, World.emit]
  split <;> rfl

theorem eventItem_debugLines {σ : Type} (dc : DefaultController σ) (ev : WatchEvent)
    (w : World σ) :
    debugLines (eventItem dc ev w).trace
      = debugLines w.trace ++ [processItemLine ev.Entity] := by
  rw [eventItem_trace, processItem_trace, eventWorld_trace]
  simp only [debugLines_append]
  have h1 : debugLines (match (processItem dc (eventCtx ev w) ev.Entity
      (eventWorld ev w)).1 with
      | some err => [Event.log Level.Error (eventLog ev w) err]
      | none => []) = [] := by
    split <;> rfl
  have h2 : debugLines (Event.log Level.Debug (handlerLog (eventCtx ev w) (eventWorld ev w))
        (processItemLine ev.Entity) ::
      (match dc.entityHandlers.lookup ev.Entity.TypeOf, methodOf ev.Entity with
        | some h, some m =>
          [Event.call h.Type_ m (handlerCtx (eventCtx ev w) (eventWorld ev w)) ev.Entity]
        | _, _ => [])) = [processItemLine ev.Entity] := by
    split <;> rfl
  rw [h1, h2]
  simp [debugLines]

theorem processItem_errorLines {σ : Type} (dc : DefaultController σ) (ctx : Context)
    (e : Entity) (w : World σ) :
    errorLines (processItem dc ctx e w).2.trace = errorLines w.trace := by
  rw [processItem_trace, errorLines_append]
  have h2 : errorLines (Event.log Level.Debug (handlerLog ctx w) (processItemLine e) ::
      (match dc.entityHandlers.lookup e.TypeOf, methodOf e with
        | some h, some m => [Event.call h.Type_ m (handlerCtx ctx w) e]
        | _, _ => [])) = [] := by
    split <;> rfl
  rw [h2, List.append_nil]

theorem dispatchLoop_ok {σ : Type} (dc : DefaultController σ)
    (ds : List (WatchEvent × Acquired)) :
    ∀ w : World σ, (∀ d ∈ ds, d.2 = .ok) →
      dispatchLoop dc ds w = some (ds.foldl (fun w d => eventItem dc d.1 w) w) := by
  induction ds with
  | nil => intro w _; rfl
  | cons d ds ih =>
    intro w h
    obtain ⟨ev, a⟩ := d
    have ha : a = .ok := h (ev, a) (List.mem_cons_self _ _)
    subst ha
    simp only [dispatchLoop, List.foldl_cons]
    exact ih _ (fun d hd => h d (List.mem_cons_of_mem _ hd))

theorem foldl_eventItem_debugLines {σ : Type} (dc : DefaultController σ)
    (ds : List (WatchEvent × Acquired)) :
    ∀ w : World σ,
      debugLines (ds.foldl (fun w d => eventItem dc d.1 w) w).trace
        = debugLines w.trace ++ ds.map (fun d => processItemLine d.1.Entity) := by
  induction ds with
  | nil => intro w; simp
  | cons d ds ih =>
    intro w
    simp only [List.foldl_cons, List.map_cons]
    rw [ih, eventItem_debugLines]
    simp

/-- Claim C12. For every finite sequence of watch events received by the dispatch loop,
every acquisition succeeding, the loop ends when the channel is closed, having run the
goroutine of every event in turn, and `processItem` has been entered exactly once per
event, in the order of the events, whatever the handlers returned for earlier ones. -/
theorem dispatchLoop_services_every_event {σ : Type} (dc : DefaultController σ)
    (ds : List (WatchEvent × Acquired)) (w : World σ)
    (hacq : ∀ d ∈ ds, d.2 = .ok) :
    dispatchLoop dc ds w = some (ds.foldl (fun w d => eventItem dc d.1 w) w)
      ∧ debugLines (ds.foldl (fun w d => eventItem dc d.1 w) w).trace
        = debugLines w.trace ++ ds.map (fun d => processItemLine d.1.Entity) := by
  exact ⟨dispatchLoop_ok dc ds w hacq, foldl_eventItem_debugLines dc ds w⟩

theorem dispatchLoop_services_every_event_witness :
    (∀ d ∈ [(updateEvent, Acquired.ok), (updateEvent, .ok), (updateEvent, .ok)],
        d.2 = Acquired.ok)
      ∧ (dispatchLoop flakyController
            [(updateEvent, .ok), (updateEvent, .ok), (updateEvent, .ok)] sampleWorld).map
          (fun w => (errorLines w.trace, (calls w.trace).map (fun c => c.2.1), w.hstate))
          = some (["backend busy"], [Method.Update, Method.Update, Method.Update], 3)
      ∧ dispatchLoop flakyController
            [(updateEvent, .ok), (updateEvent, .ok), (updateEvent, .ok)] sampleWorld
          = some ([(updateEvent, Acquired.ok), (updateEvent, .ok), (updateEvent, .ok)].foldl
              (fun w d => eventItem flakyController d.1 w) sampleWorld)
      ∧ debugLines ([(updateEvent, Acquired.ok), (updateEvent, .ok), (updateEvent, .ok)].foldl
            (fun w d => eventItem flakyController d.1 w) sampleWorld).trace
          = debugLines sampleWorld.trace
            ++ [(updateEvent, Acquired.ok), (updateEvent, .ok), (updateEvent, .ok)].map
              (fun d => processItemLine d.1.Entity) :=
  ⟨by decide, rfl, dispatchLoop_services_every_event flakyController
    [(updateEvent, .ok), (updateEvent, .ok), (updateEvent, .ok)] sampleWorld (by decide)⟩

/-- Claim C13. In the goroutine of a watch event, the lines written at error level are
exactly these: the error `processItem` returns, once, when it is not nil (whether it
comes from a handler, a missing handler or an invalid status), and nothing when it is
nil. -/
theorem eventItem_logs_error_once {σ : Type} (dc : DefaultController σ) (ev : WatchEvent)
    (w : World σ) :
    (∀ err : GoError,
        (processItem dc (eventCtx ev w) ev.Entity (eventWorld ev w)).1 = some err →
        errorLines (eventItem dc ev w).trace = errorLines w.trace ++ [err])
      ∧ ((processItem dc (eventCtx ev w) ev.Entity (eventWorld ev w)).1 = none →
        errorLines (eventItem dc ev w).trace = errorLines w.trace) := by
  have hbase : errorLines (processItem dc (eventCtx ev w) ev.Entity (eventWorld ev w)).2.trace
      = errorLines w.trace := by
    rw [processItem_errorLines, eventWorld_trace, errorLines_append]
    simp [errorLines]
  constructor
  · intro err herr
    rw [eventItem_trace, errorLines_append, hbase, herr]
    rfl
  · intro hnil
    rw [eventItem_trace, errorLines_append, hbase, hnil]
    simp [errorLines]

theorem eventItem_logs_error_once_witness :
    (processItem flakyController (eventCtx updateEvent sampleWorld) updateEvent.Entity
        (eventWorld updateEvent sampleWorld)).1 = some "backend busy"
      ∧ errorLines (eventItem flakyController updateEvent sampleWorld).trace
        = ["backend busy"]
      ∧ (processItem sampleController (eventCtx createEvent sampleWorld) createEvent.Entity
          (eventWorld createEvent sampleWorld)).1 = none
      ∧ errorLines (eventItem sampleController createEvent sampleWorld).trace = [] :=
  ⟨rfl,
    (eventItem_logs_error_once flakyController updateEvent sampleWorld).1 "backend busy" rfl,
    rfl,
    (eventItem_logs_error_once sampleController createEvent sampleWorld).2 rfl⟩

/-- Claim C14. When the acquisition for a watch event fails, the events before it having
been taken in, the dispatch loop writes a warning and ends: `processItem` has been
entered for the events before it only, no handler is called for the event or for any
event after it, and what comes after has no bearing on the outcome. -/
theorem dispatchLoop_stops_on_failed_acquire {σ : Type} (dc : DefaultController σ)
    (pre post : List (WatchEvent × Acquired)) (ev : WatchEvent) (err : GoError)
    (w : World σ) (hpre : ∀ d ∈ pre, d.2 = .ok) :
    dispatchLoop dc (pre ++ (ev, .failed err) :: post) w
        = some ((pre.foldl (fun w d => eventItem dc d.1 w) w).logf .Warn (GetLogger ev.Ctx)
            ("Failed to acquire semaphore: " ++ err))
      ∧ debugLines ((pre.foldl (fun w d => eventItem dc d.1 w) w).logf .Warn
            (GetLogger ev.Ctx) ("Failed to acquire semaphore: " ++ err)).trace
          = debugLines w.trace ++ pre.map (fun d => processItemLine d.1.Entity)
      ∧ calls ((pre.foldl (fun w d => eventItem dc d.1 w) w).logf .Warn
            (GetLogger ev.Ctx) ("Failed to acquire semaphore: " ++ err)).trace
          = calls (pre.foldl (fun w d => eventItem dc d.1 w) w).trace
      ∧ ((pre.foldl (fun w d => eventItem dc d.1 w) w).logf .Warn
            (GetLogger ev.Ctx) ("Failed to acquire semaphore: " ++ err)).hstate
          = (pre.foldl (fun w d => eventItem dc d.1 w) w).hstate := by
  refine ⟨?_, ?_, ?_, rfl⟩
  · induction pre generalizing w with
    | nil => rfl
    | cons d pre ih =>
      obtain ⟨ev0, a⟩ := d
      have ha : a = .ok := hpre (ev0, a) (List.mem_cons_self _ _)
      subst ha
      simp only [List.cons_append, dispatchLoop, List.foldl_cons]
      exact ih _ (fun d hd => hpre d (List.mem_cons_of_mem _ hd))
  · simp only [World.logf, World.emit, debugLines_append]
    rw [foldl_eventItem_debugLines]
    simp [debugLines]
  · simp [World.logf, World.emit, calls_append, calls]

theorem dispatchLoop_stops_on_failed_acquire_witness :
    (∀ d ∈ [(updateEvent, Acquired.ok)], d.2 = Acquired.ok)
      ∧ cancelledEvent.Ctx.Err [2] = some "context canceled"
      ∧ (dispatchLoop flakyController
            ([(updateEvent, .ok)] ++ (cancelledEvent, .failed "context canceled")
              :: [(updateEvent, .ok), (updateEvent, .ok)]) sampleWorld).map
          (fun w => (debugLines w.trace, warnLines w.trace,
            (calls w.trace).map (fun c => c.2.1), w.hstate))
          = some (["Processing Item: fn (id-1) with status UPDATING"],
              ["Failed to acquire semaphore: context canceled"], [Method.Update], 1)
      ∧ dispatchLoop flakyController
            ([(updateEvent, .ok)] ++ (cancelledEvent, .failed "context canceled")
              :: [(updateEvent, .ok), (updateEvent, .ok)]) sampleWorld
          = some (([(updateEvent, Acquired.ok)].foldl
              (fun w d => eventItem flakyController d.1 w) sampleWorld).logf .Warn
              (GetLogger cancelledEvent.Ctx)
              ("Failed to acquire semaphore: " ++ "context canceled")) :=
  ⟨by decide, rfl, rfl,
    (dispatchLoop_stops_on_failed_acquire flakyController [(updateEvent, .ok)]
      [(updateEvent, .ok), (updateEvent, .ok)] cancelledEvent "context canceled" sampleWorld
      (by decide)).1⟩

/-! ### `Start` spawns the loop last -/

theorem processItem_goRuns {σ : Type} (dc : DefaultController σ) (ctx : Context)
    (e : Entity) (w : World σ) :
    goRuns (processItem dc ctx e w).2.trace = goRuns w.trace := by
  rw [processItem_trace, goRuns_append]
  have h2 : goRuns (Event.log Level.Debug (handlerLog ctx w) (processItemLine e) ::
      (match dc.entityHandlers.lookup e.TypeOf, methodOf e with
        | some h, some m => [Event.call h.Type_ m (handlerCtx ctx w) e]
        | _, _ => [])) = 0 := by
    split <;> rfl
  rw [h2, Nat.add_zero]

theorem syncItem_goRuns {σ : Type} (dc : DefaultController σ) (ctx : Context)
    (log : Entry) (e : Entity) (w : World σ) :
    goRuns (syncItem dc ctx log e w).trace = goRuns w.trace := by
  simp only [syncItem]
  split
  · simp [World.logf, World.emit, goRuns_append, goRuns, processItem_goRuns]
  · simp [World.logf, World.emit, goRuns_append, goRuns, processItem_goRuns]

theorem syncEntities_goRuns {σ : Type} (dc : DefaultController σ) (sem : Weighted)
    (ctx : Context) (log : Entry) (es : List Entity) :
    ∀ w w1 : World σ, syncEntities dc sem ctx log es w = some w1 →
      goRuns w1.trace = goRuns w.trace := by
  induction es with
  | nil =>
    intro w w1 h
    simp only [syncEntities, Option.some.injEq] at h
    rw [← h]
  | cons e es ih =>
    intro w w1 h
    simp only [syncEntities] at h
    split_ifs at h with hfree
    · rw [ih _ w1 h, syncItem_goRuns]
    · cases hdone : ctx.Err w.fired with
      | none => simp [hdone] at h
      | some err =>
        simp only [hdone, Option.some.injEq] at h
        rw [← h]
        simp [World.logf, World.emit, goRuns_append, goRuns]

theorem syncHandlers_goRuns {σ : Type} (dc : DefaultController σ) (sem : Weighted)
    (ctx : Context) (log : Entry) (hs : List (EntityHandler σ)) :
    ∀ (w w1 : World σ) (res : Option GoError),
      syncHandlers dc sem ctx log hs w = some (res, w1) →
      goRuns w1.trace = goRuns w.trace := by
  induction hs with
  | nil =>
    intro w w1 res h
    simp only [syncHandlers, Option.some.injEq, Prod.mk.injEq] at h
    rw [← h.2]
  | cons h0 hs ih =>
    intro w w1 res h
    simp only [syncHandlers] at h
    have hsync : goRuns (w.invokeSync h0 ctx dc.options.ResyncPeriod).2.trace
        = goRuns w.trace := by
      simp [World.invokeSync, goRuns_append, goRuns]
    cases herr : (w.invokeSync h0 ctx dc.options.ResyncPeriod).1.2 with
    | some err =>
      simp only [herr, Option.some.injEq, Prod.mk.injEq] at h
      rw [← h.2, hsync]
    | none =>
      simp only [herr] at h
      cases hent : syncEntities dc sem ctx log
          (w.invokeSync h0 ctx dc.options.ResyncPeriod).1.1
          (w.invokeSync h0 ctx dc.options.ResyncPeriod).2 with
      | none => simp [hent] at h
      | some w2 =>
        simp only [hent] at h
        rw [ih w2 w1 res h, syncEntities_goRuns dc sem ctx log _ _ w2 hent, hsync]

/-- Claim C16. When `Start` returns, the initial resync pass has returned before: the
statement that spawns `run`, and with it the dispatch loop that receives from the
watcher channel, is the last thing `Start` does. It is executed once, after every event
of the pass, every call of `Sync` included; during the pass no loop was spawned. -/
theorem Start_spawns_loop_after_sync {σ : Type} (dc : DefaultController σ)
    (w w2 : World σ) (hstart : Start dc w = some w2) :
    ∃ (res : Option GoError) (w1 : World σ),
      sync dc w = some (res, w1)
      ∧ w2.trace = w1.trace ++ [.goRun]
      ∧ goRuns w1.trace = goRuns w.trace
      ∧ goRuns w2.trace = goRuns w.trace + 1
      ∧ syncCalls w2.trace = syncCalls w1.trace
      ∧ w2.hstate = w1.hstate := by
  unfold Start at hstart
  cases hsync : sync dc w with
  | none => simp [hsync] at hstart
  | some r =>
    obtain ⟨res, w1⟩ := r
    simp only [hsync, Option.some.injEq] at hstart
    have hw : goRuns (syncWorld w).trace = goRuns w.trace := by
      simp only [syncWorld, Trace, World.WithRequestID]
      split <;> rfl
    have h1 : goRuns w1.trace = goRuns w.trace := by
      unfold sync at hsync
      rw [syncHandlers_goRuns dc _ _ _ _ _ w1 res hsync, hw]
    refine ⟨res, w1, rfl, by rw [← hstart]; rfl, h1, ?_, ?_, by rw [← hstart]; rfl⟩
    · rw [← hstart]
      simp [World.emit, goRuns_append, goRuns, h1]
    · rw [← hstart]
      simp [World.emit, syncCalls_append, syncCalls]

theorem Start_spawns_loop_after_sync_witness :
    ∃ w2 : World Nat, Start failLastController sampleWorld = some w2
      ∧ w2.trace.getLast? = some .goRun
      ∧ (syncCalls w2.trace, goRuns w2.trace) = (["B", "A"], 1)
      ∧ ∃ (res : Option GoError) (w1 : World Nat),
        sync failLastController sampleWorld = some (res, w1)
        ∧ w2.trace = w1.trace ++ [.goRun]
        ∧ goRuns w1.trace = goRuns sampleWorld.trace
        ∧ goRuns w2.trace = goRuns sampleWorld.trace + 1
        ∧ syncCalls w2.trace = syncCalls w1.trace
        ∧ w2.hstate = w1.hstate :=
  ⟨_, rfl, rfl, rfl, Start_spawns_loop_after_sync failLastController sampleWorld _ rfl⟩

/-! ### Shutdown -/

theorem Life.move_good (s t : Life) (m : Move) (hs : s.Good) (hstep : s.step m = some t) :
    t.Good := by
  obtain ⟨returned, closed, halted, tick, held, over, pass, late, lateSpawns, latePasses⟩ := s
  unfold Life.Good at hs ⊢
  dsimp only at hs
  cases m with
  | invoke =>
    simp only [Life.step] at hstep
    split at hstep
    · simp only [Option.some.injEq] at hstep
      subst hstep
      exact hs
    · simp at hstep
  | passEnd =>
    simp only [Life.step] at hstep
    split at hstep
    · simp only [Option.some.injEq] at hstep
      subst hstep
      exact hs
    · simp at hstep
  | takeTick n =>
    cases closed <;> cases halted <;> cases tick <;> cases held <;>
      simp [Life.step] at hstep <;>
      obtain ⟨_, hstep⟩ := hstep <;> subst hstep <;> simp at hs ⊢ <;> omega
  | _ =>
    cases closed <;> cases halted <;> cases tick <;> cases held <;> cases returned <;>
      cases over <;> simp [Life.step] at hstep <;>
      subst hstep <;> simp at hs ⊢ <;> omega

theorem Life.moves_good (ms : List Move) :
    ∀ s t : Life, s.Good → Life.exec ms s = some t → t.Good := by
  induction ms with
  | nil =>
    intro s t hs h
    simp only [Life.exec, Option.some.injEq] at h
    subst h
    exact hs
  | cons m ms ih =>
    intro s t hs h
    simp only [Life.exec] at h
    cases hm : s.step m with
    | none => simp [hm] at h
    | some s1 =>
      rw [hm] at h
      exact ih s1 t (Life.move_good s s1 m hs hm) h

/-- Claim C15, refuted as stated. A resync pass with two handler invocations to begin is
under way and has begun the first; `Shutdown` returns, `run` closes the watcher channel
and stops the ticker; the pass then begins its second invocation. On the event path, an
event received before `Shutdown` returns has its goroutine spawned afterwards. In both
runs a handler invocation begins after `Shutdown` has returned. -/
theorem shutdown_does_not_stop_work :
    (Life.exec [.tick, .takeTick 2, .invoke, .shutdown, .closeWatcher, .stopTicker, .invoke]
          Life.started).map (fun s => (s.returned, s.closed, s.halted, s.late))
        = some (true, true, true, 1)
      ∧ (Life.exec [.receive, .shutdown, .spawn] Life.started).map
          (fun s => (s.returned, s.late)) = some (true, 1) := by
  decide

/-- Claim C15, amended. In every execution: once `run` has closed the watcher channel,
the dispatch loop receives no further event and spawns at most one more goroutine, that
of an event it had received before the close; once `run` has stopped the ticker, the
resync loop begins at most one more pass, for a tick delivered before the stop. Before
the close, respectively the stop, nothing counts as late. -/
theorem shutdown_bounds_late_work (ms : List Move) (s : Life)
    (hexec : Life.exec ms Life.started = some s) :
    s.lateSpawns ≤ 1 ∧ s.latePasses ≤ 1
      ∧ (s.closed = false → s.lateSpawns = 0)
      ∧ (s.halted = false → s.latePasses = 0)
      ∧ (s.closed = true → s.step .receive = none)
      ∧ (s.halted = true → s.step .tick = none) := by
  have hstart : Life.started.Good := by
    simp [Life.Good, Life.started]
  have hgood := Life.moves_good ms Life.started s hstart hexec
  obtain ⟨h1, h2⟩ := hgood
  refine ⟨?_, ?_, ?_, ?_, ?_, ?_⟩
  · split_ifs at h1 <;> omega
  · split_ifs at h2 <;> omega
  · intro hc
    simpa [hc] using h1
  · intro hh
    simpa [hh] using h2
  · intro hc
    simp [Life.step, hc]
  · intro hh
    simp [Life.step, hh]

theorem shutdown_bounds_late_work_witness :
    ∃ s : Life,
      Life.exec [.receive, .shutdown, .closeWatcher, .spawn, .rangeEnd] Life.started = some s
      ∧ (s.returned, s.closed, s.late, s.lateSpawns) = (true, true, 1, 1)
      ∧ s.lateSpawns ≤ 1 ∧ s.latePasses ≤ 1
      ∧ (s.closed = false → s.lateSpawns = 0)
      ∧ (s.halted = false → s.latePasses = 0)
      ∧ (s.closed = true → s.step .receive = none)
      ∧ (s.halted = true → s.step .tick = none) :=
  ⟨_, rfl, rfl, shutdown_bounds_late_work
    [.receive, .shutdown, .closeWatcher, .spawn, .rangeEnd] _ rfl⟩

/-! ### The logger in the context -/

/-- Claim C21, evaluated where it fails. A context that holds the standard logger, put
there by `WithLogger`, holds a logger without a `requestId` field: `WithRequestID`
returns that logger as it is, and it carries no `requestId`. `GetLogger` on the
returned context yields the same logger; on a context without a logger the field is
there. -/
theorem WithRequestID_keeps_logger_without_requestId :
    (WithLogger .Background stdLog).Value .logKey = some (.logger stdLog)
      ∧ (WithRequestID (WithLogger .Background stdLog) "u-1").1 = stdLog
      ∧ (WithRequestID (WithLogger .Background stdLog) "u-1").1.field "requestId" = none
      ∧ GetLogger (WithRequestID (WithLogger .Background stdLog) "u-1").2 = stdLog
      ∧ (WithRequestID .Background "u-1").1.field "requestId" = some "u-1" := by
  decide

/-- Claim C22. For every context and logger, `GetLogger(WithLogger(ctx, l))` is `l`; and
for every context that holds no logger, `GetLogger` is the standard logger. -/
theorem GetLogger_WithLogger (ctx : Context) (l : Entry) :
    GetLogger (WithLogger ctx l) = l
      ∧ (ctx.Value .logKey = none → GetLogger ctx = stdLog) := by
  constructor
  · simp [GetLogger, WithLogger, Context.Value, Binding.key]
  · intro h
    simp [GetLogger, h]

theorem GetLogger_WithLogger_witness :
    GetLogger (WithLogger requestCtx ⟨[("requestId", "r-1")]⟩) = ⟨[("requestId", "r-1")]⟩
      ∧ requestCtx.Value .logKey = none
      ∧ GetLogger requestCtx = stdLog :=
  ⟨(GetLogger_WithLogger requestCtx ⟨[("requestId", "r-1")]⟩).1, rfl,
    (GetLogger_WithLogger requestCtx ⟨[("requestId", "r-1")]⟩).2 rfl⟩

theorem WithRequestID_logKey (c : Context) (u : String) :
    (WithRequestID c u).2.Value .logKey = some (.logger (WithRequestID c u).1) := by
  simp [WithRequestID, WithLogger, Context.Value, Binding.key]

theorem OnAction_sent {σ : Type} (ch : Nat) (ctx : Context) (e : Entity) (world : World σ) :
    sends (OnAction (some (some ch)) ctx e world).trace
      = sends world.trace ++ [(ch,
          { Entity := e
            Ctx := .WithValue (.WithValue .Background
              (.logger (WithRequestID ctx (world.newV4 world.minted)).1))
              (.span ⟨"", world.spans⟩) })] := by
  simp only [OnAction, Trace, World.WithRequestID, World.emit, ContextWithSpan, WithLogger]
  split <;> simp [sends_append, sends]

/-- Claim C29. `WithRequestID` applied to the context it returned gives the same logger,
whatever uuid would be drawn, and in a world it draws none. Hence for the event that
`OnAction` sends, the goroutine of the dispatch loop and `processItem` both derive the
logger `OnAction` took from `WithRequestID`, and no request id is minted on the way. -/
theorem WithRequestID_idempotent {σ : Type} (c : Context) (u : String) :
    (∀ u1 : String, (WithRequestID (WithRequestID c u).2 u1).1 = (WithRequestID c u).1)
      ∧ (∀ w : World σ, (w.WithRequestID (WithRequestID c u).2).1 = (WithRequestID c u).1
          ∧ (w.WithRequestID (WithRequestID c u).2).2.2.minted = w.minted)
      ∧ (∀ (e : Entity) (span : Span) (w : World σ),
          eventLog ⟨e, ContextWithSpan (WithLogger .Background (WithRequestID c u).1) span⟩ w
              = (WithRequestID c u).1
            ∧ handlerLog
                (eventCtx
                  ⟨e, ContextWithSpan (WithLogger .Background (WithRequestID c u).1) span⟩ w)
                (eventWorld
                  ⟨e, ContextWithSpan (WithLogger .Background (WithRequestID c u).1) span⟩ w)
              = (WithRequestID c u).1
            ∧ (eventWorld
                ⟨e, ContextWithSpan (WithLogger .Background (WithRequestID c u).1) span⟩
                w).minted = w.minted)
      ∧ (∀ (ch : Nat) (e : Entity) (world w : World σ), world.newV4 world.minted = u →
          ∀ ev ∈ (sends (OnAction (some (some ch)) c e world).trace).drop
              (sends world.trace).length,
            eventLog ev.2 w = (WithRequestID c u).1
              ∧ handlerLog (eventCtx ev.2 w) (eventWorld ev.2 w) = (WithRequestID c u).1) := by
  refine ⟨?_, ?_, ?_, ?_⟩
  rotate_left 3
  · intro ch e world w hu ev hev
    rw [OnAction_sent, List.drop_left, hu] at hev
    simp only [List.mem_singleton] at hev
    subst hev
    constructor <;>
      simp [eventLog, eventCtx, eventWorld, handlerLog, World.WithRequestID, WithRequestID,
        WithLogger, ContextWithSpan, Context.Value, Binding.key, World.logf, World.emit]
  · intro u1
    have h := WithRequestID_logKey c u
    simp only [WithRequestID] at h ⊢
    simp only [h]
  · intro w
    have h := WithRequestID_logKey c u
    refine ⟨?_, ?_⟩
    · simp only [World.WithRequestID, WithRequestID] at h ⊢
      simp only [h]
    · simp only [World.WithRequestID, h]
      rfl
  · intro e span w
    refine ⟨?_, ?_, ?_⟩ <;>
      simp [eventLog, eventCtx, eventWorld, handlerLog, World.WithRequestID, WithRequestID,
        WithLogger, ContextWithSpan, Context.Value, Binding.key, World.logf, World.emit]

/-! ### The resync query and the status switch -/

/-- Claim C27. Every status the default sync filter selects is routable: for an entity
with a registered handler, Delete flag false and status `CREATING`, `UPDATING` or
`DELETING`, `processItem` invokes exactly one method, `Add`, `Update` or `Delete`
respectively, and returns its result; it calls neither `Error` nor takes the branch of
the invalid status. An entity that satisfies the default filter has such a status. -/
theorem processItem_routes_selected_statuses {σ : Type} (dc : DefaultController σ)
    (ctx : Context) (e : Entity) (w : World σ) (h : EntityHandler σ)
    (hreg : dc.entityHandlers.lookup e.TypeOf = some h)
    (hdel : e.Delete = false)
    (hst : e.Status ∈ [StatusCREATING, StatusUPDATING, StatusDELETING]) :
    (∃ m : Method,
        ((e.Status = StatusCREATING ∧ m = .Add) ∨ (e.Status = StatusUPDATING ∧ m = .Update)
          ∨ (e.Status = StatusDELETING ∧ m = .Delete))
        ∧ methodOf e = some m
        ∧ calls (processItem dc ctx e w).2.trace
          = calls w.trace ++ [(h.Type_, m, handlerCtx ctx w, e)]
        ∧ processItem dc ctx e w = (atLookup ctx e w).invoke h m (handlerCtx ctx w) e
        ∧ (processItem dc ctx e w).1 = (h.method m (handlerCtx ctx w) e w.hstate).1)
      ∧ (∀ (timeNow : Time) (resyncPeriod : Duration) (e1 : Entity),
          (defaultSyncFilter timeNow resyncPeriod).satisfiedBy e1 = true →
          e1.Status ∈ [StatusCREATING, StatusUPDATING, StatusDELETING]) := by
  constructor
  · have hm : ∃ m : Method,
        ((e.Status = StatusCREATING ∧ m = .Add) ∨ (e.Status = StatusUPDATING ∧ m = .Update)
          ∨ (e.Status = StatusDELETING ∧ m = .Delete)) ∧ methodOf e = some m := by
      simp only [List.mem_cons, List.mem_singleton, List.not_mem_nil, or_false] at hst
      rcases hst with h1 | h1 | h1
      · exact ⟨.Add, Or.inl ⟨h1, rfl⟩, by
          simp [methodOf, hdel, h1, StatusCREATING, StatusERROR]⟩
      · exact ⟨.Update, Or.inr (Or.inl ⟨h1, rfl⟩), by
          simp [methodOf, hdel, h1, StatusUPDATING, StatusERROR, StatusINITIALIZED,
            StatusCREATING, StatusMISSING]⟩
      · exact ⟨.Delete, Or.inr (Or.inr ⟨h1, rfl⟩), by
          simp [methodOf, hdel, h1, StatusDELETING, StatusERROR, StatusINITIALIZED,
            StatusCREATING, StatusMISSING, StatusUPDATING]⟩
    obtain ⟨m, hcase, hmeth⟩ := hm
    have heq : processItem dc ctx e w
        = (atLookup ctx e w).invoke h m (handlerCtx ctx w) e := by
      rw [processItem_eq]
      simp only [hreg, hmeth]
    refine ⟨m, hcase, hmeth, ?_, heq, ?_⟩
    · rw [heq, invoke_calls, atLookup_trace, calls_append]
      simp [calls]
    · rw [heq, invoke_fst, atLookup_hstate]
  · intro timeNow resyncPeriod e1 hsat
    simp only [defaultSyncFilter, entitystore.FilterEverything, entitystore.Filter.Add,
      List.nil_append, entitystore.Filter.satisfiedBy, List.all_cons, List.all_nil,
      Bool.and_true, Bool.and_eq_true, entitystore.FilterStat.holds] at hsat
    simpa using hsat.2

theorem processItem_routes_selected_statuses_witness :
    sampleController.entityHandlers.lookup (staleEntity "UPDATING").TypeOf
        = some sampleHandler
      ∧ (staleEntity "UPDATING").Delete = false
      ∧ (staleEntity "UPDATING").Status ∈ [StatusCREATING, StatusUPDATING, StatusDELETING]
      ∧ (defaultSyncFilter 5000 1000).satisfiedBy (staleEntity "UPDATING") = true
      ∧ (calls (processItem sampleController .Background (staleEntity "UPDATING")
            sampleWorld).2.trace).map (fun c => c.2.1) = [Method.Update]
      ∧ (processItem sampleController .Background (staleEntity "UPDATING")
            sampleWorld).1 = some "update failed"
      ∧ ∃ m : Method,
          (((staleEntity "UPDATING").Status = StatusCREATING ∧ m = .Add)
            ∨ ((staleEntity "UPDATING").Status = StatusUPDATING ∧ m = .Update)
            ∨ ((staleEntity "UPDATING").Status = StatusDELETING ∧ m = .Delete))
          ∧ methodOf (staleEntity "UPDATING") = some m
          ∧ calls (processItem sampleController .Background (staleEntity "UPDATING")
              sampleWorld).2.trace
            = calls sampleWorld.trace ++ [(sampleHandler.Type_, m,
                handlerCtx .Background sampleWorld, staleEntity "UPDATING")]
          ∧ processItem sampleController .Background (staleEntity "UPDATING") sampleWorld
            = (atLookup .Background (staleEntity "UPDATING") sampleWorld).invoke
                sampleHandler m (handlerCtx .Background sampleWorld) (staleEntity "UPDATING")
          ∧ (processItem sampleController .Background (staleEntity "UPDATING")
              sampleWorld).1
            = (sampleHandler.method m (handlerCtx .Background sampleWorld)
                (staleEntity "UPDATING") sampleWorld.hstate).1 :=
  ⟨rfl, rfl, by decide, by decide, rfl, rfl,
    (processItem_routes_selected_statuses sampleController .Background
      (staleEntity "UPDATING") sampleWorld sampleHandler rfl rfl (by decide)).1⟩

/-- Claim C28. For every filter that is not nil, `DefaultSync` queries the store once,
with exactly that filter and the entity type, whatever the resync period and the clock;
when `ListGlobal` fails it returns a nil list and that error, and otherwise the listed
entities, in the order of the store and as many, with a nil error. -/
theorem DefaultSync_given_filter (ctx : Context) (store : entitystore.EntityStore)
    (entityType : TypeTag) (resyncPeriod : Duration) (filter : entitystore.Filter)
    (timeNow : Time) (serial : Nat) :
    (∀ err : GoError,
        store.ListGlobal (ContextWithSpan ctx ⟨"", serial⟩) { Filter := filter } entityType
          = .error err →
        DefaultSync ctx store entityType resyncPeriod (some filter) timeNow serial
          = ([], some err))
      ∧ (∀ values : List Entity,
        store.ListGlobal (ContextWithSpan ctx ⟨"", serial⟩) { Filter := filter } entityType
          = .ok values →
        DefaultSync ctx store entityType resyncPeriod (some filter) timeNow serial
            = (values, none)
          ∧ (DefaultSync ctx store entityType resyncPeriod (some filter) timeNow
              serial).1.length = values.length)
      ∧ (∀ (resyncPeriod1 : Duration) (timeNow1 : Time),
        DefaultSync ctx store entityType resyncPeriod1 (some filter) timeNow1 serial
          = DefaultSync ctx store entityType resyncPeriod (some filter) timeNow serial) := by
  refine ⟨?_, ?_, ?_⟩
  · intro err herr
    simp only [DefaultSync, herr]
  · intro values hok
    simp only [DefaultSync, hok, and_self]
  · intro resyncPeriod1 timeNow1
    rfl

theorem DefaultSync_given_filter_witness :
    (entitystore.listStore [staleEntity "READY", staleEntity "ERROR"]).ListGlobal
        (ContextWithSpan .Background ⟨"", 0⟩) { Filter := [] } "T"
        = .ok [staleEntity "READY", staleEntity "ERROR"]
      ∧ DefaultSync .Background
          (entitystore.listStore [staleEntity "READY", staleEntity "ERROR"]) "T" 1000
          (some []) 5000 0 = ([staleEntity "READY", staleEntity "ERROR"], none)
      ∧ (DefaultSync .Background
          (entitystore.listStore [staleEntity "READY", staleEntity "ERROR"]) "T" 1000
          (some []) 5000 0).1.length = [staleEntity "READY", staleEntity "ERROR"].length
      ∧ DefaultSync .Background ⟨fun _ _ _ => .error "store down"⟩ "T" 1000 (some []) 5000 0
          = ([], some "store down") :=
  ⟨rfl,
    ((DefaultSync_given_filter .Background
      (entitystore.listStore [staleEntity "READY", staleEntity "ERROR"]) "T" 1000 [] 5000
      0).2.1 _ rfl).1,
    ((DefaultSync_given_filter .Background
      (entitystore.listStore [staleEntity "READY", staleEntity "ERROR"]) "T" 1000 [] 5000
      0).2.1 _ rfl).2,
    (DefaultSync_given_filter .Background ⟨fun _ _ _ => .error "store down"⟩ "T" 1000 []
      5000 0).1 "store down" rfl⟩

/-! ### Maps -/

theorem lookup_mapPut_self {α : Type} (m : List (String × α)) (k : String) (v : α) :
    (mapPut m k v).lookup k = some v := by
  simp [mapPut, List.lookup]

theorem lookup_mapPut_ne {α : Type} (m : List (String × α)) (k k1 : String) (v : α)
    (hk : k1 ≠ k) : (mapPut m k v).lookup k1 = m.lookup k1 := by
  have hkk : (k1 == k) = false := by simpa using hk
  simp only [mapPut, List.lookup, hkk]
  induction m with
  | nil => rfl
  | cons p m ih =>
    obtain ⟨k2, v2⟩ := p
    by_cases h2 : k2 = k
    · subst h2
      simp [List.filter, List.lookup, hkk, ih]
    · have hne : (k2 != k) = true := by simpa using h2
      simp only [List.filter, hne, List.lookup]
      cases (k1 == k2) with
      | true => rfl
      | false => simpa using ih

/-! ### The service injector -/

theorem bindLoop_ok (i : injectors.serviceInjector) (cookie : String)
    (names : List String) :
    ∀ b : injectors.Bindings,
      (∀ n ∈ names, ∃ (p : injectors.ServiceInstance) (secrets : injectors.Secrets),
        i.GetServiceInstanceByName n cookie = .ok p ∧ p.BindingStatus = StatusREADY
          ∧ i.getSecrets [p.ID] = .ok secrets) →
      ∃ b1 : injectors.Bindings, injectors.bindLoop i cookie names b = (some b1, none)
        ∧ (∀ n ∈ names, ∃ (p : injectors.ServiceInstance) (secrets : injectors.Secrets),
            i.GetServiceInstanceByName n cookie = .ok p
              ∧ i.getSecrets [p.ID] = .ok secrets ∧ b1.lookup n = some secrets)
        ∧ (∀ n, n ∉ names → b1.lookup n = b.lookup n) := by
  induction names with
  | nil =>
    intro b _
    exact ⟨b, rfl, by simp, fun n _ => rfl⟩
  | cons n0 rest ih =>
    intro b hall
    obtain ⟨p0, s0, hget, hready, hsec⟩ := hall n0 (List.mem_cons_self _ _)
    obtain ⟨b1, hloop, hin, hout⟩ :=
      ih (mapPut b n0 s0) (fun n hn => hall n (List.mem_cons_of_mem _ hn))
    refine ⟨b1, ?_, ?_, ?_⟩
    · simp only [injectors.bindLoop, hget, hready, hsec, bne_self_eq_false]
      simpa using hloop
    · intro n hn
      by_cases hrest : n ∈ rest
      · exact hin n hrest
      · have hn0 : n = n0 := by
          rcases List.mem_cons.mp hn with h | h
          · exact h
          · exact absurd h hrest
        subst hn0
        exact ⟨p0, s0, hget, hsec, by rw [hout n hrest, lookup_mapPut_self]⟩
    · intro n hn
      have hne : n ≠ n0 := fun h => hn (h ▸ List.mem_cons_self _ _)
      have hrest : n ∉ rest := fun h => hn (List.mem_cons_of_mem _ h)
      rw [hout n hrest, lookup_mapPut_ne _ _ _ _ hne]

theorem bindLoop_fails (i : injectors.serviceInjector) (cookie : String)
    (names : List String) :
    ∀ b : injectors.Bindings,
      (∃ n ∈ names,
        (∃ err, i.GetServiceInstanceByName n cookie = .error err)
        ∨ (∃ p, i.GetServiceInstanceByName n cookie = .ok p ∧ p.BindingStatus ≠ StatusREADY)
        ∨ (∃ p err, i.GetServiceInstanceByName n cookie = .ok p
            ∧ i.getSecrets [p.ID] = .error err)) →
      ∃ err : GoError, injectors.bindLoop i cookie names b = (none, some err) := by
  induction names with
  | nil =>
    intro b h
    obtain ⟨n, hn, _⟩ := h
    simp at hn
  | cons n0 rest ih =>
    intro b h
    simp only [injectors.bindLoop]
    cases hget : i.GetServiceInstanceByName n0 cookie with
    | error err => exact ⟨_, rfl⟩
    | ok p =>
      by_cases hready : p.BindingStatus = StatusREADY
      · cases hsec : i.getSecrets [p.ID] with
        | error err =>
          simp only [hready, bne_self_eq_false, Bool.false_eq_true, if_false, hsec]
          exact ⟨_, rfl⟩
        | ok secrets =>
          simp only [hready, bne_self_eq_false, Bool.false_eq_true, if_false, hsec]
          apply ih
          obtain ⟨n, hn, hfail⟩ := h
          rcases List.mem_cons.mp hn with h0 | hrest
          · subst h0
            rcases hfail with ⟨err, he⟩ | ⟨p1, hp1, hns⟩ | ⟨p1, err, hp1, he⟩
            · rw [hget] at he
              cases he
            · rw [hget] at hp1
              cases hp1
              exact absurd hready hns
            · rw [hget] at hp1
              cases hp1
              rw [hsec] at he
              cases he
          · exact ⟨n, hrest, hfail⟩
      · have hne : (p.BindingStatus != StatusREADY) = true := by simpa using hready
        simp only [hne, if_true]
        exact ⟨_, rfl⟩

/-- Claim C26, refuted as stated. The clients are those of the test, so the bindings are
found; the wrapped function returns the output `partial` together with an error. The
middleware calls it once and returns its error, but a nil output: the output of the
wrapped function is not handed on. -/
theorem serviceInjector_drops_output_on_error :
    (injectors.GetMiddleware testInjector ["testService"] "testCookie" partialFn [] none).out
        = none
      ∧ (injectors.GetMiddleware testInjector ["testService"] "testCookie" partialFn []
          none).err = some ⟨false, "half done"⟩
      ∧ (injectors.GetMiddleware testInjector ["testService"] "testCookie" partialFn []
          none).invoked
        = [([("serviceBindings", .bindings [("testService",
              [("secret1", "value1"), ("secret2", "value2")])])], none)]
      ∧ partialFn [("serviceBindings", .bindings [("testService",
            [("secret1", "value1"), ("secret2", "value2")])])] none
        = (some (.text "partial"), some ⟨false, "half done"⟩) := by
  decide

/-- Claim C26, amended. When for every requested name the service manager returns an
instance whose binding is `READY` and the secret lookup for its ID succeeds, the
middleware calls the wrapped function exactly once, with the context in which
`serviceBindings` maps each requested name to the secrets of its binding (and no other
name), and returns the error of the wrapped function unchanged, with its output when
that error is nil and a nil output otherwise. -/
theorem serviceInjector_injects_bindings (i : injectors.serviceInjector)
    (serviceNames : List String) (cookie : String) (f : injectors.Runnable)
    (ctx : injectors.FnContext) (input : Option injectors.FnValue)
    (hall : ∀ n ∈ serviceNames,
      ∃ (p : injectors.ServiceInstance) (secrets : injectors.Secrets),
        i.GetServiceInstanceByName n cookie = .ok p ∧ p.BindingStatus = StatusREADY
          ∧ i.getSecrets [p.ID] = .ok secrets) :
    ∃ b : injectors.Bindings,
      injectors.getServiceBindings i serviceNames cookie = (some b, none)
      ∧ (∀ n ∈ serviceNames,
          ∃ (p : injectors.ServiceInstance) (secrets : injectors.Secrets),
            i.GetServiceInstanceByName n cookie = .ok p
              ∧ i.getSecrets [p.ID] = .ok secrets ∧ b.lookup n = some secrets)
      ∧ (∀ n, n ∉ serviceNames → b.lookup n = none)
      ∧ (injectors.GetMiddleware i serviceNames cookie f ctx input).invoked
        = [(mapPut ctx "serviceBindings" (.bindings b), input)]
      ∧ (mapPut ctx "serviceBindings" (injectors.FnValue.bindings b)).lookup
          "serviceBindings" = some (.bindings b)
      ∧ (injectors.GetMiddleware i serviceNames cookie f ctx input).err
        = (f (mapPut ctx "serviceBindings" (.bindings b)) input).2
      ∧ ((f (mapPut ctx "serviceBindings" (.bindings b)) input).2 = none →
          (injectors.GetMiddleware i serviceNames cookie f ctx input).out
            = (f (mapPut ctx "serviceBindings" (.bindings b)) input).1)
      ∧ ((f (mapPut ctx "serviceBindings" (.bindings b)) input).2 ≠ none →
          (injectors.GetMiddleware i serviceNames cookie f ctx input).out = none) := by
  obtain ⟨b, hloop, hin, hout⟩ := bindLoop_ok i cookie serviceNames [] hall
  have hget : injectors.getServiceBindings i serviceNames cookie = (some b, none) := hloop
  refine ⟨b, hget, hin, fun n hn => by rw [hout n hn]; rfl, ?_, lookup_mapPut_self _ _ _,
    ?_, ?_, ?_⟩
  · simp only [injectors.GetMiddleware, hget, Option.getD_some]
    split <;> rfl
  · simp only [injectors.GetMiddleware, hget, Option.getD_some]
    split <;> rename_i herr <;> simp [herr]
  · intro hnil
    simp only [injectors.GetMiddleware, hget, Option.getD_some]
    split <;> rename_i herr
    · rw [hnil] at herr
      cases herr
    · rfl
  · intro hsome
    simp only [injectors.GetMiddleware, hget, Option.getD_some]
    split <;> rename_i herr
    · rfl
    · exact absurd herr hsome

theorem serviceInjector_injects_bindings_witness :
    (∀ n ∈ ["testService"],
      ∃ (p : injectors.ServiceInstance) (secrets : injectors.Secrets),
        testInjector.GetServiceInstanceByName n "testCookie" = .ok p
          ∧ p.BindingStatus = StatusREADY ∧ testInjector.getSecrets [p.ID] = .ok secrets)
      ∧ (injectors.GetMiddleware testInjector ["testService"] "testCookie" printServiceFn []
          none).out = some (.secrets [("secret1", "value1"), ("secret2", "value2")])
      ∧ (injectors.GetMiddleware testInjector ["testService"] "testCookie" printServiceFn []
          none).err = none
      ∧ ∃ b : injectors.Bindings,
        injectors.getServiceBindings testInjector ["testService"] "testCookie"
          = (some b, none)
        ∧ (injectors.GetMiddleware testInjector ["testService"] "testCookie" printServiceFn
            [] none).invoked = [(mapPut [] "serviceBindings" (.bindings b), none)] :=
  ⟨fun _ _ => ⟨⟨"service-id", "READY"⟩, _, rfl, rfl, rfl⟩, rfl, rfl,
    (serviceInjector_injects_bindings testInjector ["testService"] "testCookie"
      printServiceFn [] none
      (fun _ _ => ⟨⟨"service-id", "READY"⟩, _, rfl, rfl, rfl⟩)).imp
      (fun _ h => ⟨h.1, h.2.2.2.1⟩)⟩

/-- Claim C30. If for some requested service name the instance cannot be fetched, its
binding is not `READY`, or the secrets of its binding cannot be fetched,
`getServiceBindings` returns a nil map and an error, and the middleware returns a nil
output and an `injectorError` that wraps that error; the wrapped function is not called
and the context map is left as it was, `serviceBindings` not set. -/
theorem serviceInjector_fails_without_bindings (i : injectors.serviceInjector)
    (serviceNames : List String) (cookie : String) (f : injectors.Runnable)
    (ctx : injectors.FnContext) (input : Option injectors.FnValue)
    (hfail : ∃ n ∈ serviceNames,
      (∃ err, i.GetServiceInstanceByName n cookie = .error err)
      ∨ (∃ p, i.GetServiceInstanceByName n cookie = .ok p ∧ p.BindingStatus ≠ StatusREADY)
      ∨ (∃ p err, i.GetServiceInstanceByName n cookie = .ok p
          ∧ i.getSecrets [p.ID] = .error err)) :
    ∃ err : GoError,
      injectors.getServiceBindings i serviceNames cookie = (none, some err)
      ∧ injectors.GetMiddleware i serviceNames cookie f ctx input
        = { out := none
            err := some ⟨true,
              "error when retrieving bindings from service manager: " ++ err⟩
            ctx := ctx
            invoked := [] }
      ∧ (injectors.GetMiddleware i serviceNames cookie f ctx input).ctx.lookup
          "serviceBindings" = ctx.lookup "serviceBindings" := by
  obtain ⟨err, hloop⟩ := bindLoop_fails i cookie serviceNames [] hfail
  have hget : injectors.getServiceBindings i serviceNames cookie = (none, some err) := hloop
  have hmw : injectors.GetMiddleware i serviceNames cookie f ctx input
      = { out := none
          err := some ⟨true, "error when retrieving bindings from service manager: " ++ err⟩
          ctx := ctx
          invoked := [] } := by
    simp only [injectors.GetMiddleware, hget]
  exact ⟨err, hget, hmw, by rw [hmw]⟩

theorem serviceInjector_fails_without_bindings_witness :
    (∃ n ∈ ["testService", "db"],
      (∃ err, pendingInjector.GetServiceInstanceByName n "testCookie" = .error err)
      ∨ (∃ p, pendingInjector.GetServiceInstanceByName n "testCookie" = .ok p
          ∧ p.BindingStatus ≠ StatusREADY)
      ∨ (∃ p err, pendingInjector.GetServiceInstanceByName n "testCookie" = .ok p
          ∧ pendingInjector.getSecrets [p.ID] = .error err))
      ∧ injectors.getServiceBindings pendingInjector ["testService", "db"] "testCookie"
        = (none, some "failed to get service bindings current status CREATING")
      ∧ (injectors.GetMiddleware pendingInjector ["testService", "db"] "testCookie"
          printServiceFn [] none).invoked = []
      ∧ ∃ err : GoError,
        injectors.getServiceBindings pendingInjector ["testService", "db"] "testCookie"
          = (none, some err)
        ∧ injectors.GetMiddleware pendingInjector ["testService", "db"] "testCookie"
            printServiceFn [] none
          = { out := none
              err := some ⟨true,
                "error when retrieving bindings from service manager: " ++ err⟩
              ctx := []
              invoked := [] }
        ∧ (injectors.GetMiddleware pendingInjector ["testService", "db"] "testCookie"
            printServiceFn [] none).ctx.lookup "serviceBindings"
          = ([] : injectors.FnContext).lookup "serviceBindings" :=
  ⟨⟨"db", by decide, Or.inr (Or.inl ⟨⟨"db-id", "CREATING"⟩, rfl, by decide⟩)⟩, rfl, rfl,
    serviceInjector_fails_without_bindings pendingInjector ["testService", "db"]
      "testCookie" printServiceFn [] none
      ⟨"db", by decide, Or.inr (Or.inl ⟨⟨"db-id", "CREATING"⟩, rfl, by decide⟩)⟩⟩

/-! ### Printing secrets -/

theorem secretRows_named (secrets : List v1.Secret) (hnames : ∀ x ∈ secrets, x.Name ≠ none) :
    secretRows secrets
      = some (secrets.map (fun x => [x.ID, x.Name.getD "", "<hidden>"])) := by
  induction secrets with
  | nil => rfl
  | cons x rest ih =>
    have hx := hnames x (List.mem_cons_self _ _)
    have hrest := ih (fun y hy => hnames y (List.mem_cons_of_mem _ hy))
    cases hname : x.Name with
    | none => exact absurd hname hx
    | some name => simp [secretRows, hname, hrest]

/-- Claim C25, refuted as stated. With `--all` not given but `dispatchConfig.JSON` set,
`formatSecretOutput` writes the JSON document of the secrets, values included, and two
lists that differ only in the values of the secrets give different outputs. And a
secret whose `Name` is nil makes the table branch panic. -/
theorem formatSecretOutput_json_shows_values :
    sampleSecrets.map (fun x => (x.ID, x.Name)) = otherSecrets.map (fun x => (x.ID, x.Name))
      ∧ formatSecretOutput false true true sampleSecrets
        = some ([.jsonList sampleSecrets], none)
      ∧ formatSecretOutput false true true otherSecrets
        = some ([.jsonList otherSecrets], none)
      ∧ formatSecretOutput false true true sampleSecrets
        ≠ formatSecretOutput false true true otherSecrets
      ∧ formatSecretOutput false false true [⟨"id-3", none, [("key", "abc123")]⟩] = none := by
  decide

/-- Claim C25, amended. When neither `--all` nor `dispatchConfig.JSON` is set and every
secret has a name, `formatSecretOutput` writes the note and a table with one row a
secret, its ID, its name and the literal `<hidden>`, and returns nil; so two lists of
secrets with the same IDs and names, whatever their values, give the same output. -/
theorem formatSecretOutput_hides_values (list : Bool) (secrets : List v1.Secret)
    (hnames : ∀ x ∈ secrets, x.Name ≠ none) :
    formatSecretOutput false false list secrets
        = some ([.text "Note: secret values are hidden, please use --all flag to get them\n\n",
            .table ["ID", "Name", "Content"]
              (secrets.map (fun x => [x.ID, x.Name.getD "", "<hidden>"]))], none)
      ∧ (∀ others : List v1.Secret,
          others.map (fun x => (x.ID, x.Name)) = secrets.map (fun x => (x.ID, x.Name)) →
          formatSecretOutput false false list others
            = formatSecretOutput false false list secrets) := by
  have hfmt : ∀ l : List v1.Secret, (∀ x ∈ l, x.Name ≠ none) →
      formatSecretOutput false false list l
        = some ([.text "Note: secret values are hidden, please use --all flag to get them\n\n",
            .table ["ID", "Name", "Content"]
              (l.map (fun x => [x.ID, x.Name.getD "", "<hidden>"]))], none) := by
    intro l hl
    simp [formatSecretOutput, secretRows_named l hl]
  refine ⟨hfmt secrets hnames, ?_⟩
  intro others hsame
  have hothers : ∀ x ∈ others, x.Name ≠ none := by
    intro x hx
    have hmem : (x.ID, x.Name) ∈ others.map (fun x => (x.ID, x.Name)) :=
      List.mem_map.mpr ⟨x, hx, rfl⟩
    rw [hsame] at hmem
    obtain ⟨y, hy, hxy⟩ := List.mem_map.mp hmem
    have hyn := hnames y hy
    simp only [Prod.mk.injEq] at hxy
    rw [← hxy.2]
    exact hyn
  rw [hfmt others hothers, hfmt secrets hnames]
  have hrows : others.map (fun x => [x.ID, x.Name.getD "", "<hidden>"])
      = secrets.map (fun x => [x.ID, x.Name.getD "", "<hidden>"]) := by
    have h1 : ∀ l : List v1.Secret, l.map (fun x => [x.ID, x.Name.getD "", "<hidden>"])
        = (l.map (fun x => (x.ID, x.Name))).map
            (fun q => [q.1, q.2.getD "", "<hidden>"]) := by
      intro l
      simp [List.map_map, Function.comp_def]
    rw [h1 others, h1 secrets, hsame]
  rw [hrows]

theorem formatSecretOutput_hides_values_witness :
    (∀ x ∈ sampleSecrets, x.Name ≠ none)
      ∧ otherSecrets.map (fun x => (x.ID, x.Name))
        = sampleSecrets.map (fun x => (x.ID, x.Name))
      ∧ formatSecretOutput false false true sampleSecrets
        = some ([.text "Note: secret values are hidden, please use --all flag to get them\n\n",
            .table ["ID", "Name", "Content"]
              [["id-1", "db-password", "<hidden>"], ["id-2", "api-key", "<hidden>"]]], none)
      ∧ formatSecretOutput false false true otherSecrets
        = formatSecretOutput false false true sampleSecrets :=
  ⟨by decide, by decide,
    (formatSecretOutput_hides_values true sampleSecrets (by decide)).1,
    (formatSecretOutput_hides_values true sampleSecrets (by decide)).2 otherSecrets
      (by decide)⟩

/-! ### The choice of services to install -/

theorem HasPrefix_no (x : String) : strings.HasPrefix ("no-" ++ x) "no-" = true := by
  simp [strings.HasPrefix, String.data_append, List.isPrefixOf]

theorem TrimPrefix_no (x : String) : strings.TrimPrefix ("no-" ++ x) "no-" = x := by
  simp [strings.TrimPrefix, HasPrefix_no, String.data_append]

theorem TrimPrefix_plain (e : String) (h : strings.HasPrefix e "no-" = false) :
    strings.TrimPrefix e "no-" = e := by
  simp [strings.TrimPrefix, h]

theorem no_ne_all (x : String) : "no-" ++ x ≠ "all" := by
  intro h
  have hd := congrArg String.data h
  simp [String.data_append] at hd

theorem lookup_reset (m : List (String × Bool)) (k : String) :
    (m.map (fun p => (p.1, false))).lookup k = (m.lookup k).map (fun _ => false) := by
  induction m with
  | nil => rfl
  | cons p m ih =>
    obtain ⟨k1, v1⟩ := p
    simp only [List.map_cons, List.lookup]
    cases (k == k1) with
    | true => rfl
    | false => simpa using ih

theorem lookup_foldl_put (l : List String) :
    ∀ (m : List (String × Bool)) (k : String),
      (l.foldl (fun m service => mapPut m service true) m).lookup k
        = if k ∈ l then some true else m.lookup k := by
  induction l with
  | nil => intro m k; simp
  | cons x l ih =>
    intro m k
    simp only [List.foldl_cons, ih, List.mem_cons]
    by_cases hl : k ∈ l
    · simp [hl]
    · by_cases hx : k = x
      · subst hx
        simp [hl, lookup_mapPut_self]
      · simp [hl, hx, lookup_mapPut_ne _ _ _ _ hx]

/-- From an empty map, the first statements of `selectServices` leave a map whose keys
are the known services, all enabled. -/
theorem lookup_enableKnown (faasBackend k : String) :
    (enableKnown faasBackend []).lookup k
      = if k ∈ knownServices faasBackend then some true else none := by
  simp only [enableKnown, knownServices, List.mem_append, List.mem_singleton]
  by_cases hk : k = faasBackend
  · subst hk
    simp [lookup_mapPut_self]
  · rw [lookup_mapPut_ne _ _ _ _ hk, lookup_foldl_put]
    simp [hk]

theorem keys_mapPut (K : List String) (m : List (String × Bool)) (k : String) (v : Bool)
    (hk : k ∈ K) (hkeys : ∀ x, m.lookup x ≠ none ↔ x ∈ K) :
    ∀ x, (mapPut m k v).lookup x ≠ none ↔ x ∈ K := by
  intro x
  by_cases hx : x = k
  · subst hx
    simp [lookup_mapPut_self, hk]
  · rw [lookup_mapPut_ne _ _ _ _ hx]
    exact hkeys x

theorem keys_reset (K : List String) (m : List (String × Bool))
    (hkeys : ∀ x, m.lookup x ≠ none ↔ x ∈ K) :
    ∀ x, (m.map (fun p => (p.1, false))).lookup x ≠ none ↔ x ∈ K := by
  intro x
  rw [lookup_reset, ← hkeys x]
  cases m.lookup x <;> simp

/-- When the loop of `selectServices` ends without an error: every entry names a known
service and the entries are all of one kind, the kind the mode flags allow. -/
theorem selectLoop_ok_iff (K : List String) (l : List String) :
    ∀ (m : List (String × Bool)) (wl bl : Bool),
      (∀ x, m.lookup x ≠ none ↔ x ∈ K) →
      ((selectLoop l m wl bl).1 = none ↔
        (∀ e ∈ l, strings.TrimPrefix e "no-" ∈ K)
          ∧ (wl = true → ∀ e ∈ l, strings.HasPrefix e "no-" = false)
          ∧ (bl = true → ∀ e ∈ l, strings.HasPrefix e "no-" = true)
          ∧ ((∀ e ∈ l, strings.HasPrefix e "no-" = true)
            ∨ (∀ e ∈ l, strings.HasPrefix e "no-" = false))) := by
  induction l with
  | nil =>
    intro m wl bl _
    simp [selectLoop]
  | cons e es ih =>
    intro m wl bl hkeys
    simp only [List.forall_mem_cons]
    by_cases hp : strings.HasPrefix e "no-" = true
    · simp only [selectLoop, hp, if_true]
      by_cases hK : strings.TrimPrefix e "no-" ∈ K
      · have hsome : (m.lookup (strings.TrimPrefix e "no-")).isNone = false := by
          have := (hkeys _).mpr hK
          cases hl : m.lookup (strings.TrimPrefix e "no-") with
          | none => exact absurd hl this
          | some v => rfl
        simp only [hsome, Bool.false_eq_true, if_false]
        cases wl with
        | true => simp [hp]
        | false =>
          simp only [Bool.false_eq_true, if_false]
          rw [ih _ false true (keys_mapPut K m _ false hK hkeys)]
          simp only [hK, hp, true_and, Bool.false_eq_true, false_implies, implies_true]
          constructor
          · rintro ⟨h1, h2, _⟩
            exact ⟨h1, fun _ => h2 trivial, Or.inl (h2 trivial)⟩
          · rintro ⟨h1, _, h3⟩
            have hall : ∀ x ∈ es, strings.HasPrefix x "no-" = true := by
              rcases h3 with h3 | h3
              · exact h3
              · exact absurd h3.1 (by simp)
            exact ⟨h1, fun _ => hall, Or.inl hall⟩
      · have hnone : (m.lookup (strings.TrimPrefix e "no-")).isNone = true := by
          have := (not_congr (hkeys (strings.TrimPrefix e "no-"))).mpr hK
          simpa using this
        simp [hnone, hK]
    · have hp1 : strings.HasPrefix e "no-" = false := by simpa using hp
      have hname : strings.TrimPrefix e "no-" = e := TrimPrefix_plain e hp1
      have hkeys1 : ∀ x, (if wl = true then m else m.map (fun p => (p.1, false))).lookup x
          ≠ none ↔ x ∈ K := by
        cases wl with
        | true => simpa using hkeys
        | false => simpa using keys_reset K m hkeys
      simp only [selectLoop, hp1, Bool.false_eq_true, if_false, hname]
      by_cases hK : e ∈ K
      · have hsome : ((if wl = true then m else m.map (fun p => (p.1, false))).lookup
            e).isNone = false := by
          have := (hkeys1 e).mpr hK
          cases hl : (if wl = true then m else m.map (fun p => (p.1, false))).lookup e with
          | none => exact absurd hl this
          | some v => rfl
        simp only [hsome, Bool.false_eq_true, if_false]
        cases bl with
        | true => simp [hp1]
        | false =>
          simp only [Bool.false_eq_true, if_false]
          rw [ih _ true false (keys_mapPut K _ _ true hK hkeys1)]
          simp only [hK, hp1, true_and, Bool.false_eq_true, false_implies, implies_true]
          constructor
          · rintro ⟨h1, h2, _⟩
            exact ⟨h1, fun _ => h2 trivial, Or.inr (h2 trivial)⟩
          · rintro ⟨h1, _, h3⟩
            have hall : ∀ x ∈ es, strings.HasPrefix x "no-" = false := by
              rcases h3 with h3 | h3
              · exact absurd h3.1 (by simp)
              · exact h3
            exact ⟨h1, fun _ => hall, Or.inr hall⟩
      · have hnone : ((if wl = true then m else m.map (fun p => (p.1, false))).lookup
            e).isNone = true := by
          have := (not_congr (hkeys1 e)).mpr hK
          simpa using this
        simp [hnone, hK]

theorem isNone_of_key (K : List String) (m : List (String × Bool)) (k : String)
    (hkeys : ∀ x, m.lookup x ≠ none ↔ x ∈ K) (hk : k ∈ K) :
    (m.lookup k).isNone = false := by
  have := (hkeys k).mpr hk
  cases hl : m.lookup k with
  | none => exact absurd hl this
  | some v => rfl

/-- In blacklist mode the loop disables the services named and leaves the others. -/
theorem selectLoop_blacklist (K : List String) (l : List String) :
    ∀ (m : List (String × Bool)) (bl : Bool),
      (∀ x, m.lookup x ≠ none ↔ x ∈ K) →
      (∀ e ∈ l, strings.HasPrefix e "no-" = true ∧ strings.TrimPrefix e "no-" ∈ K) →
      (selectLoop l m false bl).1 = none
        ∧ ∀ k, (selectLoop l m false bl).2.lookup k
            = if k ∈ l.map (fun e => strings.TrimPrefix e "no-") then some false
              else m.lookup k := by
  induction l with
  | nil =>
    intro m bl _ _
    simp [selectLoop]
  | cons e es ih =>
    intro m bl hkeys hall
    obtain ⟨hp, hK⟩ := hall e (List.mem_cons_self _ _)
    have hrest := ih (mapPut m (strings.TrimPrefix e "no-") false) true
      (keys_mapPut K m _ false hK hkeys) (fun x hx => hall x (List.mem_cons_of_mem _ hx))
    simp only [selectLoop, hp, if_true, isNone_of_key K m _ hkeys hK, Bool.false_eq_true,
      if_false]
    refine ⟨hrest.1, ?_⟩
    intro k
    rw [hrest.2 k]
    simp only [List.map_cons, List.mem_cons]
    by_cases hes : k ∈ es.map (fun e => strings.TrimPrefix e "no-")
    · simp [hes]
    · by_cases hke : k = strings.TrimPrefix e "no-"
      · simp [hes, hke, lookup_mapPut_self]
      · simp [hes, hke, lookup_mapPut_ne _ _ _ _ hke]

/-- In whitelist mode the loop enables the services named and leaves the others. -/
theorem selectLoop_whitelist (K : List String) (l : List String) :
    ∀ (m : List (String × Bool)),
      (∀ x, m.lookup x ≠ none ↔ x ∈ K) →
      (∀ e ∈ l, strings.HasPrefix e "no-" = false ∧ e ∈ K) →
      (selectLoop l m true false).1 = none
        ∧ ∀ k, (selectLoop l m true false).2.lookup k
            = if k ∈ l then some true else m.lookup k := by
  induction l with
  | nil =>
    intro m _ _
    simp [selectLoop]
  | cons e es ih =>
    intro m hkeys hall
    obtain ⟨hp, hK⟩ := hall e (List.mem_cons_self _ _)
    have hrest := ih (mapPut m e true) (keys_mapPut K m _ true hK hkeys)
      (fun x hx => hall x (List.mem_cons_of_mem _ hx))
    simp only [selectLoop, hp, Bool.false_eq_true, if_false, if_true,
      isNone_of_key K m _ hkeys hK]
    refine ⟨hrest.1, ?_⟩
    intro k
    rw [hrest.2 k]
    simp only [List.mem_cons]
    by_cases hes : k ∈ es
    · simp [hes]
    · by_cases hke : k = e
      · simp [hes, hke, lookup_mapPut_self]
      · simp [hes, hke, lookup_mapPut_ne _ _ _ _ hke]

/-- The first entry of a whitelist resets the map before it enables its service. -/
theorem selectLoop_whitelist_first (K : List String) (e : String) (es : List String)
    (m : List (String × Bool)) (hkeys : ∀ x, m.lookup x ≠ none ↔ x ∈ K)
    (hall : ∀ x ∈ e :: es, strings.HasPrefix x "no-" = false ∧ x ∈ K) :
    (selectLoop (e :: es) m false false).1 = none
      ∧ ∀ k, (selectLoop (e :: es) m false false).2.lookup k
          = if k ∈ e :: es then some true else (m.lookup k).map (fun _ => false) := by
  obtain ⟨hp, hK⟩ := hall e (List.mem_cons_self _ _)
  have hkeys1 := keys_reset K m hkeys
  have hrest := selectLoop_whitelist K es (mapPut (m.map (fun p => (p.1, false))) e true)
    (keys_mapPut K _ _ true hK hkeys1) (fun x hx => hall x (List.mem_cons_of_mem _ hx))
  simp only [selectLoop, hp, Bool.false_eq_true, if_false,
    isNone_of_key K _ _ hkeys1 hK]
  refine ⟨hrest.1, ?_⟩
  intro k
  rw [hrest.2 k]
  simp only [List.mem_cons]
  by_cases hes : k ∈ es
  · simp [hes]
  · by_cases hke : k = e
    · simp [hes, hke, lookup_mapPut_self]
    · simp [hes, hke, lookup_mapPut_ne _ _ _ _ hke, lookup_reset]

theorem keys_enableKnown (faasBackend : String) :
    ∀ x, (enableKnown faasBackend []).lookup x ≠ none ↔ x ∈ knownServices faasBackend := by
  intro x
  rw [lookup_enableKnown]
  by_cases hx : x ∈ knownServices faasBackend <;> simp [hx]

/-- From an allocated map `selectServices` does not panic; when the first entry of
`installServices` is not `all`, its error and the map it leaves are those of the loop. -/
theorem selectServices_loop (faasBackend first : String) (rest : List String)
    (debug : Bool) (m0 : List (String × Bool)) (hfirst : first ≠ "all") :
    ∃ out : List String,
      selectServices faasBackend ⟨some m0, first :: rest, debug⟩
        = some ((selectLoop (first :: rest) (enableKnown faasBackend m0) false false).1,
            (selectLoop (first :: rest) (enableKnown faasBackend m0) false false).2, out) := by
  simp only [selectServices, hfirst, if_false]
  cases h : (selectLoop (first :: rest) (enableKnown faasBackend m0) false false).1 with
  | none => exact ⟨_, rfl⟩
  | some err => exact ⟨_, rfl⟩

/-- From an allocated empty map, `selectServices` returns an error if and only if
`installServices` is not empty, its first element is not `all`, and either the list holds
both an entry with the prefix `no-` and one without, or some entry names, once one
leading `no-` is removed, a service that is neither available nor the configured FaaS
backend. -/
theorem selectServices_error_iff (faasBackend : String) (services : List String)
    (debug : Bool) :
    ∃ r, selectServices faasBackend ⟨some [], services, debug⟩ = some r
      ∧ (r.1 ≠ none ↔
        services ≠ [] ∧ services.head? ≠ some "all"
          ∧ (((∃ e ∈ services, strings.HasPrefix e "no-" = true)
              ∧ (∃ e ∈ services, strings.HasPrefix e "no-" = false))
            ∨ ∃ e ∈ services, strings.TrimPrefix e "no-" ∉ knownServices faasBackend)) := by
  cases services with
  | nil => exact ⟨_, rfl, by simp⟩
  | cons first rest =>
    by_cases hfirst : first = "all"
    · subst hfirst
      exact ⟨(none, enableKnown faasBackend [], []), by simp [selectServices], by simp⟩
    · obtain ⟨out, hsel⟩ := selectServices_loop faasBackend first rest debug [] hfirst
      refine ⟨_, hsel, ?_⟩
      have hiff := selectLoop_ok_iff (knownServices faasBackend) (first :: rest)
        (enableKnown faasBackend []) false false (keys_enableKnown faasBackend)
      refine (not_congr hiff).trans ?_
      simp only [Bool.false_eq_true, false_implies, true_and, ne_eq, reduceCtorEq,
        not_false_eq_true, List.head?_cons, Option.some.injEq, hfirst]
      constructor
      · intro h
        by_cases hknown : ∀ e ∈ first :: rest,
            strings.TrimPrefix e "no-" ∈ knownServices faasBackend
        · left
          have hmix : ¬ ((∀ e ∈ first :: rest, strings.HasPrefix e "no-" = true)
              ∨ (∀ e ∈ first :: rest, strings.HasPrefix e "no-" = false)) :=
            fun hm => h ⟨hknown, hm⟩
          rw [not_or] at hmix
          obtain ⟨h1, h2⟩ := hmix
          push_neg at h1 h2
          obtain ⟨a, ha, hpa⟩ := h1
          obtain ⟨b, hb, hpb⟩ := h2
          exact ⟨⟨b, hb, by simpa using hpb⟩, ⟨a, ha, by simpa using hpa⟩⟩
        · right
          push_neg at hknown
          exact hknown
      · rintro (⟨⟨a, ha, hpa⟩, ⟨b, hb, hpb⟩⟩ | ⟨e, he, hun⟩)
        · rintro ⟨_, hm⟩
          rcases hm with hm | hm
          · have := hm b hb
            rw [hpb] at this
            cases this
          · have := hm a ha
            rw [hpa] at this
            cases this
        · rintro ⟨hk, _⟩
          exact hun (hk e he)

/-- From an allocated empty map, with the known services being the available ones and
the configured FaaS backend: when `installServices` is empty or its first element is
`all`, `selectServices` enables every known service; when every entry is `no-X` with `X`
known, it enables exactly the known services that are not named; when `installServices`
is not empty, its first element is not `all` and every entry is a known name without the
prefix, it enables exactly the services named. In each case it returns nil. -/
theorem selectServices_enables (faasBackend : String) (debug : Bool) :
    (∀ services : List String, (services = [] ∨ services.head? = some "all") →
        ∃ r, selectServices faasBackend ⟨some [], services, debug⟩ = some r ∧ r.1 = none
          ∧ ∀ s, installService (some r.2.1) s = true ↔ s ∈ knownServices faasBackend)
      ∧ (∀ names : List String, (∀ x ∈ names, x ∈ knownServices faasBackend) →
        ∃ r, selectServices faasBackend ⟨some [], names.map (fun x => "no-" ++ x), debug⟩
            = some r ∧ r.1 = none
          ∧ ∀ s, installService (some r.2.1) s = true
              ↔ (s ∈ knownServices faasBackend ∧ s ∉ names))
      ∧ (∀ services : List String, services ≠ [] → services.head? ≠ some "all" →
        (∀ e ∈ services,
          strings.HasPrefix e "no-" = false ∧ e ∈ knownServices faasBackend) →
        ∃ r, selectServices faasBackend ⟨some [], services, debug⟩ = some r ∧ r.1 = none
          ∧ ∀ s, installService (some r.2.1) s = true ↔ s ∈ services) := by
  have hall : ∀ services : List String, (services = [] ∨ services.head? = some "all") →
      ∃ r, selectServices faasBackend ⟨some [], services, debug⟩ = some r ∧ r.1 = none
        ∧ ∀ s, installService (some r.2.1) s = true ↔ s ∈ knownServices faasBackend := by
    intro services hs
    have hsel : selectServices faasBackend ⟨some [], services, debug⟩
        = some (none, enableKnown faasBackend [], []) := by
      cases services with
      | nil => rfl
      | cons first rest =>
        have hfirst : first = "all" := by simpa using hs
        simp [selectServices, hfirst]
    refine ⟨_, hsel, rfl, fun s => ?_⟩
    simp only [installService, lookup_enableKnown]
    by_cases hk : s ∈ knownServices faasBackend <;> simp [hk]
  refine ⟨hall, ?_, ?_⟩
  · intro names hknown
    cases names with
    | nil =>
      have h := hall [] (Or.inl rfl)
      simpa using h
    | cons x xs =>
      have hfirst : "no-" ++ x ≠ "all" := no_ne_all x
      obtain ⟨out, hsel⟩ := selectServices_loop faasBackend ("no-" ++ x)
        (xs.map (fun x => "no-" ++ x)) debug [] hfirst
      have hentries : ∀ e ∈ ("no-" ++ x) :: xs.map (fun x => "no-" ++ x),
          strings.HasPrefix e "no-" = true
            ∧ strings.TrimPrefix e "no-" ∈ knownServices faasBackend := by
        intro e he
        have he1 : e ∈ (x :: xs).map (fun x => "no-" ++ x) := by simpa using he
        obtain ⟨y, hy, rfl⟩ := List.mem_map.mp he1
        exact ⟨HasPrefix_no y, by rw [TrimPrefix_no]; exact hknown y hy⟩
      obtain ⟨hok, hval⟩ := selectLoop_blacklist (knownServices faasBackend) _
        (enableKnown faasBackend []) false (keys_enableKnown faasBackend) hentries
      have hnames : (("no-" ++ x) :: xs.map (fun x => "no-" ++ x)).map
          (fun e => strings.TrimPrefix e "no-") = x :: xs := by
        simp [List.map_map, Function.comp_def, TrimPrefix_no]
      simp only [List.map_cons]
      refine ⟨_, hsel, hok, fun s => ?_⟩
      simp only [installService, hval s, hnames, lookup_enableKnown]
      by_cases hs : s ∈ x :: xs
      · simp [hs]
      · by_cases hk : s ∈ knownServices faasBackend <;> simp [hs, hk]
  · intro services hne hhead hentries
    cases services with
    | nil => exact absurd rfl hne
    | cons first rest =>
      have hfirst : first ≠ "all" := by simpa using hhead
      obtain ⟨out, hsel⟩ := selectServices_loop faasBackend first rest debug [] hfirst
      obtain ⟨hok, hval⟩ := selectLoop_whitelist_first (knownServices faasBackend) first
        rest (enableKnown faasBackend []) (keys_enableKnown faasBackend) hentries
      refine ⟨_, hsel, hok, fun s => ?_⟩
      simp only [installService, hval s, lookup_enableKnown]
      by_cases hs : s ∈ first :: rest
      · simp [hs]
      · by_cases hk : s ∈ knownServices faasBackend <;> simp [hs, hk]

/-- Claim C23, evaluated where it fails. The map `servicesEnabled` is the nil map when
`selectServices` is called, so the call panics at the assignment of line 351, whatever
the FaaS backend and the flags; with no `--service` flag, where every known service is
to be enabled, nothing is enabled: `installService` stays false on the nil map. From an
allocated empty map the same call returns nil and enables every known service. -/
theorem selectServices_panics_on_nil_map :
    (∀ (faasBackend : String) (services : List String) (debug : Bool),
        selectServices faasBackend ⟨none, services, debug⟩ = none)
      ∧ selectServices "openfaas" ⟨none, [], false⟩ = none
      ∧ (knownServices "openfaas").map (installService none)
        = [false, false, false, false, false, false]
      ∧ (selectServices "openfaas" ⟨some [], [], false⟩).map
          (fun r => (r.1, (knownServices "openfaas").map (installService (some r.2.1))))
        = some (none, [true, true, true, true, true, true]) :=
  ⟨fun _ _ _ => rfl, rfl, by decide, by decide⟩

/-- Claim C24, evaluated where it fails. A list that mixes the two modes and a list that
names an unknown service are to be rejected with an error; from the nil map that
`servicesEnabled` is, `selectServices` panics at the assignment of line 351 before it
reads the list and returns no error. From an allocated empty map the same calls return
the two errors. -/
theorem selectServices_panics_before_rejecting :
    selectServices "openfaas" ⟨none, ["no-certs", "ingress"], false⟩ = none
      ∧ selectServices "openfaas" ⟨none, ["riff"], false⟩ = none
      ∧ (selectServices "openfaas" ⟨some [], ["no-certs", "ingress"], false⟩).map
          (fun r => r.1)
        = some (some "can either whitelist or blacklist services, not both.")
      ∧ (selectServices "openfaas" ⟨some [], ["riff"], false⟩).map (fun r => r.1)
        = some (some "unknown service: riff") :=
  ⟨rfl, rfl, by decide, by decide⟩

/-! ### `OnAction` on values that may be nil -/

theorem lift_Value (ctx : Context) (k : Key) :
    (Ptr.lift ctx).Value k = (ctx.Value k).map Ptr.liftBinding := by
  induction ctx with
  | Background => rfl
  | WithValue p b ih =>
    have hkey : (Ptr.liftBinding b).key = b.key := by cases b <;> rfl
    simp only [Ptr.lift, Ptr.Context.Value, Context.Value, hkey]
    split
    · rfl
    · exact ih
  | WithCancel p id ih => exact ih
  | WithDeadline p d id ih => exact ih

theorem lift_WithRequestID (ctx : Context) (u : String) :
    Ptr.WithRequestID (Ptr.lift ctx) u
      = (some (WithRequestID ctx u).1, Ptr.lift (WithRequestID ctx u).2) := by
  simp only [Ptr.WithRequestID, WithRequestID, lift_Value, Ptr.WithLogger, WithLogger,
    Ptr.lift, Ptr.liftBinding]
  cases h : ctx.Value .logKey with
  | none => rfl
  | some b => cases b <;> rfl

/-- The two models of `OnAction` agree. On a context, an entity and loggers that are not
nil, the call does not panic, and what it does is what the first model appends to the
trace: the warning line on a nil watcher, the send of the event otherwise. -/
theorem OnAction_refines {σ : Type} (w : WatcherPtr) (ctx : Context) (e : Entity)
    (world : World σ) :
    match Ptr.OnAction w (some (Ptr.lift ctx)) (some e) world.spans
        (world.newV4 world.minted) with
    | .warned logger msg =>
      (OnAction w ctx e world).trace = world.trace ++ [.log .Warn logger msg]
    | .sent ch e1 c =>
      ∃ c0 : Context, c = Ptr.lift c0 ∧ e1 = some e
        ∧ (OnAction w ctx e world).trace = world.trace ++ [.send ch ⟨e, c0⟩]
    | .panicked => False := by
  have htrace : ∀ ev : Event,
      (((Trace ctx "" world).2.2.WithRequestID ctx).2.2.emit ev).trace
        = world.trace ++ [ev] := by
    intro ev
    simp only [Trace, World.WithRequestID, World.emit]
    split <;> rfl
  have hlog : ((Trace ctx "" world).2.2.WithRequestID ctx).1
      = (WithRequestID ctx (world.newV4 world.minted)).1 := rfl
  rcases w with _ | _ | ch
  · simp only [Ptr.OnAction, lift_WithRequestID, OnAction, World.logf]
    rw [htrace, hlog]
  · simp only [Ptr.OnAction, lift_WithRequestID, OnAction, World.logf]
    rw [htrace, hlog]
  · simp only [Ptr.OnAction, lift_WithRequestID, OnAction]
    refine ⟨ContextWithSpan (WithLogger .Background
      (WithRequestID ctx (world.newV4 world.minted)).1) ⟨"", world.spans⟩, rfl, trivial, ?_⟩
    rw [htrace]
    rfl

/-- Claim C11, refuted as stated. The watcher is nil and the context is
`log.WithLogger(context.Background(), nil)`: `WithRequestID` returns the nil pointer it
finds, and `OnAction` panics at `logger.Warnf`, for the nil `*Watcher` and for the
pointer to a nil channel, with no line written. It also panics on a nil entity. -/
theorem OnAction_nil_logger_panics :
    (Ptr.WithRequestID (Ptr.WithLogger .Background none) "uuid-0").1 = none
      ∧ Ptr.OnAction none (some (Ptr.WithLogger .Background none))
          (some (sampleEntity "READY" false)) 0 "uuid-0" = .panicked
      ∧ Ptr.OnAction (some none) (some (Ptr.WithLogger .Background none))
          (some (sampleEntity "READY" false)) 0 "uuid-0" = .panicked
      ∧ Ptr.OnAction none (some .Background) none 0 "uuid-0" = .panicked := by
  decide

/-- Claim C11, amended. For every context that is not nil and whose value under
`logKey{}`, if there is one, is not the nil pointer, and every entity that is not nil,
`OnAction` called on a nil watcher, a nil pointer or a pointer to a nil channel, writes
the warning through the request logger and returns: it sends no event and does not
panic. With the nil pointer under `logKey{}` it panics. -/
theorem OnAction_nil_watcher_warns (w : WatcherPtr) (ctx : Ptr.Context) (e : Entity)
    (serial : Nat) (newV4 : String) (hnil : w = none ∨ w = some none) :
    (ctx.Value .logKey ≠ some (.logger none) →
        ∃ logger : Entry, (Ptr.WithRequestID ctx newV4).1 = some logger
          ∧ Ptr.OnAction w (some ctx) (some e) serial newV4
            = .warned logger
                ("nil watcher, skipping entity update: " ++ e.Name ++ " - " ++ e.Status))
      ∧ (ctx.Value .logKey = some (.logger none) →
        Ptr.OnAction w (some ctx) (some e) serial newV4 = .panicked) := by
  constructor
  · intro hlog
    have hsome : ∃ logger : Entry, (Ptr.WithRequestID ctx newV4).1 = some logger := by
      simp only [Ptr.WithRequestID]
      cases h : ctx.Value .logKey with
      | none => exact ⟨_, rfl⟩
      | some b =>
        cases b with
        | logger l =>
          cases l with
          | none => exact absurd h hlog
          | some l => exact ⟨l, rfl⟩
        | span s => exact ⟨_, rfl⟩
        | other n v => exact ⟨_, rfl⟩
    obtain ⟨logger, hl⟩ := hsome
    refine ⟨logger, hl, ?_⟩
    rcases hnil with h | h <;> subst h <;> simp only [Ptr.OnAction, hl]
  · intro hlog
    have hl : (Ptr.WithRequestID ctx newV4).1 = none := by
      simp only [Ptr.WithRequestID, hlog]
    rcases hnil with h | h <;> subst h <;> simp only [Ptr.OnAction, hl]

theorem OnAction_nil_watcher_warns_witness :
    ((some none : WatcherPtr) = none ∨ (some none : WatcherPtr) = some none)
      ∧ (Ptr.lift requestCtx).Value .logKey ≠ some (.logger none)
      ∧ (∃ logger : Entry,
          (Ptr.WithRequestID (Ptr.lift requestCtx) "uuid-0").1 = some logger
          ∧ Ptr.OnAction (some none) (some (Ptr.lift requestCtx))
              (some (sampleEntity "READY" false)) 0 "uuid-0"
            = .warned logger
                ("nil watcher, skipping entity update: " ++ (sampleEntity "READY" false).Name
                  ++ " - " ++ (sampleEntity "READY" false).Status))
      ∧ Ptr.OnAction (some none) (some (Ptr.lift requestCtx))
          (some (sampleEntity "READY" false)) 0 "uuid-0"
        = .warned ⟨[("requestId", "uuid-0")]⟩
            "nil watcher, skipping entity update: fn - READY" :=
  ⟨Or.inr rfl, by decide,
    (OnAction_nil_watcher_warns (some none) (Ptr.lift requestCtx)
      (sampleEntity "READY" false) 0 "uuid-0" (Or.inr rfl)).1 (by decide),
    by decide⟩

/-! ### The resync pass with its goroutines -/

theorem syncCtx_Err {σ : Type} (w : World σ) (fired : List Nat) :
    (syncCtx w).Err fired = none := rfl

theorem syncItem_calls {σ : Type} (dc : DefaultController σ) (ctx : Context) (log : Entry)
    (e : Entity) (w : World σ) :
    ∀ c ∈ calls (syncItem dc ctx log e w).trace, c ∈ calls w.trace ∨ c.2.2.2 = e := by
  intro c hc
  have hp : ∀ w1 : World σ, ∀ c ∈ calls (processItem dc ctx e w1).2.trace,
      c ∈ calls w1.trace ∨ c.2.2.2 = e := by
    intro w1 c hc
    rw [processItem_trace, calls_append] at hc
    rcases List.mem_append.mp hc with h | h
    · exact Or.inl h
    · right
      cases hreg : dc.entityHandlers.lookup e.TypeOf with
      | none => simp [hreg, calls] at h
      | some hd =>
        cases hm : methodOf e with
        | none => simp [hreg, hm, calls] at h
        | some m =>
          simp only [hreg, hm, calls, List.mem_singleton] at h
          rw [h]
  have htrace : calls (syncItem dc ctx log e w).trace
      = calls (processItem dc ctx e (w.logf .Debug log
          ("sync: processing entity " ++ e.Name ++ " (" ++ e.Status ++ ")"))).2.trace := by
    simp only [syncItem]
    split <;> simp [World.logf, World.emit, calls_append, calls]
  rw [htrace] at hc
  rcases hp _ c hc with h | h
  · left
    simpa [World.logf, World.emit, calls_append, calls] using h
  · exact Or.inr h

/-- A step of a resync pass keeps what `Pass.Good` states. -/
theorem pass_step_good {σ : Type} (dc : DefaultController σ) (w : World σ)
    (s t : Pass σ) (m : PassMove) (hs : s.Good dc w)
    (hstep : s.step dc (syncCtx w) (syncLog w) m = some t) : t.Good dc w := by
  obtain ⟨hcalls, hwait, pre, hsync, hreg, hlist, hdone, herr⟩ := hs
  cases m with
  | next =>
    simp only [Pass.step] at hstep
    split at hstep
    · cases hstep
    · rename_i hguard
      have hres : s.result = none := by
        cases hr : s.result with
        | none => rfl
        | some r => simp [hr] at hguard
      have hent : s.entities = [] := by
        cases he : s.entities with
        | nil => rfl
        | cons e es => simp [he] at hguard
      cases hrest : s.rest with
      | nil =>
        simp only [hrest, Option.some.injEq] at hstep
        subst hstep
        refine ⟨hcalls, hwait, pre, hsync, by simpa [hrest] using hreg, hlist,
          fun _ => hent, ?_⟩
        intro err h
        simp at h
      | cons h hs =>
        simp only [hrest] at hstep
        have hsync1 : syncCalls (s.world.invokeSync h (syncCtx w)
            dc.options.ResyncPeriod).2.trace
            = syncCalls w.trace ++ (pre ++ [h]).map (fun h => h.Type_) := by
          simp [World.invokeSync, syncCalls_append, syncCalls, hsync]
        have hcalls1 : calls (s.world.invokeSync h (syncCtx w)
            dc.options.ResyncPeriod).2.trace = calls s.world.trace := by
          simp [World.invokeSync, calls_append, calls]
        have hreg1 : dc.entityHandlers.map Prod.snd = (pre ++ [h]) ++ hs := by
          rw [hreg, hrest]
          simp
        cases hsyncerr : (s.world.invokeSync h (syncCtx w)
            dc.options.ResyncPeriod).1.2 with
        | some err =>
          simp only [hsyncerr, Option.some.injEq] at hstep
          subst hstep
          refine ⟨?_, hwait, pre ++ [h], hsync1, hreg1, hlist, fun _ => hent, ?_⟩
          · intro c hc
            exact hcalls c (by rw [← hcalls1]; exact hc)
          · intro _ _
            simp
        | none =>
          simp only [hsyncerr, Option.some.injEq] at hstep
          subst hstep
          refine ⟨?_, hwait, pre ++ [h], hsync1, hreg1, ?_, ?_, ?_⟩
          · intro c hc
            exact hcalls c (by rw [← hcalls1]; exact hc)
          · show s.spawned ++ _ = s.listed ++ _
            rw [← hlist, hent, List.append_nil]
          · intro h1
            simp [hres] at h1
          · intro err h1
            simp [hres] at h1
  | spawn =>
    simp only [Pass.step] at hstep
    split at hstep
    · cases hstep
    · rename_i hguard
      have hres : s.result = none := by
        cases hr : s.result with
        | none => rfl
        | some r => simp [hr] at hguard
      cases hent : s.entities with
      | nil => simp [hent] at hstep
      | cons e es =>
        simp only [hent] at hstep
        split at hstep
        · simp only [Option.some.injEq] at hstep
          subst hstep
          refine ⟨?_, ?_, pre, hsync, hreg, ?_, ?_, ?_⟩
          · intro c hc
            rcases hcalls c hc with h | h
            · exact Or.inl h
            · exact Or.inr (List.mem_append_left _ h)
          · intro x hx
            rcases List.mem_append.mp hx with h | h
            · exact List.mem_append_left _ (hwait x h)
            · exact List.mem_append_right _ h
          · show (s.spawned ++ [e]) ++ es = s.listed
            rw [← hlist, hent]
            simp
          · intro h1
            simp [hres] at h1
          · intro err h1
            simp [hres] at h1
        · cases hstep
  | fail =>
    simp only [Pass.step, syncCtx_Err] at hstep
    split at hstep
    · cases hstep
    · split at hstep
      · rename_i heq
        cases heq
      · cases hstep
  | body i =>
    simp only [Pass.step] at hstep
    cases hi : s.waiting[i]? with
    | none => simp [hi] at hstep
    | some e =>
      simp only [hi, Option.some.injEq] at hstep
      subst hstep
      have he : e ∈ s.waiting := List.getElem?_mem hi
      refine ⟨?_, ?_, pre, ?_, hreg, hlist, hdone, herr⟩
      · intro c hc
        rcases syncItem_calls dc (syncCtx w) (syncLog w) e s.world c hc with h | h
        · exact hcalls c h
        · right
          rw [h]
          exact hwait e he
      · intro x hx
        exact hwait x (List.mem_of_mem_eraseIdx hx)
      · show syncCalls (syncItem dc (syncCtx w) (syncLog w) e s.world).trace = _
        rw [syncItem_syncCalls]
        exact hsync
  | release =>
    simp only [Pass.step] at hstep
    split at hstep
    · simp only [Option.some.injEq] at hstep
      subst hstep
      exact ⟨hcalls, hwait, pre, hsync, hreg, hlist, hdone, herr⟩
    · cases hstep

theorem pass_start_good {σ : Type} (dc : DefaultController σ) (w : World σ) :
    (Pass.start dc w).Good dc w := by
  have htrace : (syncWorld w).trace = w.trace := by
    simp only [syncWorld, Trace, World.WithRequestID]
    split <;> rfl
  refine ⟨?_, ?_, [], ?_, rfl, rfl, fun _ => rfl, ?_⟩
  · intro c hc
    left
    have h : calls (Pass.start dc w).world.trace = calls w.trace := by
      show calls (syncWorld w).trace = _
      rw [htrace]
    rw [← h]
    exact hc
  · intro e he
    cases he
  · show syncCalls (syncWorld w).trace = _
    rw [htrace]
    simp
  · intro err h
    cases h

theorem pass_exec_good {σ : Type} (dc : DefaultController σ) (w : World σ)
    (ms : List PassMove) :
    ∀ s t : Pass σ, s.Good dc w → Pass.exec dc (syncCtx w) (syncLog w) ms s = some t →
      t.Good dc w := by
  induction ms with
  | nil =>
    intro s t hs h
    simp only [Pass.exec, Option.some.injEq] at h
    rw [← h]
    exact hs
  | cons m ms ih =>
    intro s t hs h
    simp only [Pass.exec] at h
    cases hstep : s.step dc (syncCtx w) (syncLog w) m with
    | none => simp [hstep] at h
    | some s1 =>
      simp only [hstep, Option.bind_some] at h
      exact ih s1 t (pass_step_good dc w s s1 m hs hstep) h

/-- Once `sync` has returned, the steps left are those of the goroutines: they change
neither the result, nor the handlers not visited, nor the calls of `Sync` made, nor the
goroutines spawned. -/
theorem pass_step_returned {σ : Type} (dc : DefaultController σ) (ctx : Context)
    (log : Entry) (s t : Pass σ) (m : PassMove) (r : Option GoError)
    (hres : s.result = some r) (hstep : s.step dc ctx log m = some t) :
    t.result = some r ∧ t.rest = s.rest
      ∧ syncCalls t.world.trace = syncCalls s.world.trace
      ∧ t.spawned = s.spawned := by
  cases m with
  | next => simp [Pass.step, hres] at hstep
  | spawn => simp [Pass.step, hres] at hstep
  | fail => simp [Pass.step, hres] at hstep
  | body i =>
    simp only [Pass.step] at hstep
    cases hi : s.waiting[i]? with
    | none => simp [hi] at hstep
    | some e =>
      simp only [hi, Option.some.injEq] at hstep
      subst hstep
      exact ⟨hres, rfl, syncItem_syncCalls dc ctx log e s.world, rfl⟩
  | release =>
    simp only [Pass.step] at hstep
    split at hstep
    · simp only [Option.some.injEq] at hstep
      subst hstep
      exact ⟨hres, rfl, rfl, rfl⟩
    · cases hstep

theorem pass_exec_returned {σ : Type} (dc : DefaultController σ) (ctx : Context)
    (log : Entry) (ms : List PassMove) (r : Option GoError) :
    ∀ s t : Pass σ, s.result = some r → Pass.exec dc ctx log ms s = some t →
      t.result = some r ∧ t.rest = s.rest
        ∧ syncCalls t.world.trace = syncCalls s.world.trace
        ∧ t.spawned = s.spawned := by
  induction ms with
  | nil =>
    intro s t hres h
    simp only [Pass.exec, Option.some.injEq] at h
    subst h
    exact ⟨hres, rfl, rfl, rfl⟩
  | cons m ms ih =>
    intro s t hres h
    simp only [Pass.exec] at h
    cases hstep : s.step dc ctx log m with
    | none => simp [hstep] at h
    | some s1 =>
      simp only [hstep, Option.bind_some] at h
      obtain ⟨h1, h2, h3, h4⟩ := pass_step_returned dc ctx log s s1 m r hres hstep
      obtain ⟨k1, k2, k3, k4⟩ := ih s1 t h1 h
      exact ⟨k1, k2.trans h2, k3.trans h3, k4.trans h4⟩

/-- Claim C6, refuted as stated. Handlers `A` and `B` are registered, `Sync` of `A`
fails and `Sync` of `B` would return an entity. In the pass that visits `A` first, the
first step of `sync` calls `Sync` on `A` and returns its error: `B` is left unvisited,
no goroutine is spawned and no entity reaches `processItem`; `sync` has no step left. -/
theorem pass_abandons_later_handlers :
    failFirstController.entityHandlers.map (fun p => p.1) = ["A", "B"]
      ∧ (listingHandler.Sync (syncCtx sampleWorld) 1000 0).1
          = ([⟨"B", "id-7", "img", "CREATING", false, 0⟩], none)
      ∧ (Pass.run failFirstController sampleWorld [.next]).map
          (fun s => (s.result, syncCalls s.world.trace, s.rest.map (fun h => h.Type_),
            s.spawned, calls s.world.trace))
          = some (some (some "store down"), ["A"], ["B"], [], [])
      ∧ (Pass.run failFirstController sampleWorld [.next, .next]).isNone = true
      ∧ (Pass.run failFirstController sampleWorld [.next, .spawn]).isNone = true
      ∧ (Pass.run failFirstController sampleWorld [.next, .fail]).isNone = true :=
  ⟨rfl, rfl, rfl, rfl, rfl, rfl⟩

/-- Claim C6, amended. In every execution of a resync pass, with the goroutines of
`sync` running in any order: when the `Sync` of a handler returns an error, `sync`
returns that error in the same step; when `Sync` returns entities, `sync` spawns one
goroutine an entity as units of the semaphore come free, and each goroutine runs
`processItem` on its entity when it gets to run. Once `sync` has returned an error,
`Sync` has been called on the handlers visited before the failing one and on it, in the
order of the pass, a goroutine has been spawned for every entity those calls returned,
and from then on `Sync` is called on no other handler and no goroutine is spawned; the
handler methods are only ever called on entities for which a goroutine was spawned. -/
theorem pass_returns_first_error {σ : Type} (dc : DefaultController σ) (w : World σ)
    (ms : List PassMove) (s : Pass σ) (hrun : Pass.run dc w ms = some s) :
    (∀ (h : EntityHandler σ) (hs : List (EntityHandler σ)),
        s.result = none → s.entities = [] → s.rest = h :: hs →
        ∃ t : Pass σ, s.step dc (syncCtx w) (syncLog w) .next = some t
          ∧ t.world.trace
            = s.world.trace ++ [.sync h.Type_ (syncCtx w) dc.options.ResyncPeriod]
          ∧ t.rest = hs ∧ t.spawned = s.spawned ∧ t.waiting = s.waiting
          ∧ (∀ err : GoError,
              (h.Sync (syncCtx w) dc.options.ResyncPeriod s.world.hstate).1.2 = some err →
              t.result = some (some err) ∧ t.entities = [] ∧ t.listed = s.listed)
          ∧ ((h.Sync (syncCtx w) dc.options.ResyncPeriod s.world.hstate).1.2 = none →
              t.result = none
              ∧ t.entities = (h.Sync (syncCtx w) dc.options.ResyncPeriod s.world.hstate).1.1
              ∧ t.listed = s.listed
                ++ (h.Sync (syncCtx w) dc.options.ResyncPeriod s.world.hstate).1.1))
      ∧ (∀ (e : Entity) (es : List Entity),
          s.result = none → s.entities = e :: es → s.sem.size - s.sem.cur ≥ 1 →
          ∃ t : Pass σ, s.step dc (syncCtx w) (syncLog w) .spawn = some t
            ∧ t.entities = es ∧ t.spawned = s.spawned ++ [e]
            ∧ t.waiting = s.waiting ++ [e] ∧ t.world = s.world)
      ∧ (∀ (i : Nat) (e : Entity), s.waiting[i]? = some e →
          ∃ t : Pass σ, s.step dc (syncCtx w) (syncLog w) (.body i) = some t
            ∧ t.world = syncItem dc (syncCtx w) (syncLog w) e s.world
            ∧ t.waiting = s.waiting.eraseIdx i)
      ∧ (∀ err : GoError, s.result = some (some err) →
          ∃ (pre : List (EntityHandler σ)) (h : EntityHandler σ),
            dc.entityHandlers.map Prod.snd = pre ++ h :: s.rest
            ∧ syncCalls s.world.trace
              = syncCalls w.trace ++ (pre ++ [h]).map (fun h => h.Type_)
            ∧ s.entities = [] ∧ s.spawned = s.listed)
      ∧ (∀ (r : Option GoError) (ms2 : List PassMove) (t : Pass σ),
          s.result = some r → Pass.exec dc (syncCtx w) (syncLog w) ms2 s = some t →
          t.result = some r ∧ t.rest = s.rest
            ∧ syncCalls t.world.trace = syncCalls s.world.trace
            ∧ t.spawned = s.spawned)
      ∧ (∀ c ∈ calls s.world.trace, c ∈ calls w.trace ∨ c.2.2.2 ∈ s.spawned) := by
  have hgood : s.Good dc w :=
    pass_exec_good dc w ms (Pass.start dc w) s (pass_start_good dc w) hrun
  obtain ⟨hcalls, _, pre, hsync, hreg, hlist, hdone, herr⟩ := hgood
  refine ⟨?_, ?_, ?_, ?_, ?_, hcalls⟩
  · intro h hs hres hent hrest
    cases hsyncerr : (h.Sync (syncCtx w) dc.options.ResyncPeriod s.world.hstate).1.2 with
    | some err =>
      have herr1 : (s.world.invokeSync h (syncCtx w) dc.options.ResyncPeriod).1.2
          = some err := hsyncerr
      have hstep : s.step dc (syncCtx w) (syncLog w) .next
          = some { s with
              world := (s.world.invokeSync h (syncCtx w) dc.options.ResyncPeriod).2
              rest := hs
              result := some (some err) } := by
        simp [Pass.step, hres, hent, hrest, herr1]
      refine ⟨_, hstep, rfl, rfl, rfl, rfl, ?_, ?_⟩
      · intro err1 h1
        cases h1
        exact ⟨rfl, hent, rfl⟩
      · intro h1
        cases h1
    | none =>
      have herr1 : (s.world.invokeSync h (syncCtx w) dc.options.ResyncPeriod).1.2
          = none := hsyncerr
      have hstep : s.step dc (syncCtx w) (syncLog w) .next
          = some { s with
              world := (s.world.invokeSync h (syncCtx w) dc.options.ResyncPeriod).2
              rest := hs
              entities := (s.world.invokeSync h (syncCtx w) dc.options.ResyncPeriod).1.1
              listed := s.listed
                ++ (s.world.invokeSync h (syncCtx w) dc.options.ResyncPeriod).1.1 } := by
        simp [Pass.step, hres, hent, hrest, herr1]
      refine ⟨_, hstep, rfl, rfl, rfl, rfl, ?_, ?_⟩
      · intro err1 h1
        cases h1
      · intro _
        exact ⟨hres, rfl, rfl⟩
  · intro e es hres hent hfree
    have hstep : s.step dc (syncCtx w) (syncLog w) .spawn
        = some { s with
            entities := es
            sem := { s.sem with cur := s.sem.cur + 1 }
            waiting := s.waiting ++ [e]
            spawned := s.spawned ++ [e] } := by
      simp [Pass.step, hres, hent, hfree]
    exact ⟨_, hstep, rfl, rfl, rfl, rfl⟩
  · intro i e hi
    have hstep : s.step dc (syncCtx w) (syncLog w) (.body i)
        = some { s with
            world := syncItem dc (syncCtx w) (syncLog w) e s.world
            waiting := s.waiting.eraseIdx i
            leaving := s.leaving + 1 } := by
      simp [Pass.step, hi]
    exact ⟨_, hstep, rfl, rfl⟩
  · intro err hres
    have hne := herr err hres
    have hent : s.entities = [] := hdone (by simp [hres])
    obtain ⟨pre0, h, hpre⟩ : ∃ (pre0 : List (EntityHandler σ)) (h : EntityHandler σ),
        pre = pre0 ++ [h] :=
      ⟨pre.dropLast, pre.getLast hne, (List.dropLast_append_getLast hne).symm⟩
    refine ⟨pre0, h, ?_, ?_, hent, ?_⟩
    · rw [hreg, hpre]
      simp
    · rw [hsync, hpre]
    · rw [← hlist, hent, List.append_nil]
  · intro r ms2 t hres hexec
    exact pass_exec_returned dc (syncCtx w) (syncLog w) ms2 r s t hres hexec

theorem pass_returns_first_error_witness :
    failLastController.entityHandlers.map (fun p => p.1) = ["B", "A"]
      ∧ ∃ s : Pass Nat,
        Pass.run failLastController sampleWorld [.next, .spawn, .next] = some s
        ∧ s.result = some (some "store down")
        ∧ s.waiting = [⟨"B", "id-7", "img", "CREATING", false, 0⟩]
        ∧ calls s.world.trace = []
        ∧ (∃ (pre : List (EntityHandler Nat)) (h : EntityHandler Nat),
            failLastController.entityHandlers.map Prod.snd = pre ++ h :: s.rest
            ∧ syncCalls s.world.trace
              = syncCalls sampleWorld.trace ++ (pre ++ [h]).map (fun h => h.Type_)
            ∧ s.entities = [] ∧ s.spawned = s.listed)
        ∧ syncCalls s.world.trace = ["B", "A"]
        ∧ s.spawned = [⟨"B", "id-7", "img", "CREATING", false, 0⟩]
        ∧ (Pass.exec failLastController (syncCtx sampleWorld) (syncLog sampleWorld)
            [.body 0, .release] s).map
            (fun t => (t.result, syncCalls t.world.trace,
              (calls t.world.trace).map (fun c => (c.1, c.2.1, c.2.2.2))))
          = some (some (some "store down"), ["B", "A"],
              [("B", Method.Add, ⟨"B", "id-7", "img", "CREATING", false, 0⟩)]) :=
  ⟨rfl, _, rfl, rfl, rfl, rfl,
    (pass_returns_first_error failLastController sampleWorld [.next, .spawn, .next] _
      rfl).2.2.2.1 "store down" rfl,
    rfl, rfl, rfl⟩

theorem pass_exec_append {σ : Type} (dc : DefaultController σ) (ctx : Context) (log : Entry)
    (ms1 ms2 : List PassMove) :
    ∀ s : Pass σ, Pass.exec dc ctx log (ms1 ++ ms2) s
      = (Pass.exec dc ctx log ms1 s).bind (Pass.exec dc ctx log ms2) := by
  induction ms1 with
  | nil =>
    intro s
    rfl
  | cons m ms1 ih =>
    intro s
    simp only [List.cons_append, Pass.exec]
    cases s.step dc ctx log m with
    | none => rfl
    | some s1 => exact ih s1

/-- The loop of `sync` over the entities of a handler, with each goroutine run where it
is spawned, is an execution of the pass: spawn, body and release for every entity. -/
theorem syncEntities_is_execution {σ : Type} (dc : DefaultController σ) (ctx : Context)
    (log : Entry) (es : List Entity) :
    ∀ (s : Pass σ) (w1 : World σ), s.result = none → s.waiting = [] → s.leaving = 0 →
      s.entities = es → syncEntities dc s.sem ctx log es s.world = some w1 →
      ∃ (ms : List PassMove) (t : Pass σ), Pass.exec dc ctx log ms s = some t
        ∧ t.world = w1 ∧ t.entities = [] ∧ t.rest = s.rest ∧ t.result = none
        ∧ t.waiting = [] ∧ t.leaving = 0 ∧ t.sem = s.sem := by
  induction es with
  | nil =>
    intro s w1 hres hwait hleave hent h
    simp only [syncEntities, Option.some.injEq] at h
    exact ⟨[], s, rfl, h, hent, rfl, hres, hwait, hleave, rfl⟩
  | cons e es ih =>
    intro s w1 hres hwait hleave hent h
    obtain ⟨world, rest, entities, sem, waiting, leaving, result, listed, spawned⟩ := s
    dsimp only at hres hwait hleave hent h
    subst hres hwait hleave hent
    simp only [syncEntities] at h
    split_ifs at h with hfree
    · obtain ⟨ms, t, hexec, h1, h2, h3, h4, h5, h6, h7⟩ :=
        ih ⟨syncItem dc ctx log e world, rest, es, sem, [], 0, none, listed, spawned ++ [e]⟩
          w1 rfl rfl rfl rfl h
      refine ⟨[.spawn, .body 0, .release] ++ ms, t, ?_, h1, h2, h3, h4, h5, h6, h7⟩
      rw [pass_exec_append]
      have hfirst : Pass.exec dc ctx log [.spawn, .body 0, .release]
          ⟨world, rest, e :: es, sem, [], 0, none, listed, spawned⟩
          = some ⟨syncItem dc ctx log e world, rest, es, sem, [], 0, none, listed,
              spawned ++ [e]⟩ := by
        simp [Pass.exec, Pass.step, hfree]
      rw [hfirst]
      exact hexec
    · cases herr : ctx.Err world.fired with
      | none => simp [herr] at h
      | some err =>
        simp only [herr, Option.some.injEq] at h
        refine ⟨[.fail], ⟨w1, rest, [], sem, [], 0, none, listed, spawned⟩, ?_, rfl, rfl,
          rfl, rfl, rfl, rfl, rfl⟩
        simp [Pass.exec, Pass.step, herr, h]

/-- The loop of `sync` over the handlers, with each goroutine run where it is spawned,
is an execution of the pass. -/
theorem syncHandlers_is_execution {σ : Type} (dc : DefaultController σ) (ctx : Context)
    (log : Entry) (hs : List (EntityHandler σ)) :
    ∀ (s : Pass σ) (res : Option GoError) (w1 : World σ), s.result = none →
      s.waiting = [] → s.leaving = 0 → s.entities = [] → s.rest = hs →
      syncHandlers dc s.sem ctx log hs s.world = some (res, w1) →
      ∃ (ms : List PassMove) (t : Pass σ), Pass.exec dc ctx log ms s = some t
        ∧ t.result = some res ∧ t.world = w1 ∧ t.waiting = [] ∧ t.leaving = 0 := by
  induction hs with
  | nil =>
    intro s res w1 hres hwait hleave hent hrest h
    simp only [syncHandlers, Option.some.injEq, Prod.mk.injEq] at h
    refine ⟨[.next], { s with result := some none }, ?_, by rw [← h.1], h.2, hwait, hleave⟩
    simp [Pass.exec, Pass.step, hres, hent, hrest]
  | cons h0 hs ih =>
    intro s res w1 hres hwait hleave hent hrest h
    simp only [syncHandlers] at h
    cases herr : (s.world.invokeSync h0 ctx dc.options.ResyncPeriod).1.2 with
    | some err =>
      simp only [herr, Option.some.injEq, Prod.mk.injEq] at h
      refine ⟨[.next], { s with
          world := (s.world.invokeSync h0 ctx dc.options.ResyncPeriod).2
          rest := hs
          result := some (some err) }, ?_, by rw [← h.1], h.2, hwait, hleave⟩
      simp [Pass.exec, Pass.step, hres, hent, hrest, herr]
    | none =>
      simp only [herr] at h
      cases hsync : syncEntities dc s.sem ctx log
          (s.world.invokeSync h0 ctx dc.options.ResyncPeriod).1.1
          (s.world.invokeSync h0 ctx dc.options.ResyncPeriod).2 with
      | none => simp [hsync] at h
      | some w2 =>
        simp only [hsync] at h
        have hstep : Pass.exec dc ctx log [.next] s
            = some { s with
                world := (s.world.invokeSync h0 ctx dc.options.ResyncPeriod).2
                rest := hs
                entities := (s.world.invokeSync h0 ctx dc.options.ResyncPeriod).1.1
                listed := s.listed
                  ++ (s.world.invokeSync h0 ctx dc.options.ResyncPeriod).1.1 } := by
          simp [Pass.exec, Pass.step, hres, hent, hrest, herr]
        obtain ⟨ms1, t1, hexec1, k1, k2, k3, k4, k5, k6, k7⟩ :=
          syncEntities_is_execution dc ctx log _
            { s with
              world := (s.world.invokeSync h0 ctx dc.options.ResyncPeriod).2
              rest := hs
              entities := (s.world.invokeSync h0 ctx dc.options.ResyncPeriod).1.1
              listed := s.listed
                ++ (s.world.invokeSync h0 ctx dc.options.ResyncPeriod).1.1 }
            w2 hres hwait hleave rfl hsync
        have h2 : syncHandlers dc t1.sem ctx log hs t1.world = some (res, w1) := by
          rw [k7, k1]
          exact h
        obtain ⟨ms2, t2, hexec2, j1, j2, j3, j4⟩ := ih t1 res w1 k4 k5 k6 k2 k3 h2
        refine ⟨[.next] ++ (ms1 ++ ms2), t2, ?_, j1, j2, j3, j4⟩
        rw [pass_exec_append, hstep, Option.some_bind, pass_exec_append, hexec1,
          Option.some_bind]
        exact hexec2

/-- The method `sync` with each goroutine run where it is spawned is one execution of
the resync pass, the one in which every goroutine has ended when `sync` returns. -/
theorem sync_is_execution {σ : Type} (dc : DefaultController σ) (w w1 : World σ)
    (res : Option GoError) (hsync : sync dc w = some (res, w1)) :
    ∃ (ms : List PassMove) (s : Pass σ), Pass.run dc w ms = some s
      ∧ s.result = some res ∧ s.world = w1 ∧ s.waiting = [] ∧ s.leaving = 0 :=
  syncHandlers_is_execution dc (syncCtx w) (syncLog w) (dc.entityHandlers.map Prod.snd)
    (Pass.start dc w) res w1 rfl rfl rfl rfl rfl hsync

end Dispatch
